import Mathlib

/-!
# uneif: a decoder and extractor for CFBF (OLE2 structured storage) containers

A shallow embedding of `cfbf.h` / `cfbf.cpp` / `uneif.cpp`.

Modelling conventions.

* Bytes, 16-bit code units and the 32/64-bit fields are natural numbers; where the
  C++ code computes in `unsigned` 32-bit arithmetic the value is reduced modulo `2^32`.
* The host is little-endian (the code reinterprets raw sector bytes as records).
* The input `std::istream` is a `Source` (the bytes of the file and a device-fault
  oracle) together with an `IStream` state (the read position and the list of reads
  performed so far).
* C++ exceptions are values of `Exn`; a computation ends in a `Res`: a value, an
  exception, non-termination (the fuel of a loop that the code does not bound ran
  out) or a run for which nothing is fixed here (undefined behaviour of C++, such as
  an out-of-bounds access through a raw pointer, or a path name whose meaning is left
  to the platform).
* `size_t` has 64 bits. A `reserve` or `resize` whose argument comes from the file
  asks the allocator of the `Source` for the storage and raises `std::length_error`
  or `std::bad_alloc` when it is refused; the growth of a vector by one sector inside
  a loop is taken to succeed.
* The filesystem is a map from locations to directory-or-file-content, a location
  being the list of the components that lead to it from the root directory. A path is
  the list of the operands of `operator/` it was built from; `locate` gives the
  location it names under the POSIX path syntax.
* Write failures on an opened output file are not modelled.
-/

namespace Uneif

/-! ## Constants of `cfbf.h` -/

/-- Size of a sector in bytes. -/
def SectSize : Nat := 512

/-- Size of a directory record in bytes. -/
def DirEntrySize : Nat := 128

/-- Size of a mini-sector in bytes. -/
def MiniSectSize : Nat := 64

/-- Number of DIFAT entries stored in the header. -/
def FatEntriesInHeader : Nat := 109

/-- Number of DIFAT entries stored in one DIFAT sector. -/
def FatEntriesPerSect : Nat := 127

/-- Sentinel `SectId::Dif`. -/
def SectId.Dif : Nat := 0xfffffffc

/-- Sentinel `SectId::Fat`. -/
def SectId.Fat : Nat := 0xfffffffd

/-- Sentinel `SectId::EndOfChain`. -/
def SectId.EndOfChain : Nat := 0xfffffffe

/-- Sentinel `SectId::Free`. -/
def SectId.Free : Nat := 0xffffffff

/-- Sentinel `StreamID::NoStream`. -/
def StreamID.NoStream : Nat := 0xffffffff

/-- Object kind `ObjType::Unknown`. -/
def ObjType.Unknown : Nat := 0

/-- Object kind `ObjType::Storage`. -/
def ObjType.Storage : Nat := 1

/-- Object kind `ObjType::Stream`. -/
def ObjType.Stream : Nat := 2

/-- Object kind `ObjType::RootStorage`. -/
def ObjType.RootStorage : Nat := 5

/-- Reduction of a natural number to an `unsigned` 32-bit value. -/
def u32 (n : Nat) : Nat := n % 2 ^ 32

/-- The argument of `seekg` for sector `s`: the C++ expression `(s + 1) * SectSize`
with `s` a `uint32_t`, evaluated in `unsigned` 32-bit arithmetic. -/
def sectOffset (s : Nat) : Nat := u32 (u32 (s + 1) * SectSize)

/-- The C++ expression `i * MiniSectSize` with `i` a `uint32_t`. -/
def miniOffset (i : Nat) : Nat := u32 (i * MiniSectSize)

/-! ## Records -/

/-- The 512-byte header (`struct Header`). -/
structure Header where
  magic : List Nat
  clsid : List Nat
  minorVersion : Nat
  dllVersion : Nat
  bom : Nat
  log2SectorSize : Nat
  log2MiniSectorSize : Nat
  reserved0 : Nat
  reserved1 : Nat
  dirSectNum : Nat
  fatSectNum : Nat
  dirBeginSect : Nat
  signature : Nat
  miniSectorCutoff : Nat
  miniFatBeginSect : Nat
  miniFatSectNum : Nat
  difBeginSect : Nat
  difSectNum : Nat
  fatSects : List Nat
deriving DecidableEq, Repr

/-- The default-initialised header of `cfbf.h` (`fatSects` has no initialiser; it is
not inspected by `checkHeader`). -/
def defaultHeader : Header where
  magic := [0xd0, 0xcf, 0x11, 0xe0, 0xa1, 0xb1, 0x1a, 0xe1]
  clsid := List.replicate 16 0
  minorVersion := 33
  dllVersion := 3
  bom := 0xfffe
  log2SectorSize := 9
  log2MiniSectorSize := 6
  reserved0 := 0
  reserved1 := 0
  dirSectNum := 0
  fatSectNum := 0
  dirBeginSect := 0
  signature := 0
  miniSectorCutoff := 4096
  miniFatBeginSect := 0
  miniFatSectNum := 0
  difBeginSect := 0
  difSectNum := 0
  fatSects := List.replicate 109 0

/-- The 128-byte directory record (`struct DirEntry`). `name` is the 32-unit
UTF-16 buffer. -/
structure DirEntry where
  name : List Nat
  nameLen : Nat
  objType : Nat
  colorFlag : Nat
  leftSiblingId : Nat
  rightSiblingId : Nat
  childId : Nat
  clsid : List Nat
  state : Nat
  creationTime : Nat
  modifiedTime : Nat
  startSect : Nat
  streamSize : Nat
deriving DecidableEq, Repr

/-! ## Little-endian decoding of raw sector bytes -/

/-- Little-endian value of a byte string. -/
def leNat : List Nat → Nat
  | [] => 0
  | b :: bs => b % 256 + 256 * leNat bs

/-- The `n`-byte little-endian field at byte offset `off`. -/
def fieldAt (bytes : List Nat) (off n : Nat) : Nat :=
  leNat ((bytes.drop off).take n)

/-- A byte string read as consecutive 32-bit words (a trailing incomplete word is
dropped). -/
def words : List Nat → List Nat
  | b0 :: b1 :: b2 :: b3 :: rest => leNat [b0, b1, b2, b3] :: words rest
  | _ => []

/-- A byte string read as consecutive 16-bit code units. -/
def units16 : List Nat → List Nat
  | b0 :: b1 :: rest => leNat [b0, b1] :: units16 rest
  | _ => []

/-- The header record stored in the first 512 bytes. -/
def parseHeader (b : List Nat) : Header where
  magic := (b.take 8).map (· % 256)
  clsid := ((b.drop 8).take 16).map (· % 256)
  minorVersion := fieldAt b 24 2
  dllVersion := fieldAt b 26 2
  bom := fieldAt b 28 2
  log2SectorSize := fieldAt b 30 2
  log2MiniSectorSize := fieldAt b 32 2
  reserved0 := fieldAt b 34 2
  reserved1 := fieldAt b 36 4
  dirSectNum := fieldAt b 40 4
  fatSectNum := fieldAt b 44 4
  dirBeginSect := fieldAt b 48 4
  signature := fieldAt b 52 4
  miniSectorCutoff := fieldAt b 56 4
  miniFatBeginSect := fieldAt b 60 4
  miniFatSectNum := fieldAt b 64 4
  difBeginSect := fieldAt b 68 4
  difSectNum := fieldAt b 72 4
  fatSects := words ((b.drop 76).take 436)

/-- The directory record stored in 128 bytes. -/
def parseDirEntry (b : List Nat) : DirEntry where
  name := units16 (b.take 64)
  nameLen := fieldAt b 64 2
  objType := fieldAt b 66 1
  colorFlag := fieldAt b 67 1
  leftSiblingId := fieldAt b 68 4
  rightSiblingId := fieldAt b 72 4
  childId := fieldAt b 76 4
  clsid := ((b.drop 80).take 16).map (· % 256)
  state := fieldAt b 96 4
  creationTime := fieldAt b 100 8
  modifiedTime := fieldAt b 108 8
  startSect := fieldAt b 116 4
  streamSize := fieldAt b 120 8

/-- A byte string read as consecutive 128-byte directory records. -/
def dirEntries (bytes : List Nat) : List DirEntry :=
  (List.range (bytes.length / DirEntrySize)).map fun k =>
    parseDirEntry ((bytes.drop (k * DirEntrySize)).take DirEntrySize)

/-! ## Exceptions and outcomes -/

/-- The exceptions the code can raise. `iosFailure bad` is `std::ios_base::failure`
raised while the stream has `badbit = bad`. -/
inductive Exn where
  | format
  | ioError
  | outOfRange
  | filesystem
  | iosFailure (bad : Bool)
  | lengthError
  | badAlloc
deriving DecidableEq, Repr

/-- How a computation ends: with a value, with an exception, not at all, or in a
way that is not fixed here. -/
inductive Res (α : Type) where
  | ok (a : α)
  | error (e : Exn)
  | diverge
  | undefined
deriving DecidableEq, Repr

/-- The outcome with the returned value forgotten. -/
def Res.outcome {α : Type} : Res α → Res Unit
  | .ok _ => .ok ()
  | .error e => .error e
  | .diverge => .diverge
  | .undefined => .undefined

/-- Sequencing of a stateful computation: the continuation runs only after a
normal return. -/
def andThen {α β σ : Type} (r : Res α × σ) (k : α → σ → Res β × σ) : Res β × σ :=
  match r with
  | (.ok a, s) => k a s
  | (.error e, s) => (.error e, s)
  | (.diverge, s) => (.diverge, s)
  | (.undefined, s) => (.undefined, s)

/-! ## The input stream -/

/-- The input and the allocator the decoder runs with: the bytes of the file, the
offsets at which the device fails, the largest number of bytes a vector may hold
(`vector<T>::max_size()` is `maxBytes / sizeof(T)`; `PTRDIFF_MAX` with the common
standard libraries), and the requests, in bytes, that the allocator refuses. -/
structure Source where
  data : List Nat
  fault : Nat → Bool
  maxBytes : Nat
  refuses : Nat → Bool

/-- A request for the storage of `count` elements of `size` bytes each, as made by
`reserve(count)` or `resize(count)` on an empty vector: nothing is asked for when
`count` is 0, `std::length_error` when `count` exceeds `max_size()`, `std::bad_alloc`
when the allocator refuses. -/
def Source.request (src : Source) (count size : Nat) : Option Exn :=
  if count = 0 then none
  else if src.maxBytes / size < count then some .lengthError
  else if src.refuses (count * size) then some .badAlloc
  else none

/-- Result of one `read`. -/
inductive ReadResult where
  | ok (bytes : List Nat)
  | short
  | bad
deriving DecidableEq, Repr

/-- One `read` of `n` bytes at offset `pos`: the requested bytes, a short read
(`eofbit | failbit`), or a device failure (`badbit`). -/
def Source.readAt (src : Source) (pos n : Nat) : ReadResult :=
  if src.fault pos then .bad
  else if pos + n ≤ src.data.length then .ok ((src.data.drop pos).take n)
  else .short

/-- State of the stream: the read position and the reads performed so far, as
(offset, length) pairs. -/
structure IStream where
  pos : Nat
  reads : List (Nat × Nat)
deriving DecidableEq, Repr

/-- A freshly opened stream. -/
def IStream.fresh : IStream := ⟨0, []⟩

/-- Positioning: `fin.seekg(off)`. -/
def IStream.seekg (s : IStream) (off : Nat) : IStream := { s with pos := off }

/-- Reading with the exception mask `badbit | failbit` (the constructor):
`fin.read(_, n)`. -/
def IStream.read (src : Source) (n : Nat) (s : IStream) : Res (List Nat) × IStream :=
  match src.readAt s.pos n with
  | .ok bytes => (.ok bytes, ⟨s.pos + n, s.reads ++ [(s.pos, n)]⟩)
  | .short => (.error (.iosFailure false), ⟨s.pos, s.reads ++ [(s.pos, n)]⟩)
  | .bad => (.error (.iosFailure true), ⟨s.pos, s.reads ++ [(s.pos, n)]⟩)

/-! ## The decoder -/

/-- The decoder (`class EifFile`): the borrowed input and the assembled tables. -/
structure EifFile where
  fin : Source
  header : Header
  dif : List Nat
  fat : List Nat
  miniFat : List Nat
  dirs : List DirEntry
  miniStream : List Nat

/-- Header validation, `EifFile::checkHeader`. -/
def checkHeader (header : Header) : Bool :=
  if header.magic ≠ defaultHeader.magic then false
  else if header.bom ≠ defaultHeader.bom then false
  else if header.log2SectorSize ≠ defaultHeader.log2SectorSize then false
  else if header.log2MiniSectorSize ≠ defaultHeader.log2MiniSectorSize then false
  else true

/-- The DIFAT loop of the constructor: read 127 entries and the next pointer at the
current position; stop on `EndOfChain`, otherwise seek to the next sector. -/
def readDif (src : Source) : Nat → List Nat → IStream → Res (List Nat) × IStream
  | 0, _, s => (.diverge, s)
  | fuel + 1, dif, s =>
    andThen (s.read src (SectSize - 4)) fun entries s1 =>
    andThen (s1.read src 4) fun nextBytes s2 =>
      let next := leNat nextBytes
      if next = SectId.EndOfChain then (.ok (dif ++ words entries), s2)
      else readDif src fuel (dif ++ words entries) (s2.seekg (sectOffset next))

/-- The FAT loop of the constructor, for `i` up to `fatSectNum`: read the sector
named by `dif.at(i)` into the slice of `fat` starting at `i * SectSize / 4`
(`k` counts the iterations left). -/
def readFat (src : Source) (dif : List Nat) :
    Nat → Nat → List Nat → IStream → Res (List Nat) × IStream
  | 0, _, fat, s => (.ok fat, s)
  | k + 1, i, fat, s =>
    match dif[i]? with
    | none => (.error .outOfRange, s)
    | some sect =>
      andThen ((s.seekg (sectOffset sect)).read src SectSize) fun bytes s1 =>
        let slot := u32 (i * SectSize) / 4
        if slot + SectSize / 4 ≤ fat.length then
          readFat src dif k (i + 1)
            (fat.take slot ++ words bytes ++ fat.drop (slot + SectSize / 4)) s1
        else (.undefined, s1)

/-- The FAT-chain loops of the constructor (MiniFAT, directory array, mini-stream):
`for (i = head; i != EndOfChain; i = fat.at(i))`, each iteration appending the
sector at `(i + 1) * SectSize`. The raw bytes are accumulated; the caller reads them
as words, directory records or bytes. -/
def readChain (src : Source) (fat : List Nat) :
    Nat → Nat → List Nat → IStream → Res (List Nat) × IStream
  | 0, i, acc, s => if i = SectId.EndOfChain then (.ok acc, s) else (.diverge, s)
  | fuel + 1, i, acc, s =>
    if i = SectId.EndOfChain then (.ok acc, s)
    else
      andThen ((s.seekg (sectOffset i)).read src SectSize) fun bytes s1 =>
        match fat[i]? with
        | none => (.error .outOfRange, s1)
        | some next => readChain src fat fuel next (acc ++ bytes) s1

/-- The header and the tables assembled before the root entry is checked. -/
structure Tables where
  header : Header
  dif : List Nat
  fat : List Nat
  miniFat : List Nat
  dirs : List DirEntry
deriving DecidableEq, Repr

/-- A `reserve` or `resize` of an empty vector in the stream state `s`: the state is
left as it is, and the exception of a refused request is raised. -/
def allocate (src : Source) (count size : Nat) (s : IStream) : Res Unit × IStream :=
  match src.request count size with
  | some e => (.error e, s)
  | none => (.ok (), s)

/-- The part of the constructor up to and including the directory array. The
arguments of `reserve` and `resize` are computed in `unsigned` 32-bit arithmetic
before they are divided by the `size_t` value `sizeof`. -/
def readTables (src : Source) (fuel : Nat) (s0 : IStream) : Res Tables × IStream :=
  andThen (s0.read src SectSize) fun hdr s1 =>
    let header := parseHeader hdr
    if checkHeader header = false then (.error .format, s1)
    else
      andThen (allocate src
        (u32 (FatEntriesInHeader + u32 (FatEntriesPerSect * header.difSectNum))) 4 s1)
        fun _ s1 =>
      andThen (if header.difSectNum > 0 then readDif src fuel header.fatSects s1
               else (.ok header.fatSects, s1)) fun dif s2 =>
      andThen (allocate src (u32 (header.fatSectNum * SectSize) / 4) 4 s2) fun _ s2 =>
      andThen (readFat src dif header.fatSectNum 0
                (List.replicate (u32 (header.fatSectNum * SectSize) / 4) 0) s2) fun fat s3 =>
      andThen (allocate src (u32 (header.miniFatSectNum * SectSize) / 4) 4 s3) fun _ s3 =>
      andThen (readChain src fat fuel header.miniFatBeginSect [] s3) fun miniFatBytes s4 =>
      andThen (allocate src (u32 (header.dirSectNum * SectSize) / DirEntrySize)
        DirEntrySize s4) fun _ s4 =>
      andThen (readChain src fat fuel header.dirBeginSect [] s4) fun dirBytes s5 =>
        (.ok ⟨header, dif, fat, words miniFatBytes, dirEntries dirBytes⟩, s5)

/-- The body of the `try` block of the constructor. -/
def constructBody (src : Source) (fuel : Nat) (s0 : IStream) : Res EifFile × IStream :=
  andThen (readTables src fuel s0) fun t s5 =>
    match t.dirs with
    | [] => (.error .format, s5)
    | root :: _ =>
      if root.objType ≠ ObjType.RootStorage then (.error .format, s5)
      else
        andThen (allocate src root.streamSize 1 s5) fun _ s5 =>
        andThen (readChain src t.fat fuel root.startSect [] s5) fun miniStream s6 =>
          (.ok ⟨src, t.header, t.dif, t.fat, t.miniFat, t.dirs, miniStream⟩, s6)

/-- The constructor `EifFile::EifFile(fin)` on a freshly opened stream: the body,
and the handler that turns a stream failure without `badbit` into a format error
and rethrows one with `badbit`. -/
def construct (src : Source) (fuel : Nat) : Res EifFile × IStream :=
  match constructBody src fuel IStream.fresh with
  | (.error (.iosFailure false), s) => (.error .format, s)
  | r => r

/-! ## The filesystem -/

/-- A list of strings of UTF-16 code units, read in two ways: as a location of the
filesystem, the components that lead to it from the root directory; and as a path
built by the walker, the operands of `operator/` in order (`locate` gives the
location such a path names). -/
abbrev Path := List (List Nat)

/-- What a path holds. -/
inductive FsNode where
  | dir
  | file (content : List Nat)
deriving DecidableEq, Repr

/-- The filesystem: a map from locations to directory-or-file-content. -/
abbrev FS := Path → Option FsNode

/-- The filesystem with the location `p` holding `n`. -/
def FS.set (fs : FS) (p : Path) (n : FsNode) : FS :=
  fun q => if q = p then some n else fs q

/-- Behaviour of `fs::create_directory` at the location `p`: nothing to do when `p`
is a directory; an error when `p` is a file or when the parent of `p` is not a
directory. -/
def FS.createDirectory (fs : FS) (p : Path) : Option FS :=
  match fs p with
  | some .dir => some fs
  | some (.file _) => none
  | none =>
    match fs p.dropLast with
    | some .dir => some (fs.set p .dir)
    | _ => none

/-- Behaviour of `std::ofstream fout(_, std::ios_base::binary)` at the location `p`:
the file is created or truncated; opening fails when `p` is a directory or when the
parent of `p` is not a directory. -/
def FS.openTrunc (fs : FS) (p : Path) : Option FS :=
  match fs p with
  | some .dir => none
  | _ =>
    match fs p.dropLast with
    | some .dir => some (fs.set p (.file []))
    | _ => none

/-! ## Stream extraction -/

/-- The mini-chain loop of `unpackFile`:
`for (i = startSect; remaining > 0; i = miniFat.at(i))`. Returns how the loop ends
and the bytes passed to `fout.write`, in order. The first argument bounds the number
of iterations. -/
def copyMini (eif : EifFile) : Nat → Nat → Nat → Res Unit × List Nat
  | 0, _, remaining => if remaining = 0 then (.ok (), []) else (.diverge, [])
  | fuel + 1, i, remaining =>
    if remaining = 0 then (.ok (), [])
    else if i = SectId.EndOfChain then (.error .format, [])
    else
      let readSize := min remaining MiniSectSize
      if miniOffset i + readSize > eif.miniStream.length then (.error .format, [])
      else
        let chunk := (eif.miniStream.drop (miniOffset i)).take readSize
        match eif.miniFat[i]? with
        | none => (.error .outOfRange, chunk)
        | some next =>
          let r := copyMini eif fuel next (remaining - readSize)
          (r.1, chunk ++ r.2)

/-- The main-chain loop of `unpackFile`:
`for (i = startSect; remaining > 0; i = fat.at(i))`, reading from the input with the
default exception mask, so that any failed read shows as `!fin`. -/
def copyMain (eif : EifFile) : Nat → Nat → Nat → Res Unit × List Nat
  | 0, _, remaining => if remaining = 0 then (.ok (), []) else (.diverge, [])
  | fuel + 1, i, remaining =>
    if remaining = 0 then (.ok (), [])
    else if i = SectId.EndOfChain then (.error .format, [])
    else
      let readSize := min remaining SectSize
      match eif.fin.readAt (sectOffset i) readSize with
      | .ok buf =>
        match eif.fat[i]? with
        | none => (.error .outOfRange, buf)
        | some next =>
          let r := copyMain eif fuel next (remaining - readSize)
          (r.1, buf ++ r.2)
      | .short => (.error .format, [])
      | .bad => (.error .format, [])

/-- The copy loop selected by `unpackFile` for the entry `node`. Every iteration
consumes at least one byte, so `streamSize` iterations always suffice. -/
def copyStream (eif : EifFile) (node : DirEntry) : Res Unit × List Nat :=
  if node.streamSize < eif.header.miniSectorCutoff then
    copyMini eif node.streamSize node.startSect node.streamSize
  else
    copyMain eif node.streamSize node.startSect node.streamSize

/-- The stream extractor `EifFile::unpackFile(node, outPath)`, `outPath` naming the
location given. The bytes written before an exception stay in the file. -/
def unpackFile (eif : EifFile) (node : DirEntry) (outPath : Path) (fs : FS) :
    Res Unit × FS :=
  match fs.openTrunc outPath with
  | none => (.error .ioError, fs)
  | some fs1 =>
    ((copyStream eif node).1, fs1.set outPath (.file (copyStream eif node).2))

/-! ## The tree walker -/

/-- A filesystem operation started by the walker, with the index of the directory
entry it was started for and the path it was started on. -/
inductive Event where
  | createDirectory (sid : Nat) (path : Path)
  | unpackFile (sid : Nat) (path : Path)
deriving DecidableEq, Repr

/-- The world the walker acts on: the filesystem and the operations started so
far. -/
structure World where
  fs : FS
  log : List Event

/-- The null-terminated string held by a name buffer, as read by the conversion of
`node.name` (a `char16_t[32]`) to a path. Without a terminator the read runs past the
buffer. -/
def cstr (name : List Nat) : Option (List Nat) :=
  if 0 ∈ name then some (name.takeWhile (· ≠ 0)) else none

/-- The components of a path name: the strings between its separators `/`. -/
def components : List Nat → List (List Nat)
  | [] => [[]]
  | c :: rest =>
    if c = 47 then [] :: components rest
    else
      match components rest with
      | [] => [[c]]
      | h :: t => (c :: h) :: t

/-- Well-formed UTF-16: every high surrogate is followed by a low surrogate, and no
low surrogate stands alone. The conversion of an ill-formed name to the native
encoding is left to the platform. -/
def wellFormed16 : List Nat → Bool
  | [] => true
  | [u] => decide (u < 0xd800 ∨ 0xe000 ≤ u)
  | u :: l :: rest =>
    if 0xd800 ≤ u ∧ u < 0xdc00 then decide (0xdc00 ≤ l ∧ l < 0xe000) && wellFormed16 rest
    else decide (u < 0xd800 ∨ 0xe000 ≤ u) && wellFormed16 (l :: rest)

/-- The location named by `dir / name` under the POSIX path syntax, `dir` being a
location: a name that starts with `/` is absolute and replaces `dir`, and each
component of the name leads one level down. No location is fixed here for a name
that is ill-formed UTF-16 or has an empty component (an empty name, a doubled or
trailing separator) or a component `.` or `..`. -/
def joinName (dir : Path) (name : List Nat) : Option Path :=
  if wellFormed16 name ∧
      ∀ c ∈ components (if name.head? = some 47 then name.tail else name),
        c ≠ [] ∧ c ≠ [46] ∧ c ≠ [46, 46] then
    some ((if name.head? = some 47 then [] else dir) ++
      components (if name.head? = some 47 then name.tail else name))
  else none

/-- The location named by a path built with `operator/`, its operands taken from
left to right. -/
def locate (p : Path) : Option Path :=
  p.foldl (fun dir name => dir.bind fun d => joinName d name) (some [])

/-- A name that is one component: well-formed, not empty, without separator, and
not `.` or `..`. Appending it leads one level down, to the location with this
component. -/
def plainName (name : List Nat) : Bool :=
  wellFormed16 name && decide (name ≠ [] ∧ 47 ∉ name ∧ name ≠ [46] ∧ name ≠ [46, 46])

/-- The tree walker `EifFile::unpackNode(sid, outDir)`. The first argument bounds the
depth of the recursion. The path `curPath` is built from `outDir` and the string
held by the name buffer; the operation on it is logged when it starts, and acts on
the location that `curPath` names. For an entry that is neither a storage nor a
stream the path is built and not used. -/
def unpackNode (eif : EifFile) : Nat → Nat → Path → World → Res Unit × World
  | 0, _, _, w => (.diverge, w)
  | fuel + 1, sid, outDir, w =>
    if sid = StreamID.NoStream then (.ok (), w)
    else
      match eif.dirs[sid]? with
      | none => (.error .outOfRange, w)
      | some node =>
        match (if node.objType = ObjType.RootStorage then some outDir
               else (cstr node.name).map fun seg => outDir ++ [seg]) with
        | none => (.undefined, w)
        | some curPath =>
          andThen
            (if node.objType = ObjType.RootStorage ∨ node.objType = ObjType.Storage then
              match locate curPath with
              | none => (.undefined, ⟨w.fs, w.log ++ [.createDirectory sid curPath]⟩)
              | some loc =>
                match w.fs.createDirectory loc with
                | none => (.error .filesystem, ⟨w.fs, w.log ++ [.createDirectory sid curPath]⟩)
                | some fs1 =>
                  unpackNode eif fuel node.childId curPath
                    ⟨fs1, w.log ++ [.createDirectory sid curPath]⟩
            else if node.objType = ObjType.Stream then
              match locate curPath with
              | none => (.undefined, ⟨w.fs, w.log ++ [.unpackFile sid curPath]⟩)
              | some loc =>
                ((unpackFile eif node loc w.fs).1,
                  ⟨(unpackFile eif node loc w.fs).2, w.log ++ [.unpackFile sid curPath]⟩)
            else if curPath.all wellFormed16 then (.ok (), w)
            else (.undefined, w)) fun _ w1 =>
          andThen (unpackNode eif fuel node.leftSiblingId outDir w1) fun _ w2 =>
            unpackNode eif fuel node.rightSiblingId outDir w2

/-- The entry point `EifFile::unpack(outDir)`. -/
def unpack (eif : EifFile) (fuel : Nat) (outDir : Path) (w : World) : Res Unit × World :=
  unpackNode eif fuel 0 outDir w

/-- One input of the driver on an opened stream: `EifFile eif(fin); eif.unpack(outDir);`. -/
def extract (src : Source) (fuel : Nat) (outDir : Path) (w : World) : Res Unit × World :=
  match (construct src fuel).1 with
  | .ok eif => unpack eif fuel outDir w
  | .error e => (.error e, w)
  | .diverge => (.diverge, w)
  | .undefined => (.undefined, w)

/-! ## A concrete container: the example of the specification

Header with `miniSectorCutoff = 4096`; a storage `Docs` holding the stream `a.txt`
(10 bytes, stored in the mini-stream); a root-level stream `big.bin` (5000 bytes,
stored in sectors 4 to 13). Sector 0 is the FAT, sector 1 the directory, sector 2
the MiniFAT, sector 3 the mini-stream. -/

/-- Little-endian encoding of `v` on `n` bytes. -/
def encLE : Nat → Nat → List Nat
  | 0, _ => []
  | n + 1, v => v % 256 :: encLE n (v / 256)

/-- A 32-unit name buffer holding a string, zero padded. -/
def encName (s : List Nat) : List Nat :=
  (s ++ List.replicate (32 - s.length) 0).flatMap (encLE 2)

/-- Encoding of a directory record. -/
def encDirEntry (name : List Nat) (objType left right child start size : Nat) : List Nat :=
  encName name ++ encLE 2 (2 * (name.length + 1)) ++ [objType, 1] ++ encLE 4 left ++
    encLE 4 right ++ encLE 4 child ++ List.replicate 36 0 ++ encLE 4 start ++ encLE 8 size

/-- Encoding of a header. -/
def encHeader (fatSectNum dirBegin cutoff miniFatBegin difBegin difNum : Nat)
    (fatSects : List Nat) : List Nat :=
  [0xd0, 0xcf, 0x11, 0xe0, 0xa1, 0xb1, 0x1a, 0xe1] ++ List.replicate 16 0 ++
    encLE 2 0x3e ++ encLE 2 3 ++ encLE 2 0xfffe ++ encLE 2 9 ++ encLE 2 6 ++
    List.replicate 6 0 ++ encLE 4 0 ++ encLE 4 fatSectNum ++ encLE 4 dirBegin ++ encLE 4 0 ++
    encLE 4 cutoff ++ encLE 4 miniFatBegin ++ encLE 4 1 ++ encLE 4 difBegin ++ encLE 4 difNum ++
    (fatSects ++ List.replicate (109 - fatSects.length) 0xffffffff).flatMap (encLE 4)

/-- Encoding of a sector of 32-bit words, padded with `Free`. -/
def encWords (ws : List Nat) : List Nat :=
  (ws ++ List.replicate (128 - ws.length) 0xffffffff).flatMap (encLE 4)

/-- The text `HelloWorld`. -/
def helloWorld : List Nat := [72, 101, 108, 108, 111, 87, 111, 114, 108, 100]

/-- The 5000 bytes of `big.bin`. -/
def bigPayload : List Nat := (List.range 5000).map (· % 251)

/-- The name `Docs`. -/
def nameDocs : List Nat := [68, 111, 99, 115]

/-- The name `a.txt`. -/
def nameATxt : List Nat := [97, 46, 116, 120, 116]

/-- The name `big.bin`. -/
def nameBigBin : List Nat := [98, 105, 103, 46, 98, 105, 110]

/-- The bytes of the example container (15 sectors of 512 bytes). -/
def exampleBytes : List Nat :=
  encHeader 1 1 4096 2 0xfffffffe 0 [0] ++
  encWords ([0xfffffffd, 0xfffffffe, 0xfffffffe, 0xfffffffe] ++
            (List.range 9).map (· + 5) ++ [0xfffffffe]) ++
  (encDirEntry [82, 111, 111, 116] 5 0xffffffff 0xffffffff 1 3 64 ++
   encDirEntry nameDocs 1 0xffffffff 3 2 0 0 ++
   encDirEntry nameATxt 2 0xffffffff 0xffffffff 0xffffffff 0 10 ++
   encDirEntry nameBigBin 2 0xffffffff 0xffffffff 0xffffffff 4 5000) ++
  encWords [0xfffffffe] ++
  (helloWorld ++ List.replicate 502 0) ++
  (bigPayload ++ List.replicate 120 0)

/-- The example container on a device without faults. -/
def exampleSource : Source := ⟨exampleBytes, fun _ => false, 2 ^ 63 - 1, fun _ => false⟩

/-- The decoder built from a source, for sources on which construction succeeds (an
empty decoder otherwise). -/
def decoderOf (src : Source) (fuel : Nat) : EifFile :=
  match (construct src fuel).1 with
  | .ok eif => eif
  | _ => ⟨src, defaultHeader, [], [], [], [], []⟩

/-- A directory record with the given name and fields, as `encDirEntry` encodes it. -/
def mkEntry (name : List Nat) (objType left right child start size : Nat) : DirEntry :=
  ⟨name ++ List.replicate (32 - name.length) 0, 2 * (name.length + 1), objType, 1,
    left, right, child, List.replicate 16 0, 0, 0, 0, start, size⟩

/-- The header of the example container. -/
def exampleHeader : Header :=
  { defaultHeader with
    minorVersion := 0x3e, fatSectNum := 1, dirBeginSect := 1, miniFatBeginSect := 2,
    miniFatSectNum := 1, difBeginSect := 0xfffffffe,
    fatSects := 0 :: List.replicate 108 0xffffffff }

/-- The tables the constructor assembles from the example container. -/
def exampleTables : Tables where
  header := exampleHeader
  dif := exampleHeader.fatSects
  fat := [0xfffffffd, 0xfffffffe, 0xfffffffe, 0xfffffffe, 5, 6, 7, 8, 9, 10, 11, 12, 13,
    0xfffffffe] ++ List.replicate 114 0xffffffff
  miniFat := 0xfffffffe :: List.replicate 127 0xffffffff
  dirs := [mkEntry [82, 111, 111, 116] 5 0xffffffff 0xffffffff 1 3 64,
    mkEntry nameDocs 1 0xffffffff 3 2 0 0,
    mkEntry nameATxt 2 0xffffffff 0xffffffff 0xffffffff 0 10,
    mkEntry nameBigBin 2 0xffffffff 0xffffffff 0xffffffff 4 5000]

/-- The decoder of the example container. -/
def exampleEif : EifFile :=
  ⟨exampleSource, exampleTables.header, exampleTables.dif, exampleTables.fat,
    exampleTables.miniFat, exampleTables.dirs, helloWorld ++ List.replicate 502 0⟩

/-- The output directory `out` of the example. -/
def outPath : Path := [[111, 117, 116]]

/-- A filesystem holding only the base directory. -/
def baseFS : FS := fun p => if p = [] then some .dir else none

/-- The example container with `log2SectorSize` changed from 9 to 12. -/
def mutatedSource : Source := ⟨exampleBytes.set 30 12, fun _ => false, 2 ^ 63 - 1, fun _ => false⟩

/-! ## Loop states of the copy loops -/

/-- The state (cursor, remaining) of the mini-chain loop of `unpackFile` after `k`
complete iterations from the state `(i, remaining)`, when none of them raises. -/
def miniAfter (eif : EifFile) : Nat → Nat → Nat → Option (Nat × Nat)
  | 0, i, remaining => some (i, remaining)
  | k + 1, i, remaining =>
    if remaining = 0 then none
    else if i = SectId.EndOfChain then none
    else if miniOffset i + min remaining MiniSectSize > eif.miniStream.length then none
    else
      match eif.miniFat[i]? with
      | none => none
      | some next => miniAfter eif k next (remaining - min remaining MiniSectSize)

/-- The state (cursor, remaining) of the main-chain loop of `unpackFile` after `k`
complete iterations from the state `(i, remaining)`, when none of them raises. -/
def mainAfter (eif : EifFile) : Nat → Nat → Nat → Option (Nat × Nat)
  | 0, i, remaining => some (i, remaining)
  | k + 1, i, remaining =>
    if remaining = 0 then none
    else if i = SectId.EndOfChain then none
    else
      match eif.fin.readAt (sectOffset i) (min remaining SectSize) with
      | .ok _ =>
        match eif.fat[i]? with
        | none => none
        | some next => mainAfter eif k next (remaining - min remaining SectSize)
      | .short => none
      | .bad => none

/-- The example decoder with the MiniFAT entry of mini-sector 0 set to `Free`. -/
def brokenMiniEif : EifFile := { exampleEif with miniFat := exampleEif.miniFat.set 0 0xffffffff }

/-- A stream entry with the given start sector and size. -/
def streamEntry (start size : Nat) : DirEntry :=
  ⟨List.replicate 32 0, 0, ObjType.Stream, 0, StreamID.NoStream, StreamID.NoStream,
    StreamID.NoStream, List.replicate 16 0, 0, 0, 0, start, size⟩

/-- The example container on a device that fails on sector 4 (the first sector of
`big.bin`). -/
def faultySource : Source := ⟨exampleBytes, fun off => off == 2560, 2 ^ 63 - 1, fun _ => false⟩

/-- The example container on a device that fails on sector 1 (the directory). -/
def faultyDirSource : Source := ⟨exampleBytes, fun off => off == 1024, 2 ^ 63 - 1, fun _ => false⟩

/-- The example container cut after its FAT sector. -/
def shortSource : Source := ⟨exampleBytes.take 1024, fun _ => false, 2 ^ 63 - 1, fun _ => false⟩

/-- The handler of the constructor applied to the mini-stream phase: what the
constructor returns once the root entry has passed its check. -/
def finishConstruct (src : Source) (t : Tables) (r : Res (List Nat) × IStream) :
    Res EifFile × IStream :=
  match r with
  | (.ok miniStream, s) =>
    (.ok ⟨src, t.header, t.dif, t.fat, t.miniFat, t.dirs, miniStream⟩, s)
  | (.error (.iosFailure false), s) => (.error .format, s)
  | (.error e, s) => (.error e, s)
  | (.diverge, s) => (.diverge, s)
  | (.undefined, s) => (.undefined, s)

/-- The example container with the kind of entry 0 changed to `Storage`. -/
def noRootSource : Source := ⟨exampleBytes.set (1024 + 66) 1, fun _ => false, 2 ^ 63 - 1, fun _ => false⟩

/-- The example container with the stream size of entry 0 changed to `2^64 - 1`. -/
def hugeRootSource : Source :=
  ⟨exampleBytes.take 1144 ++ List.replicate 8 255 ++ exampleBytes.drop 1152,
    fun _ => false, 2 ^ 63 - 1, fun _ => false⟩

/-- The tables the constructor assembles from `noRootSource`. -/
def noRootTables : Tables :=
  { exampleTables with
    dirs := mkEntry [82, 111, 111, 116] 1 0xffffffff 0xffffffff 1 3 64 ::
      exampleTables.dirs.tail }

/-- The tables assembled by the first phases of the constructor, for sources on
which these phases succeed (empty tables otherwise). -/
def tablesOf (src : Source) (fuel : Nat) : Tables :=
  match (readTables src fuel IStream.fresh).1 with
  | .ok t => t
  | _ => ⟨defaultHeader, [], [], [], []⟩

/-- The stream state of the example after the directory phase. -/
def afterDirs : IStream := ⟨1536, [(0, 512), (512, 512), (1536, 512), (1024, 512)]⟩

/-- The state (cursor, stream) of a FAT-chain loop of the constructor after `k`
complete iterations from the state `(i, s)`, when none of them raises. -/
def chainAfter (src : Source) (fat : List Nat) : Nat → Nat → IStream → Option (Nat × IStream)
  | 0, i, s => some (i, s)
  | k + 1, i, s =>
    if i = SectId.EndOfChain then none
    else
      match (s.seekg (sectOffset i)).read src SectSize with
      | (.ok _, s1) =>
        match fat[i]? with
        | none => none
        | some next => chainAfter src fat k next s1
      | _ => none

/-- A container of two sectors: a valid header that declares no FAT sector and the
MiniFAT head 0, followed by sector 0. -/
def noFatSource : Source :=
  ⟨encHeader 0 0xfffffffe 4096 0 0xfffffffe 0 [] ++ List.replicate 512 0, fun _ => false, 2 ^ 63 - 1, fun _ => false⟩

/-! ## The payload of a stream, in the words of the specification -/

/-- The cursors of the first `n` chunks of the chain that starts at `i`:
`i, table[i], table[table[i]], ...`, up to `EndOfChain` or an index outside the
table. -/
def chainCursors (table : List Nat) : Nat → Nat → List Nat
  | 0, _ => []
  | n + 1, i =>
    if i = SectId.EndOfChain then []
    else
      i :: (match table[i]? with
            | some next => chainCursors table n next
            | none => [])

/-- Mini-sector `i`: bytes `[i * 64, i * 64 + 64)` of the mini-stream. -/
def miniSector (eif : EifFile) (i : Nat) : List Nat :=
  (eif.miniStream.drop (i * MiniSectSize)).take MiniSectSize

/-- Sector `i`: the 512 bytes of the input at offset `(i + 1) * 512`. -/
def sector (src : Source) (i : Nat) : List Nat :=
  (src.data.drop ((i + 1) * SectSize)).take SectSize

/-- Number of chunks of `chunk` bytes needed for `size` bytes. -/
def chunkCount (size chunk : Nat) : Nat := (size + chunk - 1) / chunk

/-- The cursors of the chunks of the stream of `node`: along the MiniFAT when the
size is below the cutoff, along the FAT otherwise. -/
def streamCursors (eif : EifFile) (node : DirEntry) : List Nat :=
  if node.streamSize < eif.header.miniSectorCutoff then
    chainCursors eif.miniFat (chunkCount node.streamSize MiniSectSize) node.startSect
  else
    chainCursors eif.fat (chunkCount node.streamSize SectSize) node.startSect

/-- The payload of the stream of `node`: the first `streamSize` bytes of the
concatenation of the chunks along its chain. -/
def payload (eif : EifFile) (node : DirEntry) : List Nat :=
  if node.streamSize < eif.header.miniSectorCutoff then
    ((streamCursors eif node).flatMap (miniSector eif)).take node.streamSize
  else
    ((streamCursors eif node).flatMap (sector eif.fin)).take node.streamSize

/-- No offset computed for a cursor of the stream leaves the 32-bit range:
`i * 64 < 2^32` on the mini chain, `(i + 1) * 512 < 2^32` on the main chain. -/
def offsetsFit (eif : EifFile) (node : DirEntry) : Bool :=
  if node.streamSize < eif.header.miniSectorCutoff then
    (streamCursors eif node).all fun i => decide (i * MiniSectSize < 2 ^ 32)
  else
    (streamCursors eif node).all fun i => decide ((i + 1) * SectSize < 2 ^ 32)

/-! ## A decoder with a FAT of `2^23` entries

The file: a header declaring 516 DIFAT sectors, 65536 FAT sectors, the mini-sector
cutoff 8 and the directory head 517; the DIFAT sectors 0 to 515, every entry of which
names sector 516; sector 516, a FAT sector filled with `EndOfChain`; sector 517, the
directory, holding the root and a stream of 8 bytes that starts at sector `2^23 - 1`. -/

/-- The header sector of the file. -/
def wrapHeaderBytes : List Nat :=
  encHeader 65536 517 8 0xfffffffe 0 516 (List.replicate 109 516)

/-- The DIFAT sector `k` of the file: 127 entries naming sector 516 and the pointer
to the next DIFAT sector. -/
def wrapDifSector (k : Nat) : List Nat :=
  (List.replicate 127 516).flatMap (encLE 4) ++
    encLE 4 (if k = 515 then 0xfffffffe else k + 1)

/-- The directory sector of the file. -/
def wrapDirBytes : List Nat :=
  encDirEntry [82, 111, 111, 116] 5 0xffffffff 0xffffffff 1 0xfffffffe 0 ++
  encDirEntry [120] 2 0xffffffff 0xffffffff 0xffffffff 8388607 8 ++
  List.replicate 256 0

/-- The bytes of the file. -/
def wrapBytes : List Nat :=
  wrapHeaderBytes ++
    ((List.range 516).flatMap wrapDifSector ++
      (encWords (List.replicate 128 0xfffffffe) ++ wrapDirBytes))

/-- The decoder of the file: the DIFAT has `109 + 516 * 127` entries, the FAT
`65536 * 128 = 2^23` entries, all `EndOfChain`; MiniFAT and mini-stream are empty. -/
def wrapEif : EifFile where
  fin := ⟨wrapBytes, fun _ => false, 2 ^ 63 - 1, fun _ => false⟩
  header := parseHeader wrapHeaderBytes
  dif := List.replicate 65641 516
  fat := List.replicate 8388608 0xfffffffe
  miniFat := []
  dirs := dirEntries wrapDirBytes
  miniStream := []

/-- The stream entry of the file. -/
def wrapEntry : DirEntry := parseDirEntry ((wrapDirBytes.drop 128).take 128)

/-! ## The link structure of the directory array -/

/-- The shape reached from an index by the links the walker follows. -/
inductive DirTree where
  | leaf
  | node (sid : Nat) (child left right : DirTree)
deriving DecidableEq, Repr

/-- The entry `sid` is a storage or the root storage. -/
def isStorageAt (dirs : List DirEntry) (sid : Nat) : Bool :=
  match dirs[sid]? with
  | some e => decide (e.objType = ObjType.RootStorage ∨ e.objType = ObjType.Storage)
  | none => false

/-- The entry `sid` is a stream. -/
def isStreamAt (dirs : List DirEntry) (sid : Nat) : Bool :=
  match dirs[sid]? with
  | some e => decide (e.objType = ObjType.Stream)
  | none => false

/-- The tree of the entries reachable from `sid`: every link is `NoStream` or a valid
index, the child link is followed for storages and root storages only, and the
unfolding ends within depth `fuel`. There is such a tree with pairwise distinct
indices exactly when every reachable entry is reached by exactly one link path. -/
def unfoldTree (dirs : List DirEntry) : Nat → Nat → Option DirTree
  | 0, _ => none
  | fuel + 1, sid =>
    if sid = StreamID.NoStream then some .leaf
    else
      match dirs[sid]? with
      | none => none
      | some e =>
        match (if e.objType = ObjType.RootStorage ∨ e.objType = ObjType.Storage then
                 unfoldTree dirs fuel e.childId else some .leaf),
              unfoldTree dirs fuel e.leftSiblingId, unfoldTree dirs fuel e.rightSiblingId with
        | some c, some l, some r => some (.node sid c l r)
        | _, _, _ => none

/-- The indices of a tree: an entry, then its children, then its left and right
siblings. -/
def DirTree.sids : DirTree → List Nat
  | .leaf => []
  | .node sid c l r => sid :: (c.sids ++ l.sids ++ r.sids)

/-- The entries of a tree, each with the list of its enclosing storages, outermost
first (`encl` being the storages that enclose the tree itself). -/
def DirTree.located : DirTree → List Nat → List (Nat × List Nat)
  | .leaf, _ => []
  | .node sid c l r, encl =>
    (sid, encl) :: (c.located (encl ++ [sid]) ++ l.located encl ++ r.located encl)

/-- The entry an event was started for. -/
def Event.sid : Event → Nat
  | .createDirectory sid _ => sid
  | .unpackFile sid _ => sid

/-- The path of an event. -/
def Event.path : Event → Path
  | .createDirectory _ p => p
  | .unpackFile _ p => p

/-- The entries for which a directory creation was started, in order. -/
def createdSids (log : List Event) : List Nat :=
  log.filterMap fun ev =>
    match ev with
    | .createDirectory sid _ => some sid
    | .unpackFile _ _ => none

/-- The entries for which a file extraction was started, in order. -/
def extractedSids (log : List Event) : List Nat :=
  log.filterMap fun ev =>
    match ev with
    | .createDirectory _ _ => none
    | .unpackFile sid _ => some sid

/-- A step of the walker that does not diverge, only appends to the log, and on a
normal return has started directory creations for exactly `A` and file extractions
for exactly `B`. -/
def Tracks (A B : List Nat) (w : World) (res : Res Unit × World) : Prop :=
  res.1 ≠ .diverge ∧
    ∃ new, res.2.log = w.log ++ new ∧
      (res.1 = .ok () → createdSids new = A ∧ extractedSids new = B)

/-- The tree of the example: the root, its child `Docs` with the child `a.txt` and the
right sibling `big.bin`. -/
def exampleTree : DirTree :=
  .node 0 (.node 1 (.node 2 .leaf .leaf .leaf) .leaf (.node 3 .leaf .leaf .leaf)) .leaf .leaf

/-- The path segment the walker appends for the entry `sid`: none for an entry of
kind root storage, otherwise the string held by its name buffer. -/
def kindSegment (dirs : List DirEntry) (sid : Nat) : List (List Nat) :=
  match dirs[sid]? with
  | some e => if e.objType = ObjType.RootStorage then [] else (cstr e.name).toList
  | none => []

/-- The name segment of the entry `sid`: none for the root (entry 0), otherwise the
string held by its name buffer. -/
def nameSegment (dirs : List DirEntry) (sid : Nat) : List (List Nat) :=
  if sid = 0 then []
  else
    match dirs[sid]? with
    | some e => (cstr e.name).toList
    | none => []

/-- A step of the walker only appends events that satisfy `P` to the log. -/
def LogExt (P : Event → Prop) (w : World) (res : Res Unit × World) : Prop :=
  ∃ new, res.2.log = w.log ++ new ∧ ∀ ev ∈ new, P ev

/-- Among the entries of `t`, the kind root storage marks entry 0 and only it. -/
def rootOnlyAtZero (dirs : List DirEntry) (t : DirTree) : Bool :=
  t.sids.all fun sid =>
    match dirs[sid]? with
    | some e => decide (e.objType = ObjType.RootStorage ↔ sid = 0)
    | none => true

/-! ## Relations between filesystem states -/

/-- What a path holds, up to the content of a file: 0 nothing, 1 a directory, 2 a
file. -/
def kindOf : Option FsNode → Nat
  | none => 0
  | some .dir => 1
  | some (.file _) => 2

/-- Every path that holds something in `S` holds the same kind of thing in `S1`. -/
def KindMono (S S1 : FS) : Prop :=
  ∀ p, kindOf (S p) ≠ 0 → kindOf (S1 p) = kindOf (S p)

/-- The state `T` agrees at every path with `S` or with `F`, and holds the same kind
of thing as `F` everywhere. -/
def Replays (S T F : FS) : Prop :=
  (∀ p, T p = S p ∨ T p = F p) ∧ (∀ p, kindOf (T p) = kindOf (F p))

/-! ## Names -/

/-- The name of an entry in the words of the specification: the name buffer cut to
its explicit length `nameLen`. -/
def specName (e : DirEntry) : List Nat := e.name.take e.nameLen

/-- The name `a.txtXYZ`. -/
def nameLong : List Nat := [97, 46, 116, 120, 116, 88, 89, 90]

/-- A decoder over the example input whose directory holds the root and one empty
stream with the name buffer `a.txtXYZ` and the name length 5. -/
def longNameEif : EifFile :=
  { exampleEif with
    dirs := [mkEntry [82, 111, 111, 116] 5 0xffffffff 0xffffffff 1 3 64,
      { mkEntry nameLong 2 0xffffffff 0xffffffff 0xffffffff 0 0 with nameLen := 5 }] }

/-- The decoder with every name length replaced. -/
def withNameLens (eif : EifFile) (f : DirEntry → Nat) : EifFile :=
  { eif with dirs := eif.dirs.map fun d => { d with nameLen := f d } }

/-! ## The driver -/

/-- One argument of the driver: the result of opening the input file (`none` when it
cannot be opened) and the output directory derived from its name. -/
structure Input where
  opened : Option Source
  outDir : Path

/-- A line written by the driver. -/
inductive Message where
  | usage
  | openFailed
  | what (e : Exn)
deriving DecidableEq, Repr

/-- The body of the loop of `u8main` after the warning: `EifFile eif(fin);
eif.unpack(outDir);`. On a stream that failed to open, setting the exception mask in
the guard of the constructor raises the stream failure. -/
def processInput (inp : Input) (fuel : Nat) (w : World) : Res Unit × World :=
  match inp.opened with
  | none => (.error (.iosFailure false), w)
  | some src => extract src fuel inp.outDir w

/-- The loop of `u8main` over the arguments: the warning for an input that cannot be
opened, then the decoding and extraction; an exception leaves the loop. Returns the
outcome, the world and the lines written. -/
def u8mainLoop (fuel : Nat) : List Input → World → List Message →
    Res Unit × World × List Message
  | [], w, out => (.ok (), w, out)
  | inp :: rest, w, out =>
    match processInput inp fuel w with
    | (.ok (), w1) =>
      u8mainLoop fuel rest w1 (if inp.opened.isNone then out ++ [.openFailed] else out)
    | (r, w1) => (r, w1, if inp.opened.isNone then out ++ [.openFailed] else out)

/-- The driver `u8main`: the exit status (0, or 1 for `EXIT_FAILURE`), the world and
the lines written. -/
def u8main (args : List Input) (fuel : Nat) (w : World) : Res Nat × World × List Message :=
  match args with
  | [] => (.ok 1, w, [.usage])
  | _ =>
    match u8mainLoop fuel args w [] with
    | (.ok (), w1, out) => (.ok 0, w1, out)
    | (.error e, w1, out) => (.ok 1, w1, out ++ [.what e])
    | (.diverge, w1, out) => (.diverge, w1, out)
    | (.undefined, w1, out) => (.undefined, w1, out)

/-- The arguments `bad.eif good.eif`: the example container with a rejected header,
then the example container. -/
def badThenGood : List Input :=
  [⟨some mutatedSource, [[98, 97, 100]]⟩, ⟨some exampleSource, outPath⟩]

/-- The arguments `missing.eif good.eif`: a file that cannot be opened, then the
example container. -/
def missingThenGood : List Input :=
  [⟨none, [[109]]⟩, ⟨some exampleSource, outPath⟩]

/-! ## Containers for the table builders -/

/-- A container of four sectors whose header declares one DIFAT sector with the head
2: sector 0 is the FAT (its last entry is `EndOfChain`), sector 1 the directory
(the root alone), sector 2 the DIFAT sector (127 `Free` entries and the next pointer
`EndOfChain`). -/
def difSource : Source :=
  ⟨encHeader 1 1 4096 0xfffffffe 2 1 [0] ++
    (([0xfffffffd, 0xfffffffe, 0xfffffffc] ++ List.replicate 124 0xffffffff ++
        [0xfffffffe]).flatMap (encLE 4)) ++
    (encDirEntry [82, 111, 111, 116] 5 0xffffffff 0xffffffff 0xffffffff 0xfffffffe 0 ++
      List.replicate 384 0) ++
    ((List.replicate 127 0xffffffff ++ [0xfffffffe]).flatMap (encLE 4)),
   fun _ => false, 2 ^ 63 - 1, fun _ => false⟩

/-- A container of two sectors whose header declares `2^23` FAT sectors, the first
of them sector 0. -/
def hugeFatSource : Source :=
  ⟨encHeader 8388608 0xfffffffe 4096 0xfffffffe 0xfffffffe 0 [0] ++ encWords [],
   fun _ => false, 2 ^ 63 - 1, fun _ => false⟩

/-! ## A cyclic directory array -/

/-- An empty stream `x` whose right sibling is entry 1. -/
def cycEntry : DirEntry := mkEntry [120] 2 0xffffffff 1 0xffffffff 0 0

/-- A decoder over the example input whose directory holds the root, with the child
1, and entry 1, the stream `x`, which is its own right sibling. -/
def cyclicEif : EifFile :=
  { exampleEif with
    dirs := [mkEntry [82, 111, 111, 116] 5 0xffffffff 0xffffffff 1 3 64, cycEntry] }

/-! ## The tables built along FAT chains -/

/-- The 512 bytes the decoder reads for the cursor `c`: those at the offset it seeks
to. -/
def sectorRead (src : Source) (c : Nat) : List Nat :=
  (src.data.drop (sectOffset c)).take SectSize

/-- The number of DIFAT sectors read: the reads of `SectSize - 4` bytes. -/
def difSectorsRead (s : IStream) : Nat :=
  (s.reads.filter fun p => p.2 == SectSize - 4).length

/-- Every cursor of the list has its sector inside the 32-bit range:
`(c + 1) * 512 < 2^32`. -/
def cursorsFit (cs : List Nat) : Bool :=
  cs.all fun c => decide ((c + 1) * SectSize < 2 ^ 32)

/-- The 64 bytes the mini-chain loop copies from for the cursor `c`: those of the
mini-stream at the offset it computes. -/
def miniRead (eif : EifFile) (c : Nat) : List Nat :=
  (eif.miniStream.drop (miniOffset c)).take MiniSectSize

/-- Following the mini chain, in the words of the specification: a normal return has
written the first `streamSize` bytes of the 64-byte chunks of the mini-stream buffer
at the cursors `startSect, MiniFAT[startSect], ...`; and a decoder with the same
cutoff, MiniFAT and mini-stream does the same to every destination, whatever its
input and its FAT. -/
def FollowsMini (eif : EifFile) (node : DirEntry) : Prop :=
  (∀ out, copyStream eif node = (.ok (), out) →
    out = ((chainCursors eif.miniFat (chunkCount node.streamSize MiniSectSize)
      node.startSect).flatMap (miniRead eif)).take node.streamSize) ∧
  (∀ eif' : EifFile, eif'.header = eif.header → eif'.miniFat = eif.miniFat →
    eif'.miniStream = eif.miniStream →
    ∀ (p : Path) (fs : FS), unpackFile eif' node p fs = unpackFile eif node p fs)

/-- Following the main chain, in the words of the specification: a normal return has
written the first `streamSize` bytes of the 512-byte chunks read from the input at
the cursors `startSect, FAT[startSect], ...`; and a decoder with the same cutoff, FAT
and input does the same to every destination, whatever its MiniFAT and its
mini-stream. -/
def FollowsMain (eif : EifFile) (node : DirEntry) : Prop :=
  (∀ out, copyStream eif node = (.ok (), out) →
    out = ((chainCursors eif.fat (chunkCount node.streamSize SectSize)
      node.startSect).flatMap (sectorRead eif.fin)).take node.streamSize) ∧
  (∀ eif' : EifFile, eif'.header = eif.header → eif'.fat = eif.fat → eif'.fin = eif.fin →
    ∀ (p : Path) (fs : FS), unpackFile eif' node p fs = unpackFile eif node p fs)

/-- The example decoder with the cutoff 10: a stream of 10 bytes is at the cutoff, one
of 9 bytes just below it. -/
def boundaryEif : EifFile :=
  { exampleEif with header := { exampleEif.header with miniSectorCutoff := 10 } }

/-! ## The invariant of the decoder -/

/-- The stream state of the example after construction. -/
def exampleFinal : IStream :=
  ⟨2560, [(0, 512), (512, 512), (1536, 512), (1024, 512), (2048, 512)]⟩

/-- The invariant of a decoder that has read `k` DIFAT sectors: the DIFAT holds
`109 + 127 * k` entries, at least `header.fatSectNum`; the MiniFAT holds a multiple
of 128 words; the directory array holds a positive multiple of 4 entries, the first
of kind `RootStorage`; the mini-stream holds a multiple of 512 bytes. -/
def decoderInvariant (eif : EifFile) (k : Nat) : Bool :=
  decide (eif.dif.length = FatEntriesInHeader + FatEntriesPerSect * k) &&
  decide (eif.header.fatSectNum ≤ eif.dif.length) &&
  decide (eif.miniFat.length % (SectSize / 4) = 0) &&
  decide (eif.dirs.length % (SectSize / DirEntrySize) = 0) &&
  decide (0 < eif.dirs.length) &&
  (match eif.dirs with
   | root :: _ => decide (root.objType = ObjType.RootStorage)
   | [] => false) &&
  decide (eif.miniStream.length % SectSize = 0)

/-- The chain of `table` that starts at `i` reaches `EndOfChain` within `n` links,
every cursor before it being an index of the table. -/
def chainReaches (table : List Nat) : Nat → Nat → Bool
  | 0, i => decide (i = SectId.EndOfChain)
  | n + 1, i =>
    if i = SectId.EndOfChain then true
    else
      match table[i]? with
      | some next => chainReaches table n next
      | none => false

/-- The concatenation of the sectors along the chain of the FAT that starts at
`head`, sector `c` being the 512 bytes of the input at offset `(c + 1) * 512`. -/
def chainSectors (src : Source) (fat : List Nat) (n head : Nat) : List Nat :=
  (chainCursors fat n head).flatMap (sector src)

/-- The head of the mini-stream chain: `startSect` of entry 0. -/
def miniStreamHead (eif : EifFile) : Nat :=
  match eif.dirs with
  | root :: _ => root.startSect
  | [] => SectId.EndOfChain

/-! ## A root entry whose mini-stream starts at sector `2^23 - 1`

The file of the previous section with another directory sector: the root entry has
the start sector `2^23 - 1`, and the three other records are unused. -/

/-- The directory sector of the file. -/
def wrapRootDirBytes : List Nat :=
  encDirEntry [82, 111, 111, 116] 5 0xffffffff 0xffffffff 0xffffffff 8388607 512 ++
  List.replicate 384 0

/-- The bytes of the file: the header, the DIFAT sectors 0 to 515, the FAT sector
516 and the directory sector 517. -/
def wrapRootBytes : List Nat :=
  wrapHeaderBytes ++
    ((List.range 516).flatMap wrapDifSector ++
      (encWords (List.replicate 128 0xfffffffe) ++ wrapRootDirBytes))

/-- The file on a device without faults. -/
def wrapRootSource : Source := ⟨wrapRootBytes, fun _ => false, 2 ^ 63 - 1, fun _ => false⟩

/-- The tables the constructor assembles from the file. -/
def wrapRootTables : Tables where
  header := parseHeader wrapHeaderBytes
  dif := List.replicate 65641 516
  fat := List.replicate 8388608 0xfffffffe
  miniFat := []
  dirs := dirEntries wrapRootDirBytes

/-- The 127 entries of a DIFAT sector of the file, as bytes. -/
def wrapDifEntries : List Nat := (List.replicate 127 516).flatMap (encLE 4)

/-- The pointer stored at the end of the DIFAT sector `k` of the file. -/
def wrapDifNext (k : Nat) : Nat := if k = 515 then 0xfffffffe else k + 1

/-- The FAT sector of the file. -/
def wrapFatSector : List Nat := encWords (List.replicate 128 0xfffffffe)

/-- The root entry of the file. -/
def wrapRootEntry : DirEntry :=
  mkEntry [82, 111, 111, 116] 5 0xffffffff 0xffffffff 0xffffffff 8388607 512

/-- The decoder the constructor builds from the file: its mini-stream is the header
sector. -/
def wrapRootEif : EifFile :=
  ⟨wrapRootSource, wrapRootTables.header, wrapRootTables.dif, wrapRootTables.fat,
    wrapRootTables.miniFat, wrapRootTables.dirs, wrapHeaderBytes⟩

/-! ## The output of the walk -/

/-- The kind of node an operation leaves at its location: 1 a directory, 2 a file. -/
def Event.kind : Event → Nat
  | .createDirectory _ _ => 1
  | .unpackFile _ _ => 2

/-- The sibling group of a tree: the entries linked to its top entry by left and right
sibling links. -/
def DirTree.group : DirTree → List Nat
  | .leaf => []
  | .node sid _ l r => sid :: (l.group ++ r.group)

/-- In every storage of the tree, the segments of the children are pairwise
distinct. -/
def DirTree.siblingsDistinct (seg : Nat → List (List Nat)) : DirTree → Bool
  | .leaf => true
  | .node _ c l r =>
    decide ((c.group.map seg).Nodup) && c.siblingsDistinct seg && l.siblingsDistinct seg &&
      r.siblingsDistinct seg

/-- The paths of the entries of a tree visited from the path `base`, in visit order:
an entry at `base` followed by its segment, its children from there, its siblings
from `base`. -/
def DirTree.paths (seg : Nat → List (List Nat)) : DirTree → Path → List Path
  | .leaf, _ => []
  | .node sid c l r, base =>
    (base ++ seg sid) :: (c.paths seg (base ++ seg sid) ++ l.paths seg base ++ r.paths seg base)

/-- The name segment of the entry `sid` as the specification has it: none for the
root (entry 0), otherwise the name buffer cut to `nameLen`. -/
def specSegment (dirs : List DirEntry) (sid : Nat) : List (List Nat) :=
  if sid = 0 then []
  else
    match dirs[sid]? with
    | some e => [specName e]
    | none => []

/-- Every entry of the tree other than entry 0 has a name that is one component:
its buffer holds a terminated string that is a plain name. -/
def plainNames (dirs : List DirEntry) (t : DirTree) : Bool :=
  t.sids.all fun sid =>
    decide (sid = 0) ||
      (match nameSegment dirs sid with
       | [name] => plainName name
       | _ => false)

/-- A step of the walker acts only where its operations are: every location that no
operation logged since `old` was started on holds what it holds in `S`. -/
def Acts (S : FS) (old : List Event) (w : World) : Prop :=
  ∃ new, w.log = old ++ new ∧
    ∀ q, (∀ ev ∈ new, locate ev.path ≠ some q) → w.fs q = S q

/-- Every operation logged since `old` was started on a path that names a location,
and the location holds what the operation leaves: a directory or a file. -/
def Settled (old : List Event) (w : World) : Prop :=
  ∃ new, w.log = old ++ new ∧
    ∀ ev ∈ new, ∃ loc, locate ev.path = some loc ∧ kindOf (w.fs loc) = ev.kind

/-- A decoder over the example input whose root holds two streams with the same name
buffer `ab`: entry 1 with the name length 1, 10 bytes and the mini-sector 0, and its
right sibling, entry 2, with the name length 2 and no bytes. -/
def twinEif : EifFile :=
  { exampleEif with
    dirs := [mkEntry [82, 111, 111, 116] 5 0xffffffff 0xffffffff 1 3 64,
      { mkEntry [97, 98] 2 0xffffffff 2 0xffffffff 0 10 with nameLen := 1 },
      { mkEntry [97, 98] 2 0xffffffff 0xffffffff 0xffffffff 0 0 with nameLen := 2 }] }

/-- The tree of `twinEif`. -/
def twinTree : DirTree :=
  .node 0 (.node 1 .leaf .leaf (.node 2 .leaf .leaf .leaf)) .leaf .leaf

/-- A decoder over the example input whose root holds one empty stream with the name
`/x`, of the name length 2. -/
def absNameEif : EifFile :=
  { exampleEif with
    dirs := [mkEntry [82, 111, 111, 116] 5 0xffffffff 0xffffffff 1 3 64,
      { mkEntry [47, 120] 2 0xffffffff 0xffffffff 0xffffffff 0 0 with nameLen := 2 }] }

/-! # Theorems -/

/-! ## The example decoder -/

theorem exampleEif_constructed :
    readTables exampleSource 4 IStream.fresh = (.ok exampleTables, afterDirs) ∧
    (decoderOf exampleSource 4).miniStream = exampleEif.miniStream ∧
    (construct exampleSource 4).1.outcome = .ok () := by
  refine ⟨by decide!, by decide!, by decide!⟩

/-! ## Header validation -/

theorem checkHeader_eq_true_iff (h : Header) :
    checkHeader h = true ↔
      (h.magic = [0xd0, 0xcf, 0x11, 0xe0, 0xa1, 0xb1, 0x1a, 0xe1] ∧ h.bom = 0xfffe ∧
        h.log2SectorSize = 9 ∧ h.log2MiniSectorSize = 6) := by
  unfold checkHeader
  simp only [defaultHeader]
  by_cases h1 : h.magic = [0xd0, 0xcf, 0x11, 0xe0, 0xa1, 0xb1, 0x1a, 0xe1] <;>
  by_cases h2 : h.bom = 0xfffe <;>
  by_cases h3 : h.log2SectorSize = 9 <;>
  by_cases h4 : h.log2MiniSectorSize = 6 <;>
  simp [h1, h2, h3, h4]

theorem readTables_bad_header (src : Source) (hdr : List Nat) (fuel : Nat)
    (hread : src.readAt 0 SectSize = .ok hdr)
    (hbad : checkHeader (parseHeader hdr) = false) :
    readTables src fuel IStream.fresh = (.error .format, ⟨SectSize, [(0, SectSize)]⟩) := by
  simp [readTables, IStream.read, IStream.fresh, hread, andThen, hbad]

/-- C4. `checkHeader` accepts a header exactly when its magic, byte-order mark and
the two log2 size fields have the expected values; and on an input whose first 512
bytes are rejected, the constructor raises the format error with the header read as
its only read, so that the construct-then-unpack pipeline leaves the filesystem and
the operation log untouched. -/
theorem header_gate :
    (∀ h : Header, checkHeader h = true ↔
      (h.magic = [0xd0, 0xcf, 0x11, 0xe0, 0xa1, 0xb1, 0x1a, 0xe1] ∧ h.bom = 0xfffe ∧
        h.log2SectorSize = 9 ∧ h.log2MiniSectorSize = 6)) ∧
    (∀ (src : Source) (hdr : List Nat), src.readAt 0 SectSize = .ok hdr →
      checkHeader (parseHeader hdr) = false →
      ∀ fuel : Nat,
        construct src fuel = (.error .format, ⟨SectSize, [(0, SectSize)]⟩) ∧
        ∀ (outDir : Path) (w : World), extract src fuel outDir w = (.error .format, w)) := by
  refine ⟨checkHeader_eq_true_iff, ?_⟩
  intro src hdr hread hbad fuel
  have hc : construct src fuel = (.error .format, ⟨SectSize, [(0, SectSize)]⟩) := by
    simp [construct, constructBody, readTables_bad_header src hdr fuel hread hbad, andThen]
  refine ⟨hc, ?_⟩
  intro outDir w
  simp [extract, hc]

theorem header_gate_witness :
    checkHeader exampleEif.header = true ∧
    construct mutatedSource 4 = (.error .format, ⟨SectSize, [(0, SectSize)]⟩) ∧
    extract mutatedSource 4 outPath ⟨baseFS, []⟩ = (.error .format, ⟨baseFS, []⟩) :=
  ⟨(header_gate.1 exampleEif.header).2 (by decide!),
   (header_gate.2 mutatedSource (mutatedSource.data.take 512) (by decide!) (by decide!) 4).1,
   (header_gate.2 mutatedSource (mutatedSource.data.take 512) (by decide!) (by decide!) 4).2
      outPath ⟨baseFS, []⟩⟩

/-! ## What the copy loops depend on -/

theorem copyMini_congr (eif eif' : EifFile) (hfat : eif'.miniFat = eif.miniFat)
    (hms : eif'.miniStream = eif.miniStream) (fuel i r : Nat) :
    copyMini eif' fuel i r = copyMini eif fuel i r := by
  induction fuel generalizing i r with
  | zero => simp [copyMini]
  | succ n ih => simp only [copyMini, hfat, hms, ih]

theorem copyMain_congr (eif eif' : EifFile) (hfat : eif'.fat = eif.fat)
    (hfin : eif'.fin = eif.fin) (fuel i r : Nat) :
    copyMain eif' fuel i r = copyMain eif fuel i r := by
  induction fuel generalizing i r with
  | zero => simp [copyMain]
  | succ n ih => simp only [copyMain, hfat, hfin, ih]

/-! ## Truncated chains and empty streams -/

theorem copyMini_after (eif : EifFile) (k : Nat) :
    ∀ (fuel i r i' r' : Nat), r ≤ fuel → miniAfter eif k i r = some (i', r') →
      ∃ fuel', r' ≤ fuel' ∧ (copyMini eif fuel i r).1 = (copyMini eif fuel' i' r').1 := by
  induction k with
  | zero =>
    intro fuel i r i' r' hle h
    simp [miniAfter] at h
    exact ⟨fuel, by omega, by rw [h.1, h.2]⟩
  | succ k ih =>
    intro fuel i r i' r' hle h
    simp only [miniAfter] at h
    split at h
    · exact absurd h (by simp)
    · rename_i hr
      split at h
      · exact absurd h (by simp)
      · rename_i hi
        split at h
        · exact absurd h (by simp)
        · rename_i hb
          cases hm : eif.miniFat[i]? with
          | none => simp [hm] at h
          | some next =>
            simp only [hm] at h
            obtain ⟨f, rfl⟩ : ∃ f, fuel = f + 1 := ⟨fuel - 1, by omega⟩
            have hmin : 0 < min r MiniSectSize := by
              simp only [MiniSectSize]; omega
            obtain ⟨fuel', hf', heq⟩ := ih f next (r - min r MiniSectSize) i' r' (by omega) h
            refine ⟨fuel', hf', ?_⟩
            simp [copyMini, hr, hi, hb, hm, heq]

theorem copyMain_after (eif : EifFile) (k : Nat) :
    ∀ (fuel i r i' r' : Nat), r ≤ fuel → mainAfter eif k i r = some (i', r') →
      ∃ fuel', r' ≤ fuel' ∧ (copyMain eif fuel i r).1 = (copyMain eif fuel' i' r').1 := by
  induction k with
  | zero =>
    intro fuel i r i' r' hle h
    simp [mainAfter] at h
    exact ⟨fuel, by omega, by rw [h.1, h.2]⟩
  | succ k ih =>
    intro fuel i r i' r' hle h
    simp only [mainAfter] at h
    split at h
    · exact absurd h (by simp)
    · rename_i hr
      split at h
      · exact absurd h (by simp)
      · rename_i hi
        cases hrd : eif.fin.readAt (sectOffset i) (min r SectSize) with
        | short => simp [hrd] at h
        | bad => simp [hrd] at h
        | ok buf =>
          simp only [hrd] at h
          cases hm : eif.fat[i]? with
          | none => simp [hm] at h
          | some next =>
            simp only [hm] at h
            obtain ⟨f, rfl⟩ : ∃ f, fuel = f + 1 := ⟨fuel - 1, by omega⟩
            have hmin : 0 < min r SectSize := by
              simp only [SectSize]; omega
            obtain ⟨fuel', hf', heq⟩ := ih f next (r - min r SectSize) i' r' (by omega) h
            refine ⟨fuel', hf', ?_⟩
            simp [copyMain, hr, hi, hrd, hm, heq]

theorem copyMini_endOfChain (eif : EifFile) (fuel r : Nat) (hr : 0 < r) (hf : r ≤ fuel) :
    (copyMini eif fuel SectId.EndOfChain r).1 = .error .format := by
  obtain ⟨f, rfl⟩ : ∃ f, fuel = f + 1 := ⟨fuel - 1, by omega⟩
  have : r ≠ 0 := by omega
  simp [copyMini, this]

theorem copyMain_endOfChain (eif : EifFile) (fuel r : Nat) (hr : 0 < r) (hf : r ≤ fuel) :
    (copyMain eif fuel SectId.EndOfChain r).1 = .error .format := by
  obtain ⟨f, rfl⟩ : ∃ f, fuel = f + 1 := ⟨fuel - 1, by omega⟩
  have : r ≠ 0 := by omega
  simp [copyMain, this]

theorem copyStream_size_zero (eif : EifFile) (node : DirEntry) (h : node.streamSize = 0) :
    copyStream eif node = (.ok (), []) := by
  unfold copyStream
  split <;> simp [h, copyMini, copyMain]

/-- C6. On both chains: when the loop of `unpackFile` arrives, after any number of
complete iterations, at the cursor `EndOfChain` with bytes still to copy (at once
when `startSect` is `EndOfChain` and the size is positive), `unpackFile`, having
opened its output, raises the format error. A stream of size 0 is extracted as an
empty file whatever `startSect` and the tables are: apart from the opening of the
output, the outcome does not depend on the decoder. -/
theorem truncated_chain_or_empty_stream (eif : EifFile) (node : DirEntry) (outPath : Path)
    (fs : FS) :
    (∀ (k r : Nat), (fs.openTrunc outPath).isSome = true → 0 < r →
      ((node.streamSize < eif.header.miniSectorCutoff ∧
          miniAfter eif k node.startSect node.streamSize = some (SectId.EndOfChain, r)) ∨
        (eif.header.miniSectorCutoff ≤ node.streamSize ∧
          mainAfter eif k node.startSect node.streamSize = some (SectId.EndOfChain, r))) →
      (unpackFile eif node outPath fs).1 = .error .format) ∧
    (node.streamSize = 0 →
      unpackFile eif node outPath fs =
        match fs.openTrunc outPath with
        | none => (.error .ioError, fs)
        | some fs1 => (.ok (), fs1.set outPath (.file []))) := by
  constructor
  · intro k r hopen hr hreach
    obtain ⟨fs1, hopen⟩ := Option.isSome_iff_exists.mp hopen
    have hcs : (copyStream eif node).1 = .error .format := by
      rcases hreach with ⟨hlt, h⟩ | ⟨hle, h⟩
      · obtain ⟨fuel', hf', heq⟩ :=
          copyMini_after eif k node.streamSize node.startSect node.streamSize _ _ (le_refl _) h
        simp only [copyStream, hlt, if_true, heq]
        exact copyMini_endOfChain eif fuel' r hr hf'
      · obtain ⟨fuel', hf', heq⟩ :=
          copyMain_after eif k node.streamSize node.startSect node.streamSize _ _ (le_refl _) h
        simp only [copyStream, Nat.not_lt.mpr hle, if_false, heq]
        exact copyMain_endOfChain eif fuel' r hr hf'
    simp [unpackFile, hopen, hcs]
  · intro h0
    simp only [unpackFile, copyStream_size_zero eif node h0]

theorem truncated_chain_or_empty_stream_witness :
    (unpackFile exampleEif (streamEntry 0 100) [[120]] baseFS).1 = .error .format ∧
    (unpackFile exampleEif (streamEntry 4 5121) [[120]] baseFS).1 = .error .format ∧
    (unpackFile exampleEif (streamEntry 0xfffffffe 1) [[120]] baseFS).1 = .error .format ∧
    unpackFile exampleEif (streamEntry 77 0) [[120]] baseFS =
      (match baseFS.openTrunc [[120]] with
        | none => (.error .ioError, baseFS)
        | some fs1 => (.ok (), fs1.set [[120]] (.file []))) :=
  ⟨(truncated_chain_or_empty_stream exampleEif (streamEntry 0 100) [[120]] baseFS).1
      1 36 (by decide!) (by decide) (Or.inl (by decide!)),
   (truncated_chain_or_empty_stream exampleEif (streamEntry 4 5121) [[120]] baseFS).1
      10 1 (by decide!) (by decide) (Or.inr (by decide!)),
   (truncated_chain_or_empty_stream exampleEif (streamEntry 0xfffffffe 1) [[120]] baseFS).1
      0 1 (by decide!) (by decide) (Or.inl (by decide!)),
   (truncated_chain_or_empty_stream exampleEif (streamEntry 77 0) [[120]] baseFS).2 (by decide)⟩

/-! ## Device failures -/

/-- C8. On the example container read from a device that fails on the first sector
of `big.bin`, the constructor succeeds and the extraction of `big.bin` ends in the
format error: the device failure is reported as a malformed file. The constructor
itself keeps the two apart: a device failure on the directory sector is rethrown as
the stream failure, a file cut short gives the format error. -/
theorem device_failure_reported_as_format_error :
    faultySource.readAt (sectOffset 4) SectSize = .bad ∧
    (extract faultySource 4 outPath ⟨baseFS, []⟩).1 = .error .format ∧
    (construct faultyDirSource 4).1.outcome = .error (.iosFailure true) ∧
    (construct shortSource 4).1.outcome = .error .format := by
  refine ⟨by decide!, by decide!, by decide!, by decide!⟩

/-! ## The root entry check -/

theorem andThen_ok {α β σ : Type} (r : Res α × σ) (k : α → σ → Res β × σ) (b : β) (s : σ)
    (h : andThen r k = (.ok b, s)) : ∃ a s1, r = (.ok a, s1) ∧ k a s1 = (.ok b, s) := by
  rcases r with ⟨r, s0⟩
  cases r with
  | ok a => exact ⟨a, s0, rfl, by simpa [andThen] using h⟩
  | error e => simp [andThen] at h
  | diverge => simp [andThen] at h
  | undefined => simp [andThen] at h

theorem andThen_ok_eq {α β σ : Type} (a : α) (s : σ) (k : α → σ → Res β × σ) :
    andThen (.ok a, s) k = k a s := rfl

theorem allocate_ok (src : Source) (count size : Nat) (s s1 : IStream) (u : Unit)
    (h : allocate src count size s = (.ok u, s1)) :
    s1 = s ∧ src.request count size = none := by
  unfold allocate at h
  cases hr : src.request count size with
  | none =>
    simp only [hr, Prod.mk.injEq] at h
    exact ⟨h.2.symm, rfl⟩
  | some e => simp [hr] at h

theorem allocate_of_granted (src : Source) (count size : Nat) (s : IStream)
    (h : src.request count size = none) : allocate src count size s = (.ok (), s) := by
  unfold allocate
  rw [h]

theorem allocate_of_refused (src : Source) (count size : Nat) (s : IStream) (e : Exn)
    (h : src.request count size = some e) : allocate src count size s = (.error e, s) := by
  unfold allocate
  rw [h]

theorem readAt_ok_length (src : Source) (pos n : Nat) (bytes : List Nat)
    (h : src.readAt pos n = .ok bytes) : bytes.length = n := by
  unfold Source.readAt at h
  split at h
  · exact absurd h (by simp)
  · split at h
    · rename_i hle
      simp only [ReadResult.ok.injEq] at h
      subst h
      simp only [List.length_take, List.length_drop]
      omega
    · exact absurd h (by simp)

theorem read_ok_length (src : Source) (n : Nat) (s s1 : IStream) (bytes : List Nat)
    (h : s.read src n = (.ok bytes, s1)) : bytes.length = n := by
  unfold IStream.read at h
  cases hr : src.readAt s.pos n with
  | ok b =>
    simp only [hr, Prod.mk.injEq, Res.ok.injEq] at h
    rw [← h.1]
    exact readAt_ok_length src s.pos n b hr
  | short => simp [hr] at h
  | bad => simp [hr] at h

theorem readChain_ok_length (src : Source) (fat : List Nat) (fuel : Nat) :
    ∀ (i : Nat) (acc : List Nat) (s s1 : IStream) (out : List Nat),
      readChain src fat fuel i acc s = (.ok out, s1) →
      (i = SectId.EndOfChain → out = acc ∧ s1 = s) ∧
      (i ≠ SectId.EndOfChain → acc.length + SectSize ≤ out.length) := by
  induction fuel with
  | zero =>
    intro i acc s s1 out h
    simp only [readChain] at h
    split at h
    · rename_i hi
      simp only [Prod.mk.injEq, Res.ok.injEq] at h
      exact ⟨fun _ => ⟨h.1.symm, h.2.symm⟩, fun hne => absurd hi hne⟩
    · exact absurd h (by simp)
  | succ n ih =>
    intro i acc s s1 out h
    simp only [readChain] at h
    split at h
    · rename_i hi
      simp only [Prod.mk.injEq, Res.ok.injEq] at h
      exact ⟨fun _ => ⟨h.1.symm, h.2.symm⟩, fun hne => absurd hi hne⟩
    · rename_i hi
      refine ⟨fun h0 => absurd h0 hi, fun _ => ?_⟩
      obtain ⟨bytes, s2, hread, hk⟩ := andThen_ok _ _ _ _ h
      have hlen := read_ok_length src SectSize _ _ _ hread
      cases hf : fat[i]? with
      | none => simp [hf] at hk
      | some next =>
        simp only [hf] at hk
        have := ih next (acc ++ bytes) s2 s1 out hk
        by_cases hn : next = SectId.EndOfChain
        · have h1 := (this.1 hn).1
          rw [h1, List.length_append, hlen]
        · have h2 := this.2 hn
          rw [List.length_append, hlen] at h2
          omega

theorem dirEntries_eq_nil_iff (bytes : List Nat) :
    dirEntries bytes = [] ↔ bytes.length < DirEntrySize := by
  simp only [dirEntries, List.map_eq_nil_iff, List.range_eq_nil, DirEntrySize]
  omega

theorem readTables_ok_parts (src : Source) (fuel : Nat) (s0 : IStream) (t : Tables)
    (s5 : IStream) (h : readTables src fuel s0 = (.ok t, s5)) :
    ∃ (hdr : List Nat) (s1 s2 s3 s4 : IStream) (mf db : List Nat),
      s0.read src SectSize = (.ok hdr, s1) ∧ checkHeader (parseHeader hdr) = true ∧
      t.header = parseHeader hdr ∧
      (if t.header.difSectNum > 0 then readDif src fuel t.header.fatSects s1
        else (.ok t.header.fatSects, s1)) = (.ok t.dif, s2) ∧
      readFat src t.dif t.header.fatSectNum 0
        (List.replicate (u32 (t.header.fatSectNum * SectSize) / 4) 0) s2 = (.ok t.fat, s3) ∧
      readChain src t.fat fuel t.header.miniFatBeginSect [] s3 = (.ok mf, s4) ∧
      readChain src t.fat fuel t.header.dirBeginSect [] s4 = (.ok db, s5) ∧
      t.miniFat = words mf ∧ t.dirs = dirEntries db := by
  unfold readTables at h
  obtain ⟨hdr, s1, hread, h1⟩ := andThen_ok _ _ _ _ h
  clear h
  simp only at h1
  split at h1
  · exact absurd h1 (by simp)
  · rename_i hc
    obtain ⟨_, s1a, ha1, h2⟩ := andThen_ok _ _ _ _ h1
    clear h1
    obtain ⟨hs1, _⟩ := allocate_ok _ _ _ _ _ _ ha1
    clear ha1
    subst hs1
    obtain ⟨dif, s2, hdif, h3⟩ := andThen_ok _ _ _ _ h2
    clear h2
    obtain ⟨_, s2a, ha2, h4⟩ := andThen_ok _ _ _ _ h3
    clear h3
    obtain ⟨hs2, _⟩ := allocate_ok _ _ _ _ _ _ ha2
    clear ha2
    subst hs2
    obtain ⟨fat, s3, hfat, h5⟩ := andThen_ok _ _ _ _ h4
    clear h4
    obtain ⟨_, s3a, ha3, h6⟩ := andThen_ok _ _ _ _ h5
    clear h5
    obtain ⟨hs3, _⟩ := allocate_ok _ _ _ _ _ _ ha3
    clear ha3
    subst hs3
    obtain ⟨mf, s4, hmf, h7⟩ := andThen_ok _ _ _ _ h6
    clear h6
    obtain ⟨_, s4a, ha4, h8⟩ := andThen_ok _ _ _ _ h7
    clear h7
    obtain ⟨hs4, _⟩ := allocate_ok _ _ _ _ _ _ ha4
    clear ha4
    subst hs4
    obtain ⟨db, s5', hdb, h9⟩ := andThen_ok _ _ _ _ h8
    clear h8
    simp only [Prod.mk.injEq, Res.ok.injEq] at h9
    obtain ⟨ht, hs⟩ := h9
    subst ht hs
    exact ⟨hdr, _, _, _, _, mf, db, hread, by simpa using hc, rfl, hdif, hfat, hmf, hdb, rfl,
      rfl⟩

theorem readTables_dirs (src : Source) (fuel : Nat) (s0 : IStream) (t : Tables)
    (s5 : IStream) (h : readTables src fuel s0 = (.ok t, s5)) :
    ∃ (s4 : IStream) (dirBytes : List Nat),
      readChain src t.fat fuel t.header.dirBeginSect [] s4 = (.ok dirBytes, s5) ∧
      t.dirs = dirEntries dirBytes := by
  obtain ⟨_, _, _, _, s4, _, db, _, _, _, _, _, _, hdb, _, hd⟩ :=
    readTables_ok_parts src fuel s0 t s5 h
  exact ⟨s4, db, hdb, hd⟩

theorem finishConstruct_eq (src : Source) (t : Tables) (r : Res (List Nat) × IStream) :
    (match (andThen r fun miniStream s6 =>
        ((.ok ⟨src, t.header, t.dif, t.fat, t.miniFat, t.dirs, miniStream⟩, s6) :
          Res EifFile × IStream)) with
      | (.error (.iosFailure false), s) => (.error .format, s)
      | x => x) = finishConstruct src t r := by
  rcases r with ⟨r, s6⟩
  cases r with
  | ok ms => simp [finishConstruct, andThen]
  | error e =>
    cases e with
    | iosFailure bad => cases bad <;> simp [finishConstruct, andThen]
    | format => simp [finishConstruct, andThen]
    | ioError => simp [finishConstruct, andThen]
    | outOfRange => simp [finishConstruct, andThen]
    | filesystem => simp [finishConstruct, andThen]
    | lengthError => simp [finishConstruct, andThen]
    | badAlloc => simp [finishConstruct, andThen]
  | diverge => simp [finishConstruct, andThen]
  | undefined => simp [finishConstruct, andThen]

theorem request_error (src : Source) (count size : Nat) (e : Exn)
    (h : src.request count size = some e) : e = .lengthError ∨ e = .badAlloc := by
  unfold Source.request at h
  split at h
  · exact absurd h (by simp)
  · split at h
    · exact Or.inl (Option.some.inj h).symm
    · split at h
      · exact Or.inr (Option.some.inj h).symm
      · exact absurd h (by simp)

/-- C9, counterexample. In this copy of the example container the stream size of
entry 0 is `2^64 - 1`. The header, DIFAT, FAT, MiniFAT and directory phases succeed
and entry 0 is a root storage, but `miniStream.reserve(streamSize)` raises
`std::length_error`, which the handler of the constructor does not catch: the
constructor ends with it in the stream state reached after the directory phase,
without a read of the mini-stream at offset 2048. -/
theorem root_size_refused :
    (readTables hugeRootSource 4 IStream.fresh).1.outcome = .ok () ∧
    ((tablesOf hugeRootSource 4).dirs.map fun e => (e.objType, e.startSect, e.streamSize)).take 1
      = [(ObjType.RootStorage, 3, 2 ^ 64 - 1)] ∧
    hugeRootSource.maxBytes = 2 ^ 63 - 1 ∧
    (construct hugeRootSource 4).1.outcome = .error .lengthError ∧
    (construct hugeRootSource 4).2 = afterDirs ∧
    afterDirs.reads = [(0, 512), (512, 512), (1536, 512), (1024, 512)] := by
  refine ⟨by decide!, by decide!, rfl, by decide!, by decide!, rfl⟩

/-- C9, amended. Once the header, DIFAT, FAT, MiniFAT and directory phases of the
constructor have succeeded: the directory array is empty exactly when the directory
head of the header is `EndOfChain`; when the array is empty or its entry 0 is not a
root storage, the constructor raises the format error in the stream state reached
after the directory phase (no further read); otherwise the constructor reserves
`streamSize` bytes of entry 0 for the mini-stream. When that request is refused the
constructor ends, without a further read, with `std::length_error` (always so when
`streamSize` exceeds `max_size()`) or `std::bad_alloc`; when it is granted the
constructor goes on with the FAT chain that starts at the start sector of entry 0 and
returns what that phase gives. -/
theorem root_entry_check (src : Source) (fuel : Nat) (t : Tables) (s5 : IStream)
    (h : readTables src fuel IStream.fresh = (.ok t, s5)) :
    (t.dirs = [] ↔ t.header.dirBeginSect = SectId.EndOfChain) ∧
    ((t.dirs = [] ∨ ∃ root rest, t.dirs = root :: rest ∧ root.objType ≠ ObjType.RootStorage) →
      construct src fuel = (.error .format, s5)) ∧
    (∀ root rest, t.dirs = root :: rest → root.objType = ObjType.RootStorage →
      (∀ e, src.request root.streamSize 1 = some e →
        construct src fuel = (.error e, s5) ∧ (e = .lengthError ∨ e = .badAlloc)) ∧
      (src.maxBytes < root.streamSize → construct src fuel = (.error .lengthError, s5)) ∧
      (src.request root.streamSize 1 = none →
        construct src fuel =
          finishConstruct src t (readChain src t.fat fuel root.startSect [] s5))) := by
  refine ⟨?_, ?_, ?_⟩
  · obtain ⟨s4, dirBytes, hchain, hdirs⟩ := readTables_dirs _ _ _ _ _ h
    have hlen := readChain_ok_length src t.fat fuel _ _ _ _ _ hchain
    rw [hdirs, dirEntries_eq_nil_iff]
    constructor
    · intro hlt
      by_contra hne
      have := hlen.2 hne
      simp only [DirEntrySize, SectSize, List.length_nil] at hlt this
      omega
    · intro heq
      rw [(hlen.1 heq).1]
      simp [DirEntrySize]
  · rintro (hnil | ⟨root, rest, hcons, hkind⟩)
    · simp [construct, constructBody, h, andThen, hnil]
    · simp [construct, constructBody, h, andThen, hcons, hkind]
  · intro root rest hcons hkind
    have hrefused : ∀ e, src.request root.streamSize 1 = some e →
        construct src fuel = (.error e, s5) ∧ (e = .lengthError ∨ e = .badAlloc) := by
      intro e he
      have hk := request_error src _ _ e he
      refine ⟨?_, hk⟩
      simp only [construct, constructBody, h, andThen_ok_eq, hcons, hkind, ne_eq,
        not_true_eq_false, if_false, allocate_of_refused src _ _ s5 e he]
      rcases hk with hk | hk <;> subst hk <;> rfl
    refine ⟨hrefused, ?_, ?_⟩
    · intro hbig
      refine (hrefused .lengthError ?_).1
      unfold Source.request
      have h0 : root.streamSize ≠ 0 := by omega
      rw [if_neg h0, if_pos (by rw [Nat.div_one]; exact hbig)]
    · intro hgranted
      have hfe := finishConstruct_eq src t (readChain src t.fat fuel root.startSect [] s5)
      rw [hcons] at hfe
      simp only [construct, constructBody, h, andThen_ok_eq, hcons, hkind, ne_eq,
        not_true_eq_false, if_false, allocate_of_granted src _ _ s5 hgranted]
      exact hfe

theorem root_entry_check_witness :
    construct noRootSource 4 = (.error .format, afterDirs) ∧
    construct exampleSource 4 =
      finishConstruct exampleSource exampleTables
        (readChain exampleSource exampleTables.fat 4
          (mkEntry [82, 111, 111, 116] 5 0xffffffff 0xffffffff 1 3 64).startSect []
          afterDirs) :=
  ⟨(root_entry_check noRootSource 4 noRootTables afterDirs (by decide!)).2.1
      (Or.inr ⟨mkEntry [82, 111, 111, 116] 1 0xffffffff 0xffffffff 1 3 64,
        exampleTables.dirs.tail, rfl, by decide⟩),
   ((root_entry_check exampleSource 4 exampleTables afterDirs (by decide!)).2.2
      (mkEntry [82, 111, 111, 116] 5 0xffffffff 0xffffffff 1 3 64)
      exampleTables.dirs.tail rfl (by decide)).2.2 (by decide)⟩

/-! ## Chains that leave their table -/

/-- C7, counterexample. The header of this two-sector container declares no FAT
sector and the MiniFAT head 0: the FAT is empty, the cursor 0 is not a valid index
of it, sector 0 can be read, and the constructor ends with `std::out_of_range` from
`fat.at(0)`, not with the format error. -/
theorem invalid_cursor_not_format_error :
    (tablesOf noFatSource 4).fat = [] ∧
    (parseHeader (noFatSource.data.take 512)).miniFatBeginSect = 0 ∧
    (construct noFatSource 4).1.outcome = .error .outOfRange ∧
    (construct noFatSource 4).1.outcome ≠ .error .format := by
  refine ⟨by decide!, by decide!, by decide!, by decide!⟩

theorem readChain_after (src : Source) (fat : List Nat) (k : Nat) :
    ∀ (fuel head : Nat) (acc : List Nat) (s : IStream) (c : Nat) (s1 : IStream),
      chainAfter src fat k head s = some (c, s1) → k < fuel →
      ∃ acc1, readChain src fat fuel head acc s = readChain src fat (fuel - k) c acc1 s1 := by
  induction k with
  | zero =>
    intro fuel head acc s c s1 h _
    simp only [chainAfter, Option.some.injEq, Prod.mk.injEq] at h
    exact ⟨acc, by rw [h.1, h.2]; rfl⟩
  | succ k ih =>
    intro fuel head acc s c s1 h hlt
    obtain ⟨f, rfl⟩ : ∃ f, fuel = f + 1 := ⟨fuel - 1, by omega⟩
    simp only [chainAfter] at h
    split at h
    · exact absurd h (by simp)
    · rename_i hi
      rcases hrd : (s.seekg (sectOffset head)).read src SectSize with ⟨r, s2⟩
      rw [hrd] at h
      cases r with
      | ok bytes =>
        simp only at h
        cases hf : fat[head]? with
        | none => simp [hf] at h
        | some next =>
          simp only [hf] at h
          obtain ⟨acc1, heq⟩ := ih f next (acc ++ bytes) s2 c s1 h (by omega)
          refine ⟨acc1, ?_⟩
          simp only [readChain, hi, if_false, hrd, andThen, hf, heq]
          congr 1
          omega
      | error e => simp at h
      | diverge => simp at h
      | undefined => simp at h

theorem readChain_invalid_cursor (src : Source) (fat : List Nat) (fuel c : Nat)
    (acc : List Nat) (s : IStream) (hc : c ≠ SectId.EndOfChain) (hf : fat[c]? = none) :
    (readChain src fat (fuel + 1) c acc s).1 =
      match src.readAt (sectOffset c) SectSize with
      | .ok _ => .error .outOfRange
      | .short => .error (.iosFailure false)
      | .bad => .error (.iosFailure true) := by
  simp only [readChain, hc, if_false, IStream.read, IStream.seekg]
  cases src.readAt (sectOffset c) SectSize <;> simp [andThen, hf]

theorem copyMini_invalid_cursor (eif : EifFile) (fuel c r : Nat) (hr : 0 < r) (hfuel : r ≤ fuel)
    (hc : c ≠ SectId.EndOfChain) (hf : eif.miniFat[c]? = none) :
    (copyMini eif fuel c r).1 =
      if miniOffset c + min r MiniSectSize > eif.miniStream.length then .error .format
      else .error .outOfRange := by
  obtain ⟨f, rfl⟩ : ∃ f, fuel = f + 1 := ⟨fuel - 1, by omega⟩
  have : r ≠ 0 := by omega
  simp only [copyMini, this, hc, if_false, hf]
  split <;> rfl

theorem copyMain_invalid_cursor (eif : EifFile) (fuel c r : Nat) (hr : 0 < r) (hfuel : r ≤ fuel)
    (hc : c ≠ SectId.EndOfChain) (hf : eif.fat[c]? = none) :
    (copyMain eif fuel c r).1 =
      match eif.fin.readAt (sectOffset c) (min r SectSize) with
      | .ok _ => .error .outOfRange
      | .short => .error .format
      | .bad => .error .format := by
  obtain ⟨f, rfl⟩ : ∃ f, fuel = f + 1 := ⟨fuel - 1, by omega⟩
  have : r ≠ 0 := by omega
  simp only [copyMain, this, hc, if_false]
  cases eif.fin.readAt (sectOffset c) (min r SectSize) <;> simp [hf]

/-- C7, amended. When a chain arrives, after any number of complete iterations, at
a cursor that is neither `EndOfChain` nor an index of the table being followed,
the loop ends with an exception, never with a normal return or an out-of-bounds
access. In the constructor: `std::out_of_range` from `fat.at` when the sector at
the cursor could be read, the stream failure otherwise (which the handler of the
constructor turns into the format error for a short read). In `unpackFile` with
bytes left to copy: on the mini chain the format error when the chunk lies outside
the mini-stream and `std::out_of_range` otherwise; on the main chain the format
error when the read fails and `std::out_of_range` otherwise. -/
theorem invalid_cursor_fails :
    (∀ (src : Source) (fat : List Nat) (k fuel head : Nat) (acc : List Nat) (s : IStream)
        (c : Nat) (s1 : IStream),
      chainAfter src fat k head s = some (c, s1) → c ≠ SectId.EndOfChain → fat[c]? = none →
      k < fuel →
      (readChain src fat fuel head acc s).1 =
        match src.readAt (sectOffset c) SectSize with
        | .ok _ => .error .outOfRange
        | .short => .error (.iosFailure false)
        | .bad => .error (.iosFailure true)) ∧
    (∀ (eif : EifFile) (node : DirEntry) (k c r : Nat),
      node.streamSize < eif.header.miniSectorCutoff →
      miniAfter eif k node.startSect node.streamSize = some (c, r) → 0 < r →
      c ≠ SectId.EndOfChain → eif.miniFat[c]? = none →
      (copyStream eif node).1 =
        if miniOffset c + min r MiniSectSize > eif.miniStream.length then .error .format
        else .error .outOfRange) ∧
    (∀ (eif : EifFile) (node : DirEntry) (k c r : Nat),
      eif.header.miniSectorCutoff ≤ node.streamSize →
      mainAfter eif k node.startSect node.streamSize = some (c, r) → 0 < r →
      c ≠ SectId.EndOfChain → eif.fat[c]? = none →
      (copyStream eif node).1 =
        match eif.fin.readAt (sectOffset c) (min r SectSize) with
        | .ok _ => .error .outOfRange
        | .short => .error .format
        | .bad => .error .format) := by
  refine ⟨?_, ?_, ?_⟩
  · intro src fat k fuel head acc s c s1 hafter hc hf hlt
    obtain ⟨acc1, heq⟩ := readChain_after src fat k fuel head acc s c s1 hafter hlt
    obtain ⟨f, hfeq⟩ : ∃ f, fuel - k = f + 1 := ⟨fuel - k - 1, by omega⟩
    rw [heq, hfeq]
    exact readChain_invalid_cursor src fat f c acc1 s1 hc hf
  · intro eif node k c r hlt hafter hr hc hf
    obtain ⟨fuel', hf', heq⟩ :=
      copyMini_after eif k node.streamSize node.startSect node.streamSize _ _ (le_refl _) hafter
    simp only [copyStream, hlt, if_true, heq]
    exact copyMini_invalid_cursor eif fuel' c r hr hf' hc hf
  · intro eif node k c r hle hafter hr hc hf
    obtain ⟨fuel', hf', heq⟩ :=
      copyMain_after eif k node.streamSize node.startSect node.streamSize _ _ (le_refl _) hafter
    simp only [copyStream, Nat.not_lt.mpr hle, if_false, heq]
    exact copyMain_invalid_cursor eif fuel' c r hr hf' hc hf

theorem invalid_cursor_fails_witness :
    (readChain noFatSource [] 4 0 [] ⟨512, [(0, 512)]⟩).1 = .error .outOfRange ∧
    (copyStream brokenMiniEif (streamEntry 0 100)).1 = .error .format ∧
    (copyStream exampleEif (streamEntry 0 5000)).1 = .error .format :=
  ⟨(invalid_cursor_fails.1 noFatSource [] 0 4 0 [] ⟨512, [(0, 512)]⟩ 0 ⟨512, [(0, 512)]⟩
      rfl (by decide) rfl (by decide)).trans (by decide!),
   (invalid_cursor_fails.2.1 brokenMiniEif (streamEntry 0 100) 1 0xffffffff 36
      (by decide!) (by decide!) (by decide) (by decide) (by decide!)).trans (by decide!),
   (invalid_cursor_fails.2.2 exampleEif (streamEntry 0 5000) 1 0xfffffffd 4488
      (by decide!) (by decide!) (by decide) (by decide) (by decide!)).trans (by decide!)⟩

/-! ## The bytes written by `unpackFile` -/

theorem take_chunk (l X : List Nat) (off r c : Nat) (hb : off + min r c ≤ l.length) :
    (l.drop off).take (min r c) ++ X.take (r - min r c) = (((l.drop off).take c) ++ X).take r := by
  rw [List.take_append_eq_append_take, List.take_take]
  congr 2
  simp only [List.length_take, List.length_drop]
  omega

theorem chunkCount_step (r c : Nat) (hc : 0 < c) (hr : r ≠ 0) :
    chunkCount r c = chunkCount (r - min r c) c + 1 := by
  unfold chunkCount
  rcases Nat.lt_or_ge r c with h | h
  · have h1 : min r c = r := Nat.min_eq_left (Nat.le_of_lt h)
    rw [h1, Nat.sub_self, Nat.zero_add]
    have h2 : (c - 1) / c = 0 := Nat.div_eq_of_lt (by omega)
    have h3 : (r + c - 1) / c = 1 := by
      apply Nat.div_eq_of_lt_le <;> omega
    rw [h2, h3]
  · have h1 : min r c = c := Nat.min_eq_right h
    rw [h1]
    have h2 : r + c - 1 = (r - c + c - 1) + c := by omega
    rw [h2, Nat.add_div_right _ hc]

theorem flatMap_congr_mem {α β : Type} (l : List α) (f g : α → List β)
    (h : ∀ x ∈ l, f x = g x) : l.flatMap f = l.flatMap g := by
  induction l with
  | nil => rfl
  | cons a t ih =>
    rw [List.flatMap_cons, List.flatMap_cons, h a (List.mem_cons_self _ _),
      ih (fun x hx => h x (List.mem_cons_of_mem _ hx))]

theorem copyMini_ok_chunks (eif : EifFile) (fuel : Nat) :
    ∀ (i r : Nat) (out : List Nat), copyMini eif fuel i r = (.ok (), out) →
      out = ((chainCursors eif.miniFat (chunkCount r MiniSectSize) i).flatMap
              (miniRead eif)).take r ∧ out.length = r := by
  induction fuel with
  | zero =>
    intro i r out h
    simp only [copyMini] at h
    split at h
    · rename_i hr
      simp only [Prod.mk.injEq, true_and] at h
      subst hr
      simp [← h]
    · exact absurd h (by simp)
  | succ n ih =>
    intro i r out h
    simp only [copyMini] at h
    split at h
    · rename_i hr
      simp only [Prod.mk.injEq, true_and] at h
      subst hr
      simp [← h]
    · rename_i hr
      split at h
      · exact absurd h (by simp)
      · rename_i hi
        split at h
        · exact absurd h (by simp)
        · rename_i hb
          cases hm : eif.miniFat[i]? with
          | none => simp [hm] at h
          | some next =>
            simp only [hm, Prod.mk.injEq] at h
            obtain ⟨hok, hout⟩ := h
            have hcc := chunkCount_step r MiniSectSize (by decide) hr
            have hcur : chainCursors eif.miniFat (chunkCount r MiniSectSize) i =
                i :: chainCursors eif.miniFat
                  (chunkCount (r - min r MiniSectSize) MiniSectSize) next := by
              rw [hcc]
              simp [chainCursors, hi, hm]
            rw [hcur]
            have hb' : miniOffset i + min r MiniSectSize ≤ eif.miniStream.length := by
              omega
            obtain ⟨hrec, hlen⟩ := ih next (r - min r MiniSectSize)
              (copyMini eif n next (r - min r MiniSectSize)).2
              (Prod.ext hok rfl)
            constructor
            · rw [← hout, List.flatMap_cons, miniRead, ← take_chunk _ _ _ _ _ hb', ← hrec]
            · rw [← hout, List.length_append, hlen, List.length_take, List.length_drop]
              omega

theorem copyMain_ok_chunks (eif : EifFile) (fuel : Nat) :
    ∀ (i r : Nat) (out : List Nat), copyMain eif fuel i r = (.ok (), out) →
      out = ((chainCursors eif.fat (chunkCount r SectSize) i).flatMap
              (sectorRead eif.fin)).take r ∧ out.length = r := by
  induction fuel with
  | zero =>
    intro i r out h
    simp only [copyMain] at h
    split at h
    · rename_i hr
      simp only [Prod.mk.injEq, true_and] at h
      subst hr
      simp [← h]
    · exact absurd h (by simp)
  | succ n ih =>
    intro i r out h
    simp only [copyMain] at h
    split at h
    · rename_i hr
      simp only [Prod.mk.injEq, true_and] at h
      subst hr
      simp [← h]
    · rename_i hr
      split at h
      · exact absurd h (by simp)
      · rename_i hi
        cases hrd : eif.fin.readAt (sectOffset i) (min r SectSize) with
        | short => simp [hrd] at h
        | bad => simp [hrd] at h
        | ok buf =>
          simp only [hrd] at h
          cases hm : eif.fat[i]? with
          | none => simp [hm] at h
          | some next =>
            simp only [hm, Prod.mk.injEq] at h
            obtain ⟨hok, hout⟩ := h
            have hcc := chunkCount_step r SectSize (by decide) hr
            have hcur : chainCursors eif.fat (chunkCount r SectSize) i =
                i :: chainCursors eif.fat (chunkCount (r - min r SectSize) SectSize) next := by
              rw [hcc]
              simp [chainCursors, hi, hm]
            rw [hcur]
            have hbuf : buf = (eif.fin.data.drop (sectOffset i)).take (min r SectSize) ∧
                sectOffset i + min r SectSize ≤ eif.fin.data.length := by
              unfold Source.readAt at hrd
              split at hrd
              · exact absurd hrd (by simp)
              · split at hrd
                · rename_i hle
                  simp only [ReadResult.ok.injEq] at hrd
                  exact ⟨hrd.symm, hle⟩
                · exact absurd hrd (by simp)
            obtain ⟨hrec, hlen⟩ := ih next (r - min r SectSize)
              (copyMain eif n next (r - min r SectSize)).2
              (Prod.ext hok rfl)
            constructor
            · rw [← hout, List.flatMap_cons, sectorRead, ← take_chunk _ _ _ _ _ hbuf.2, ← hrec,
                hbuf.1]
            · rw [← hout, List.length_append, hlen, hbuf.1, List.length_take, List.length_drop]
              omega

theorem copyMini_ok_bytes (eif : EifFile) (fuel : Nat) :
    ∀ (i r : Nat) (out : List Nat), copyMini eif fuel i r = (.ok (), out) →
      (∀ c ∈ chainCursors eif.miniFat (chunkCount r MiniSectSize) i, c * MiniSectSize < 2 ^ 32) →
      out = ((chainCursors eif.miniFat (chunkCount r MiniSectSize) i).flatMap
              (miniSector eif)).take r ∧ out.length = r := by
  intro i r out h hfit
  obtain ⟨h1, h2⟩ := copyMini_ok_chunks eif fuel i r out h
  refine ⟨?_, h2⟩
  rw [h1]
  congr 1
  apply flatMap_congr_mem
  intro c hc
  unfold miniRead miniSector miniOffset u32
  rw [Nat.mod_eq_of_lt (hfit c hc)]

theorem copyMain_ok_bytes (eif : EifFile) (fuel : Nat) :
    ∀ (i r : Nat) (out : List Nat), copyMain eif fuel i r = (.ok (), out) →
      (∀ c ∈ chainCursors eif.fat (chunkCount r SectSize) i, (c + 1) * SectSize < 2 ^ 32) →
      out = ((chainCursors eif.fat (chunkCount r SectSize) i).flatMap
              (sector eif.fin)).take r ∧ out.length = r := by
  intro i r out h hfit
  obtain ⟨h1, h2⟩ := copyMain_ok_chunks eif fuel i r out h
  refine ⟨?_, h2⟩
  rw [h1]
  congr 1
  apply flatMap_congr_mem
  intro c hc
  have hc1 : c + 1 < 2 ^ 32 := by
    have := hfit c hc
    simp only [SectSize] at this
    omega
  unfold sectorRead sector sectOffset u32
  rw [Nat.mod_eq_of_lt hc1, Nat.mod_eq_of_lt (hfit c hc)]

/-! ## Selection of the chain by `unpackFile` -/

/-- C5. `unpackFile` follows the mini chain when the stream size is below the cutoff
of the header, and the main chain otherwise, also when the size is the cutoff; a size
of `miniSectorCutoff - 1` takes the mini chain. Following the mini chain: a normal
return has written the first `streamSize` bytes of the 64-byte chunks of the
mini-stream along the MiniFAT from `startSect`, and nothing but the cutoff, the
MiniFAT and the mini-stream bears on the outcome and the bytes written. Following
the main chain: the same with the 512-byte chunks of the input along the FAT, and
nothing but the cutoff, the FAT and the input bears on them. -/
theorem chain_selection (eif : EifFile) (node : DirEntry) :
    (node.streamSize < eif.header.miniSectorCutoff → FollowsMini eif node) ∧
    (eif.header.miniSectorCutoff ≤ node.streamSize → FollowsMain eif node) ∧
    (node.streamSize = eif.header.miniSectorCutoff → FollowsMain eif node) ∧
    (node.streamSize + 1 = eif.header.miniSectorCutoff → FollowsMini eif node) := by
  have hmini : node.streamSize < eif.header.miniSectorCutoff → FollowsMini eif node := by
    intro hlt
    refine ⟨fun out hout => ?_, fun eif' hh hf hm p fs => ?_⟩
    · simp only [copyStream, hlt, if_true] at hout
      exact (copyMini_ok_chunks eif _ _ _ out hout).1
    · have h1 : copyStream eif' node = copyStream eif node := by
        simp [copyStream, hh, hlt, copyMini_congr eif eif' hf hm]
      simp [unpackFile, h1]
  have hmain : eif.header.miniSectorCutoff ≤ node.streamSize → FollowsMain eif node := by
    intro hle
    refine ⟨fun out hout => ?_, fun eif' hh hf hm p fs => ?_⟩
    · simp only [copyStream, Nat.not_lt.mpr hle, if_false] at hout
      exact (copyMain_ok_chunks eif _ _ _ out hout).1
    · have h1 : copyStream eif' node = copyStream eif node := by
        simp [copyStream, hh, Nat.not_lt.mpr hle, copyMain_congr eif eif' hf hm]
      simp [unpackFile, h1]
  exact ⟨hmini, hmain, fun h => hmain (Nat.le_of_eq h.symm), fun h => hmini (by omega)⟩

theorem chain_selection_witness :
    boundaryEif.header.miniSectorCutoff = 10 ∧
    copyStream boundaryEif (streamEntry 0 10) =
      (.ok (), [0xfd, 0xff, 0xff, 0xff, 0xfe, 0xff, 0xff, 0xff, 0xfe, 0xff]) ∧
    ((chainCursors boundaryEif.fat (chunkCount 10 SectSize) 0).flatMap
      (sectorRead boundaryEif.fin)).take 10 =
        [0xfd, 0xff, 0xff, 0xff, 0xfe, 0xff, 0xff, 0xff, 0xfe, 0xff] ∧
    copyStream boundaryEif (streamEntry 0 9) = (.ok (), helloWorld.take 9) ∧
    ((chainCursors boundaryEif.miniFat (chunkCount 9 MiniSectSize) 0).flatMap
      (miniRead boundaryEif)).take 9 = helloWorld.take 9 :=
  ⟨rfl, by decide!,
   (((chain_selection boundaryEif (streamEntry 0 10)).2.2.1 rfl).1
      [0xfd, 0xff, 0xff, 0xff, 0xfe, 0xff, 0xff, 0xff, 0xfe, 0xff] (by decide!)).symm,
   by decide!,
   (((chain_selection boundaryEif (streamEntry 0 9)).2.2.2 rfl).1
      (helloWorld.take 9) (by decide!)).symm⟩

/-! ## A stream whose sector offset wraps -/

theorem encLE_length (n v : Nat) : (encLE n v).length = n := by
  induction n generalizing v with
  | zero => rfl
  | succ n ih => simp [encLE, ih]

theorem length_flatMap_const {α : Type} (l : List α) (f : α → List Nat) (c : Nat)
    (h : ∀ x, (f x).length = c) : (l.flatMap f).length = l.length * c := by
  induction l with
  | nil => simp
  | cons a t ih => simp [List.flatMap_cons, h, ih, Nat.succ_mul, Nat.add_comm]

theorem wrapDifSector_length (k : Nat) : (wrapDifSector k).length = 512 := by
  unfold wrapDifSector
  rw [List.length_append, encLE_length, length_flatMap_const _ _ 4 (encLE_length 4),
    List.length_replicate]

theorem wrapHeaderBytes_length : wrapHeaderBytes.length = 512 := by decide!

theorem wrapBytes_length : wrapBytes.length = 265728 := by
  have h1 : (encWords (List.replicate 128 0xfffffffe)).length = 512 := by decide!
  have h2 : wrapDirBytes.length = 512 := by decide!
  unfold wrapBytes
  rw [List.length_append, List.length_append, List.length_append, wrapHeaderBytes_length,
    length_flatMap_const _ _ 512 wrapDifSector_length, h1, h2, List.length_range]

theorem wrap_facts : wrapEntry.startSect = 8388607 ∧ wrapEntry.streamSize = 8 ∧
    wrapEntry.objType = ObjType.Stream ∧ wrapEif.header.miniSectorCutoff = 8 ∧
    wrapEif.dirs[1]? = some wrapEntry ∧ checkHeader wrapEif.header = true ∧
    wrapEif.header.fatSectNum = 65536 ∧ wrapEif.header.difSectNum = 516 := by decide!

theorem wrap_read :
    wrapEif.fin.readAt 0 8 = .ok [0xd0, 0xcf, 0x11, 0xe0, 0xa1, 0xb1, 0x1a, 0xe1] := by
  have h1 : wrapHeaderBytes.take 8 = [0xd0, 0xcf, 0x11, 0xe0, 0xa1, 0xb1, 0x1a, 0xe1] := by
    decide!
  have h2 : (wrapBytes.drop 0).take 8 = [0xd0, 0xcf, 0x11, 0xe0, 0xa1, 0xb1, 0x1a, 0xe1] := by
    rw [List.drop_zero, wrapBytes,
      List.take_append_of_le_length (by rw [wrapHeaderBytes_length]; omega), h1]
  have h3 : 0 + 8 ≤ wrapBytes.length := by rw [wrapBytes_length]; omega
  show (if false = true then ReadResult.bad
        else if 0 + 8 ≤ wrapBytes.length then ReadResult.ok ((wrapBytes.drop 0).take 8)
        else ReadResult.short) = _
  rw [if_neg (by decide), if_pos h3, h2]

theorem getElem?_replicate_lt (n i v : Nat) (h : i < n) :
    (List.replicate n v)[i]? = some v := by
  rw [List.getElem?_replicate, if_pos h]

theorem wrap_fat : wrapEif.fat[8388607]? = some SectId.EndOfChain :=
  getElem?_replicate_lt 8388608 8388607 0xfffffffe (by omega)

theorem copyMain_last_chunk (eif : EifFile) (fuel i r : Nat) (buf : List Nat) (next : Nat)
    (hr : r ≠ 0) (hle : r ≤ SectSize) (hi : i ≠ SectId.EndOfChain)
    (hrd : eif.fin.readAt (sectOffset i) r = .ok buf) (hf : eif.fat[i]? = some next) :
    copyMain eif (fuel + 1) i r = (.ok (), buf) := by
  have hmin : min r SectSize = r := Nat.min_eq_left hle
  have h0 : copyMain eif fuel next 0 = (.ok (), []) := by
    cases fuel <;> simp [copyMain]
  simp [copyMain, hr, hi, hmin, hrd, hf, h0]

theorem wrap_copy :
    copyStream wrapEif wrapEntry = (.ok (), [0xd0, 0xcf, 0x11, 0xe0, 0xa1, 0xb1, 0x1a, 0xe1]) := by
  obtain ⟨hstart, hsize, _, hcut, _⟩ := wrap_facts
  have hoff : sectOffset 8388607 = 0 := by decide
  have h := copyMain_last_chunk wrapEif 7 8388607 8 _ _ (by omega) (by decide) (by decide)
    (by rw [hoff]; exact wrap_read) wrap_fat
  simp only [copyStream, hstart, hsize, hcut, Nat.lt_irrefl, if_false]
  exact h

theorem payload_single_sector (eif : EifFile) (node : DirEntry) (next : Nat)
    (hcut : ¬ node.streamSize < eif.header.miniSectorCutoff)
    (h0 : node.streamSize ≠ 0) (hle : node.streamSize ≤ SectSize)
    (hi : node.startSect ≠ SectId.EndOfChain) (hf : eif.fat[node.startSect]? = some next) :
    payload eif node = (sector eif.fin node.startSect).take node.streamSize := by
  have hcc : chunkCount node.streamSize SectSize = 0 + 1 := by
    unfold chunkCount
    apply Nat.div_eq_of_lt_le <;> simp only [SectSize] at * <;> omega
  simp [payload, streamCursors, hcut, hcc, chainCursors, hi, hf]

theorem sector_past_end (src : Source) (i : Nat) (h : src.data.length ≤ (i + 1) * SectSize) :
    sector src i = [] := by
  unfold sector
  rw [List.drop_eq_nil_of_le h]
  rfl

theorem wrap_payload : payload wrapEif wrapEntry = [] := by
  obtain ⟨hstart, hsize, _, hcut, _⟩ := wrap_facts
  have hf : wrapEif.fat[wrapEntry.startSect]? = some SectId.EndOfChain := by
    rw [hstart]; exact wrap_fat
  have hlen : wrapEif.fin.data.length ≤ (wrapEntry.startSect + 1) * SectSize := by
    rw [hstart]
    show wrapBytes.length ≤ _
    rw [wrapBytes_length]
    decide
  rw [payload_single_sector wrapEif wrapEntry _ (by rw [hsize, hcut]; omega)
    (by rw [hsize]; omega) (by rw [hsize]; decide) (by rw [hstart]; decide) hf,
    sector_past_end _ _ hlen]
  rfl

theorem copyStream_ok_payload (eif : EifFile) (node : DirEntry)
    (hok : (copyStream eif node).1 = .ok ()) (hfit : offsetsFit eif node = true) :
    (copyStream eif node).2 = payload eif node ∧
      (payload eif node).length = node.streamSize := by
  unfold offsetsFit at hfit
  unfold copyStream at hok ⊢
  unfold payload streamCursors at *
  by_cases hlt : node.streamSize < eif.header.miniSectorCutoff
  · simp only [hlt, if_true, List.all_eq_true, decide_eq_true_eq] at hok hfit ⊢
    have := copyMini_ok_bytes eif node.streamSize node.startSect node.streamSize _
      (Prod.ext hok rfl) hfit
    exact ⟨this.1, this.1 ▸ this.2⟩
  · simp only [hlt, if_false, List.all_eq_true, decide_eq_true_eq] at hok hfit ⊢
    have := copyMain_ok_bytes eif node.streamSize node.startSect node.streamSize _
      (Prod.ext hok rfl) hfit
    exact ⟨this.1, this.1 ▸ this.2⟩

/-- C1. In the decoder of the file with a FAT of `2^23` entries, the
stream entry has size 8 (not below the cutoff 8) and start sector `2^23 - 1`. The
offset `(2^23 - 1 + 1) * 512` wraps to 0 in 32-bit arithmetic: `unpackFile` succeeds
and writes the first 8 bytes of the header, whereas the input holds no byte at
offset `2^32`, so that the chunks of the chain are empty. -/
theorem written_bytes_wrap :
    wrapEntry.objType = ObjType.Stream ∧ wrapEif.dirs[1]? = some wrapEntry ∧
    wrapEntry.streamSize = 8 ∧
    (unpackFile wrapEif wrapEntry [[120]] baseFS).1 = .ok () ∧
    (unpackFile wrapEif wrapEntry [[120]] baseFS).2 [[120]] =
      some (.file [0xd0, 0xcf, 0x11, 0xe0, 0xa1, 0xb1, 0x1a, 0xe1]) ∧
    payload wrapEif wrapEntry = [] := by
  obtain ⟨_, hsize, hkind, _, hdirs, _⟩ := wrap_facts
  have hopen : baseFS.openTrunc [[120]] = some (baseFS.set [[120]] (.file [])) := rfl
  refine ⟨hkind, hdirs, hsize, ?_, ?_, wrap_payload⟩
  · simp only [unpackFile, hopen, wrap_copy]
  · simp only [unpackFile, hopen, wrap_copy, FS.set, if_true]

/-- While no offset computed for a cursor of the stream leaves the 32-bit range, a
normal return of `unpackFile` leaves the output file holding exactly the
payload of the entry: the first `streamSize` bytes of the concatenation of the
chunks along its chain, 64-byte mini-sectors of the mini-stream linked by the
MiniFAT below the cutoff and 512-byte sectors of the input at offset
`(index + 1) * 512` linked by the FAT otherwise; its length is `streamSize`. -/
theorem written_bytes_are_payload (eif : EifFile) (node : DirEntry) (outPath : Path)
    (fs fs1 : FS) (hok : unpackFile eif node outPath fs = (.ok (), fs1))
    (hfit : offsetsFit eif node = true) :
    fs1 outPath = some (.file (payload eif node)) ∧
      (payload eif node).length = node.streamSize := by
  unfold unpackFile at hok
  cases hopen : fs.openTrunc outPath with
  | none => simp [hopen] at hok
  | some fs0 =>
    simp only [hopen, Prod.mk.injEq] at hok
    obtain ⟨hres, hfs⟩ := hok
    obtain ⟨hbytes, hlen⟩ := copyStream_ok_payload eif node hres hfit
    refine ⟨?_, hlen⟩
    rw [← hfs, hbytes]
    simp [FS.set]

theorem written_bytes_are_payload_witness :
    ((unpackFile exampleEif (exampleEif.dirs.getD 2 (streamEntry 0 0)) [nameATxt] baseFS).2
        [nameATxt] = some (.file helloWorld)) ∧
    ((unpackFile exampleEif (exampleEif.dirs.getD 3 (streamEntry 0 0)) [nameBigBin] baseFS).2
        [nameBigBin] = some (.file bigPayload)) :=
  ⟨(written_bytes_are_payload exampleEif (exampleEif.dirs.getD 2 (streamEntry 0 0)) [nameATxt]
      baseFS (unpackFile exampleEif (exampleEif.dirs.getD 2 (streamEntry 0 0)) [nameATxt]
        baseFS).2
      (show unpackFile exampleEif (exampleEif.dirs.getD 2 (streamEntry 0 0)) [nameATxt] baseFS =
          (.ok (), (unpackFile exampleEif (exampleEif.dirs.getD 2 (streamEntry 0 0)) [nameATxt]
            baseFS).2) from Prod.ext (by decide!) rfl)
      (by decide!)).1.trans (by decide!),
   (written_bytes_are_payload exampleEif (exampleEif.dirs.getD 3 (streamEntry 0 0))
      [nameBigBin] baseFS
      (unpackFile exampleEif (exampleEif.dirs.getD 3 (streamEntry 0 0)) [nameBigBin] baseFS).2
      (show unpackFile exampleEif (exampleEif.dirs.getD 3 (streamEntry 0 0)) [nameBigBin]
            baseFS =
          (.ok (), (unpackFile exampleEif (exampleEif.dirs.getD 3 (streamEntry 0 0))
            [nameBigBin] baseFS).2) from Prod.ext (by decide!) rfl)
      (by decide!)).1.trans (by decide!)⟩

/-! ## The tree walker visits each reachable entry once -/

theorem copyMini_ne_diverge (eif : EifFile) (fuel : Nat) :
    ∀ (i r : Nat), r ≤ fuel → (copyMini eif fuel i r).1 ≠ .diverge := by
  induction fuel with
  | zero =>
    intro i r h
    have : r = 0 := by omega
    simp [copyMini, this]
  | succ n ih =>
    intro i r h
    simp only [copyMini]
    split
    · simp
    · rename_i hr
      split
      · simp
      · split
        · simp
        · split
          · simp
          · have hmin : 0 < min r MiniSectSize := by
              simp only [MiniSectSize]; omega
            exact ih _ _ (by omega)

theorem copyMain_ne_diverge (eif : EifFile) (fuel : Nat) :
    ∀ (i r : Nat), r ≤ fuel → (copyMain eif fuel i r).1 ≠ .diverge := by
  induction fuel with
  | zero =>
    intro i r h
    have : r = 0 := by omega
    simp [copyMain, this]
  | succ n ih =>
    intro i r h
    simp only [copyMain]
    split
    · simp
    · rename_i hr
      split
      · simp
      · split
        · split
          · simp
          · have hmin : 0 < min r SectSize := by
              simp only [SectSize]; omega
            exact ih _ _ (by omega)
        · simp
        · simp

theorem copyStream_ne_diverge (eif : EifFile) (node : DirEntry) :
    (copyStream eif node).1 ≠ .diverge := by
  unfold copyStream
  split
  · exact copyMini_ne_diverge eif _ _ _ (le_refl _)
  · exact copyMain_ne_diverge eif _ _ _ (le_refl _)

theorem unpackFile_ne_diverge (eif : EifFile) (node : DirEntry) (p : Path) (fs : FS) :
    (unpackFile eif node p fs).1 ≠ .diverge := by
  unfold unpackFile
  split
  · simp
  · exact copyStream_ne_diverge eif node

theorem tracks_ok (w : World) : Tracks [] [] w (.ok (), w) :=
  ⟨by simp, [], by simp, fun _ => ⟨rfl, rfl⟩⟩

theorem tracks_andThen (A1 B1 A2 B2 : List Nat) (w : World) (r : Res Unit × World)
    (k : Unit → World → Res Unit × World)
    (h1 : Tracks A1 B1 w r) (h2 : ∀ w1, Tracks A2 B2 w1 (k () w1)) :
    Tracks (A1 ++ A2) (B1 ++ B2) w (andThen r k) := by
  obtain ⟨hnd, new1, hlog1, hok1⟩ := h1
  rcases r with ⟨res, w1⟩
  cases res with
  | ok u =>
    obtain ⟨hnd2, new2, hlog2, hok2⟩ := h2 w1
    refine ⟨by simpa [andThen] using hnd2, new1 ++ new2, ?_, ?_⟩
    · simp only [andThen]
      rw [hlog2, hlog1, List.append_assoc]
    · intro hok
      simp only [andThen] at hok
      obtain ⟨ha1, hb1⟩ := hok1 rfl
      obtain ⟨ha2, hb2⟩ := hok2 hok
      simp only [createdSids, extractedSids, List.filterMap_append] at *
      rw [ha1, hb1, ha2, hb2]
      exact ⟨rfl, rfl⟩
  | error e => exact ⟨by simp [andThen], new1, by simpa [andThen] using hlog1, by simp [andThen]⟩
  | diverge => exact absurd rfl hnd
  | undefined =>
    exact ⟨by simp [andThen], new1, by simpa [andThen] using hlog1, by simp [andThen]⟩

theorem tracks_prepend (ev : Event) (A B : List Nat) (w : World) (fs1 : FS)
    (res : Res Unit × World) (h : Tracks A B ⟨fs1, w.log ++ [ev]⟩ res) :
    Tracks (createdSids [ev] ++ A) (extractedSids [ev] ++ B) w res := by
  obtain ⟨hnd, new, hlog, hok⟩ := h
  refine ⟨hnd, ev :: new, by simpa using hlog, fun h => ?_⟩
  obtain ⟨ha, hb⟩ := hok h
  cases ev <;> simp [createdSids, extractedSids] at * <;> exact ⟨ha, hb⟩

theorem unpackNode_tracks (eif : EifFile) (fuel : Nat) :
    ∀ (sid : Nat) (t : DirTree) (outDir : Path) (w : World),
      unfoldTree eif.dirs fuel sid = some t →
      Tracks (t.sids.filter (isStorageAt eif.dirs)) (t.sids.filter (isStreamAt eif.dirs)) w
        (unpackNode eif fuel sid outDir w) := by
  induction fuel with
  | zero =>
    intro sid t outDir w h
    simp [unfoldTree] at h
  | succ n ih =>
    intro sid t outDir w h
    simp only [unfoldTree] at h
    by_cases hsid : sid = StreamID.NoStream
    · simp only [hsid, if_true, Option.some.injEq] at h
      subst h
      simp only [unpackNode, hsid, if_true, DirTree.sids, List.filter_nil]
      exact tracks_ok w
    · simp only [hsid, if_false] at h
      cases hd : eif.dirs[sid]? with
      | none => simp [hd] at h
      | some e =>
        simp only [hd] at h
        cases hc : (if e.objType = ObjType.RootStorage ∨ e.objType = ObjType.Storage then
                 unfoldTree eif.dirs n e.childId else some .leaf) with
        | none => simp [hc] at h
        | some c =>
          cases hl : unfoldTree eif.dirs n e.leftSiblingId with
          | none => simp [hc, hl] at h
          | some l =>
            cases hr : unfoldTree eif.dirs n e.rightSiblingId with
            | none => simp [hc, hl, hr] at h
            | some r =>
              simp only [hc, hl, hr, Option.some.injEq] at h
              subst h
              simp only [unpackNode, hsid, if_false, hd]
              cases hp : (if e.objType = ObjType.RootStorage then some outDir
                  else (cstr e.name).map fun seg => outDir ++ [seg]) with
              | none =>
                exact ⟨by simp, [], by simp, by simp⟩
              | some curPath =>
                simp only []
                have hsib : ∀ w1 : World,
                    Tracks (l.sids.filter (isStorageAt eif.dirs) ++
                              r.sids.filter (isStorageAt eif.dirs))
                      (l.sids.filter (isStreamAt eif.dirs) ++
                              r.sids.filter (isStreamAt eif.dirs)) w1
                      (andThen (unpackNode eif n e.leftSiblingId outDir w1) fun _ w2 =>
                        unpackNode eif n e.rightSiblingId outDir w2) := by
                  intro w1
                  exact tracks_andThen _ _ _ _ w1 _
                    (fun _ w2 => unpackNode eif n e.rightSiblingId outDir w2)
                    (ih _ l outDir w1 hl) (fun w2 => ih _ r outDir w2 hr)
                by_cases hk : e.objType = ObjType.RootStorage ∨ e.objType = ObjType.Storage
                · have hst : isStorageAt eif.dirs sid = true := by
                    simp [isStorageAt, hd, hk]
                  have hnst : isStreamAt eif.dirs sid = false := by
                    simp only [isStreamAt, hd, decide_eq_false_iff_not]
                    rcases hk with hk | hk <;> rw [hk] <;> decide
                  simp only [hk, if_true] at hc ⊢
                  have hown : Tracks (sid :: c.sids.filter (isStorageAt eif.dirs))
                      (c.sids.filter (isStreamAt eif.dirs)) w
                      (match locate curPath with
                        | none => (Res.undefined,
                            (⟨w.fs, w.log ++ [Event.createDirectory sid curPath]⟩ : World))
                        | some loc =>
                          match w.fs.createDirectory loc with
                          | none => (Res.error Exn.filesystem,
                              (⟨w.fs, w.log ++ [Event.createDirectory sid curPath]⟩ : World))
                          | some fs1 => unpackNode eif n e.childId curPath
                              ⟨fs1, w.log ++ [Event.createDirectory sid curPath]⟩) := by
                    cases hloc : locate curPath with
                    | none => exact ⟨by simp, [_], rfl, by simp⟩
                    | some loc =>
                      simp only []
                      cases hcd : w.fs.createDirectory loc with
                      | none => exact ⟨by simp, [_], rfl, by simp⟩
                      | some fs1 =>
                        exact tracks_prepend (Event.createDirectory sid curPath) _ _ w fs1 _
                          (ih _ c curPath _ hc)
                  have := tracks_andThen _ _ _ _ w _
                      (fun _ w1 => andThen (unpackNode eif n e.leftSiblingId outDir w1) fun _ w2 =>
                        unpackNode eif n e.rightSiblingId outDir w2) hown hsib
                  simpa [DirTree.sids, List.filter_cons, hst, hnst, List.filter_append,
                    List.append_assoc] using this
                · have hnst : isStorageAt eif.dirs sid = false := by
                    simp [isStorageAt, hd, hk]
                  simp only [hk, if_false, Option.some.injEq] at hc ⊢
                  subst hc
                  by_cases hs : e.objType = ObjType.Stream
                  · have hst : isStreamAt eif.dirs sid = true := by
                      simp [isStreamAt, hd, hs]
                    simp only [hs, if_true]
                    have hown : Tracks [] [sid] w
                        (match locate curPath with
                          | none => (Res.undefined,
                              (⟨w.fs, w.log ++ [Event.unpackFile sid curPath]⟩ : World))
                          | some loc =>
                            ((unpackFile eif e loc w.fs).1,
                              (⟨(unpackFile eif e loc w.fs).2,
                                w.log ++ [Event.unpackFile sid curPath]⟩ : World))) := by
                      cases hloc : locate curPath with
                      | none => exact ⟨by simp, [_], rfl, by simp⟩
                      | some loc =>
                        exact ⟨unpackFile_ne_diverge eif e loc w.fs, [_], rfl,
                          fun _ => ⟨rfl, rfl⟩⟩
                    have := tracks_andThen _ _ _ _ w _
                      (fun _ w1 => andThen (unpackNode eif n e.leftSiblingId outDir w1) fun _ w2 =>
                        unpackNode eif n e.rightSiblingId outDir w2) hown hsib
                    simpa [DirTree.sids, List.filter_cons, hst, hnst, List.filter_append]
                      using this
                  · have hst : isStreamAt eif.dirs sid = false := by
                      simp [isStreamAt, hd, hs]
                    simp only [hs, if_false]
                    have hown : Tracks [] [] w
                        (if curPath.all wellFormed16 = true then (Res.ok (), w)
                          else (Res.undefined, w)) := by
                      split
                      · exact tracks_ok w
                      · exact ⟨by simp, [], by simp, by simp⟩
                    have := tracks_andThen _ _ _ _ w _
                      (fun _ w1 => andThen (unpackNode eif n e.leftSiblingId outDir w1) fun _ w2 =>
                        unpackNode eif n e.rightSiblingId outDir w2) hown hsib
                    simpa [DirTree.sids, List.filter_cons, hst, hnst, List.filter_append]
                      using this

theorem unfoldTree_succ (dirs : List DirEntry) (n : Nat) :
    ∀ (sid : Nat) (t : DirTree), unfoldTree dirs n sid = some t →
      unfoldTree dirs (n + 1) sid = some t := by
  induction n with
  | zero =>
    intro sid t h
    simp [unfoldTree] at h
  | succ n ih =>
    intro sid t h
    rw [unfoldTree] at h ⊢
    by_cases hsid : sid = StreamID.NoStream
    · simpa [hsid] using h
    · simp only [hsid, if_false] at h ⊢
      cases hd : dirs[sid]? with
      | none => simp [hd] at h
      | some e =>
        simp only [hd] at h ⊢
        cases hc : (if e.objType = ObjType.RootStorage ∨ e.objType = ObjType.Storage then
                 unfoldTree dirs n e.childId else some .leaf) with
        | none => simp [hc] at h
        | some c =>
          cases hl : unfoldTree dirs n e.leftSiblingId with
          | none => simp [hc, hl] at h
          | some l =>
            cases hr : unfoldTree dirs n e.rightSiblingId with
            | none => simp [hc, hl, hr] at h
            | some r =>
              simp only [hc, hl, hr] at h
              have hc' : (if e.objType = ObjType.RootStorage ∨ e.objType = ObjType.Storage then
                  unfoldTree dirs (n + 1) e.childId else some .leaf) = some c := by
                split
                · rename_i hk
                  simp only [hk, if_true] at hc
                  exact ih _ _ hc
                · rename_i hk
                  simpa [hk] using hc
              rw [hc', ih _ _ hl, ih _ _ hr]
              exact h

theorem unfoldTree_mono (dirs : List DirEntry) (n fuel sid : Nat) (t : DirTree)
    (hle : n ≤ fuel) (h : unfoldTree dirs n sid = some t) :
    unfoldTree dirs fuel sid = some t := by
  induction hle with
  | refl => exact h
  | step _ ih => exact unfoldTree_succ dirs _ sid t ih

theorem log_length (log : List Event) :
    log.length = (createdSids log).length + (extractedSids log).length := by
  induction log with
  | nil => rfl
  | cons ev rest ih =>
    cases ev <;> simp [createdSids, extractedSids] at ih ⊢ <;> omega

/-! ## The paths of the walker -/

theorem logExt_ok (P : Event → Prop) (w : World) : LogExt P w (.ok (), w) :=
  ⟨[], by simp, by simp⟩

theorem logExt_mono (P Q : Event → Prop) (w : World) (res : Res Unit × World)
    (hPQ : ∀ ev, P ev → Q ev) (h : LogExt P w res) : LogExt Q w res := by
  obtain ⟨new, hlog, hall⟩ := h
  exact ⟨new, hlog, fun ev hev => hPQ ev (hall ev hev)⟩

theorem logExt_andThen (P : Event → Prop) (w : World) (r : Res Unit × World)
    (k : Unit → World → Res Unit × World)
    (h1 : LogExt P w r) (h2 : ∀ w1, LogExt P w1 (k () w1)) :
    LogExt P w (andThen r k) := by
  obtain ⟨new1, hlog1, hall1⟩ := h1
  rcases r with ⟨res, w1⟩
  cases res with
  | ok u =>
    obtain ⟨new2, hlog2, hall2⟩ := h2 w1
    refine ⟨new1 ++ new2, ?_, ?_⟩
    · simp only [andThen]
      rw [hlog2, hlog1, List.append_assoc]
    · intro ev hev
      rcases List.mem_append.mp hev with h | h
      · exact hall1 ev h
      · exact hall2 ev h
  | error e => exact ⟨new1, by simpa [andThen] using hlog1, hall1⟩
  | diverge => exact ⟨new1, by simpa [andThen] using hlog1, hall1⟩
  | undefined => exact ⟨new1, by simpa [andThen] using hlog1, hall1⟩

theorem logExt_prepend (P : Event → Prop) (ev : Event) (w : World) (fs1 : FS)
    (res : Res Unit × World) (hev : P ev) (h : LogExt P ⟨fs1, w.log ++ [ev]⟩ res) :
    LogExt P w res := by
  obtain ⟨new, hlog, hall⟩ := h
  refine ⟨ev :: new, by simpa using hlog, ?_⟩
  intro e he
  rcases List.mem_cons.mp he with h | h
  · exact h ▸ hev
  · exact hall e h

theorem unpackNode_paths (eif : EifFile) (base : Path) (fuel : Nat) :
    ∀ (sid : Nat) (t : DirTree) (outDir : Path) (w : World) (encl : List Nat),
      unfoldTree eif.dirs fuel sid = some t →
      outDir = base ++ encl.flatMap (kindSegment eif.dirs) →
      LogExt (fun ev => ∃ e, (ev.sid, e) ∈ t.located encl ∧
          ev.path = base ++ (e ++ [ev.sid]).flatMap (kindSegment eif.dirs)) w
        (unpackNode eif fuel sid outDir w) := by
  induction fuel with
  | zero =>
    intro sid t outDir w encl h
    simp [unfoldTree] at h
  | succ n ih =>
    intro sid t outDir w encl h hout
    simp only [unfoldTree] at h
    by_cases hsid : sid = StreamID.NoStream
    · simp only [unpackNode, hsid, if_true]
      exact logExt_ok _ w
    · simp only [hsid, if_false] at h
      cases hd : eif.dirs[sid]? with
      | none => simp [hd] at h
      | some e =>
        simp only [hd] at h
        cases hc : (if e.objType = ObjType.RootStorage ∨ e.objType = ObjType.Storage then
                 unfoldTree eif.dirs n e.childId else some .leaf) with
        | none => simp [hc] at h
        | some c =>
          cases hl : unfoldTree eif.dirs n e.leftSiblingId with
          | none => simp [hc, hl] at h
          | some l =>
            cases hr : unfoldTree eif.dirs n e.rightSiblingId with
            | none => simp [hc, hl, hr] at h
            | some r =>
              simp only [hc, hl, hr, Option.some.injEq] at h
              subst h
              simp only [unpackNode, hsid, if_false, hd]
              cases hp : (if e.objType = ObjType.RootStorage then some outDir
                  else (cstr e.name).map fun seg => outDir ++ [seg]) with
              | none => exact ⟨[], by simp, by simp⟩
              | some curPath =>
                simp only []
                have hcur : curPath =
                    base ++ (encl ++ [sid]).flatMap (kindSegment eif.dirs) := by
                  have hks : outDir ++ kindSegment eif.dirs sid = curPath := by
                    simp only [kindSegment, hd]
                    by_cases hroot : e.objType = ObjType.RootStorage
                    · simp only [hroot, if_true, Option.some.injEq] at hp ⊢
                      simpa using hp
                    · simp only [hroot, if_false] at hp ⊢
                      cases hn : cstr e.name with
                      | none => simp [hn] at hp
                      | some seg => simpa [hn] using hp
                  rw [← hks, hout]
                  simp [List.flatMap_append]
                have hsib : ∀ w1 : World,
                    LogExt (fun ev => ∃ e', (ev.sid, e') ∈
                        (DirTree.node sid c l r).located encl ∧
                        ev.path = base ++ (e' ++ [ev.sid]).flatMap (kindSegment eif.dirs)) w1
                      (andThen (unpackNode eif n e.leftSiblingId outDir w1) fun _ w2 =>
                        unpackNode eif n e.rightSiblingId outDir w2) := by
                  intro w1
                  refine logExt_andThen _ w1 _
                    (fun _ w2 => unpackNode eif n e.rightSiblingId outDir w2) ?_ ?_
                  · refine logExt_mono _ _ _ _ ?_ (ih _ l outDir w1 encl hl hout)
                    rintro ev ⟨e', hmem, hpath⟩
                    exact ⟨e', by simp [DirTree.located, hmem], hpath⟩
                  · intro w2
                    refine logExt_mono _ _ _ _ ?_ (ih _ r outDir w2 encl hr hout)
                    rintro ev ⟨e', hmem, hpath⟩
                    exact ⟨e', by simp [DirTree.located, hmem], hpath⟩
                refine logExt_andThen _ w _
                  (fun _ w1 => andThen (unpackNode eif n e.leftSiblingId outDir w1) fun _ w2 =>
                        unpackNode eif n e.rightSiblingId outDir w2) ?_ hsib
                by_cases hk : e.objType = ObjType.RootStorage ∨ e.objType = ObjType.Storage
                · simp only [hk, if_true] at hc ⊢
                  have hown : ∃ e', ((Event.createDirectory sid curPath).sid, e') ∈
                      (DirTree.node sid c l r).located encl ∧
                      (Event.createDirectory sid curPath).path =
                        base ++ (e' ++ [(Event.createDirectory sid curPath).sid]).flatMap
                          (kindSegment eif.dirs) :=
                    ⟨encl, by simp [DirTree.located, Event.sid], by simpa [Event.path, Event.sid] using hcur⟩
                  cases hloc : locate curPath with
                  | none => exact ⟨[_], rfl, by simpa using hown⟩
                  | some loc =>
                    simp only []
                    cases hcd : w.fs.createDirectory loc with
                    | none => exact ⟨[_], rfl, by simpa using hown⟩
                    | some fs1 =>
                      refine logExt_prepend _ _ w fs1 _ hown ?_
                      refine logExt_mono _ _ _ _ ?_
                        (ih _ c curPath ⟨fs1, w.log ++ [Event.createDirectory sid curPath]⟩
                          (encl ++ [sid]) hc hcur)
                      rintro ev ⟨e', hmem, hpath⟩
                      exact ⟨e', by simp [DirTree.located, hmem], hpath⟩
                · simp only [hk, if_false]
                  by_cases hs : e.objType = ObjType.Stream
                  · simp only [hs, if_true]
                    have hown : ∀ ev ∈ [Event.unpackFile sid curPath],
                        ∃ e', (ev.sid, e') ∈ (DirTree.node sid c l r).located encl ∧
                          ev.path = base ++ (e' ++ [ev.sid]).flatMap (kindSegment eif.dirs) := by
                      intro ev hev
                      simp only [List.mem_singleton] at hev
                      subst hev
                      exact ⟨encl, by simp [DirTree.located, Event.sid],
                        by simpa [Event.path, Event.sid] using hcur⟩
                    cases hloc : locate curPath with
                    | none => exact ⟨[_], rfl, hown⟩
                    | some loc => exact ⟨[_], rfl, hown⟩
                  · simp only [hs, if_false]
                    split
                    · exact logExt_ok _ w
                    · exact ⟨[], by simp, by simp⟩

theorem located_mem (t : DirTree) :
    ∀ (encl : List Nat) (sid : Nat) (e : List Nat), (sid, e) ∈ t.located encl →
      sid ∈ t.sids ∧ ∀ x ∈ e, x ∈ encl ∨ x ∈ t.sids := by
  induction t with
  | leaf =>
    intro encl sid e h
    simp [DirTree.located] at h
  | node s c l r ihc ihl ihr =>
    intro encl sid e h
    simp only [DirTree.located, List.mem_cons, List.mem_append, Prod.mk.injEq] at h
    simp only [DirTree.sids, List.mem_cons, List.mem_append]
    rcases h with ⟨h1, h2⟩ | (h | h) | h
    · subst h1 h2
      exact ⟨Or.inl rfl, fun x hx => Or.inl hx⟩
    · obtain ⟨hs, he⟩ := ihc _ _ _ h
      refine ⟨Or.inr (Or.inl (Or.inl hs)), fun x hx => ?_⟩
      rcases he x hx with h' | h'
      · rcases List.mem_append.mp h' with h'' | h''
        · exact Or.inl h''
        · simp only [List.mem_singleton] at h''
          exact Or.inr (Or.inl h'')
      · exact Or.inr (Or.inr (Or.inl (Or.inl h')))
    · obtain ⟨hs, he⟩ := ihl _ _ _ h
      refine ⟨Or.inr (Or.inl (Or.inr hs)), fun x hx => ?_⟩
      rcases he x hx with h' | h'
      · exact Or.inl h'
      · exact Or.inr (Or.inr (Or.inl (Or.inr h')))
    · obtain ⟨hs, he⟩ := ihr _ _ _ h
      refine ⟨Or.inr (Or.inr hs), fun x hx => ?_⟩
      rcases he x hx with h' | h'
      · exact Or.inl h'
      · exact Or.inr (Or.inr (Or.inr h'))

theorem kindSegment_eq_nameSegment (dirs : List DirEntry) (t : DirTree)
    (hroot : rootOnlyAtZero dirs t = true) (sid : Nat) (hmem : sid ∈ t.sids) :
    kindSegment dirs sid = nameSegment dirs sid := by
  have h := List.all_eq_true.mp hroot sid hmem
  unfold kindSegment nameSegment
  cases hd : dirs[sid]? with
  | none => simp
  | some e =>
    simp only [hd, decide_eq_true_eq] at h ⊢
    by_cases h0 : sid = 0
    · simp [h0, h.mpr h0]
    · have : ¬ e.objType = ObjType.RootStorage := fun hk => h0 (h.mp hk)
      simp [h0, this]

/-! ## Running the extraction again -/

theorem kindOf_eq_one (x : Option FsNode) : kindOf x = 1 ↔ x = some .dir := by
  cases x with
  | none => simp [kindOf]
  | some n => cases n <;> simp [kindOf]

theorem kindOf_eq_two (x : Option FsNode) : kindOf x = 2 ↔ ∃ c, x = some (.file c) := by
  cases x with
  | none => simp [kindOf]
  | some n => cases n <;> simp [kindOf]

theorem kindMono_refl (S : FS) : KindMono S S := fun _ _ => rfl

theorem kindMono_trans (S1 S2 S3 : FS) (h12 : KindMono S1 S2) (h23 : KindMono S2 S3) :
    KindMono S1 S3 := by
  intro p hp
  have h1 := h12 p hp
  have h2 := h23 p (by rw [h1]; exact hp)
  rw [h2, h1]

theorem createDirectory_of_dir (T : FS) (p : Path) (h : T p = some .dir) :
    T.createDirectory p = some T := by
  simp [FS.createDirectory, h]

theorem createDirectory_spec (fs fs1 : FS) (p : Path) (h : fs.createDirectory p = some fs1) :
    fs1 p = some .dir ∧ (∀ q, q ≠ p → fs1 q = fs q) ∧ KindMono fs fs1 := by
  unfold FS.createDirectory at h
  cases hp : fs p with
  | none =>
    simp only [hp] at h
    cases hpp : fs p.dropLast with
    | none => simp [hpp] at h
    | some n =>
      cases n with
      | file c => simp [hpp] at h
      | dir =>
        simp only [hpp, Option.some.injEq] at h
        subst h
        refine ⟨by simp [FS.set], fun q hq => by simp [FS.set, hq], ?_⟩
        intro q hq
        by_cases hqp : q = p
        · subst hqp
          simp [hp, kindOf] at hq
        · simp [FS.set, hqp]
  | some n =>
    cases n with
    | file c => simp [hp] at h
    | dir =>
      simp only [hp, Option.some.injEq] at h
      subst h
      exact ⟨hp, fun _ _ => rfl, kindMono_refl _⟩

theorem openTrunc_spec (fs fs0 : FS) (p : Path) (h : fs.openTrunc p = some fs0) :
    fs0 = fs.set p (.file []) ∧ fs p ≠ some .dir ∧ fs p.dropLast = some .dir := by
  unfold FS.openTrunc at h
  have hnd : fs p ≠ some .dir := by
    intro hd
    simp [hd] at h
  have h2 : (match fs p.dropLast with
      | some .dir => some (fs.set p (.file []))
      | _ => none) = some fs0 := by
    cases hp : fs p with
    | none => simpa [hp] using h
    | some n =>
      cases n with
      | dir => exact absurd hp hnd
      | file c => simpa [hp] using h
  cases hpp : fs p.dropLast with
  | none => simp [hpp] at h2
  | some n =>
    cases n with
    | file c => simp [hpp] at h2
    | dir =>
      simp only [hpp, Option.some.injEq] at h2
      exact ⟨h2.symm, hnd, rfl⟩

theorem openTrunc_of (T : FS) (p : Path) (h1 : T p ≠ some .dir)
    (h2 : T p.dropLast = some .dir) : T.openTrunc p = some (T.set p (.file [])) := by
  unfold FS.openTrunc
  cases hp : T p with
  | none => simp [h2]
  | some n =>
    cases n with
    | dir => exact absurd hp h1
    | file c => simp [h2]

theorem unpackFile_ok (eif : EifFile) (e : DirEntry) (p : Path) (fs fs1 : FS)
    (h : unpackFile eif e p fs = (.ok (), fs1)) :
    (copyStream eif e).1 = .ok () ∧ fs p ≠ some .dir ∧ fs p.dropLast = some .dir ∧
      fs1 = (fs.set p (.file [])).set p (.file (copyStream eif e).2) := by
  unfold unpackFile at h
  cases hopen : fs.openTrunc p with
  | none => simp [hopen] at h
  | some fs0 =>
    simp only [hopen, Prod.mk.injEq] at h
    obtain ⟨h0, h1, h2⟩ := openTrunc_spec fs fs0 p hopen
    exact ⟨h.1, h1, h2, by rw [← h.2, h0]⟩

theorem unpackFile_of (eif : EifFile) (e : DirEntry) (p : Path) (T : FS)
    (hcopy : (copyStream eif e).1 = .ok ()) (h1 : T p ≠ some .dir)
    (h2 : T p.dropLast = some .dir) :
    unpackFile eif e p T =
      (.ok (), (T.set p (.file [])).set p (.file (copyStream eif e).2)) := by
  unfold unpackFile
  rw [openTrunc_of T p h1 h2]
  simp only [hcopy]

theorem unpackFile_mono (eif : EifFile) (e : DirEntry) (p : Path) (fs : FS) :
    KindMono fs (unpackFile eif e p fs).2 := by
  unfold unpackFile
  cases hopen : fs.openTrunc p with
  | none => exact kindMono_refl _
  | some fs0 =>
    obtain ⟨h0, h1, _⟩ := openTrunc_spec fs fs0 p hopen
    subst h0
    intro q hq
    by_cases hqp : q = p
    · subst hqp
      simp only [FS.set, if_true]
      cases hfq : fs q with
      | none => simp [hfq, kindOf] at hq
      | some n =>
        cases n with
        | dir => exact absurd hfq h1
        | file c => simp [kindOf]
    · simp [FS.set, hqp]

theorem kindMono_andThen (w : World) (r : Res Unit × World)
    (k : Unit → World → Res Unit × World) (h1 : KindMono w.fs r.2.fs)
    (h2 : ∀ w1, KindMono w1.fs (k () w1).2.fs) : KindMono w.fs (andThen r k).2.fs := by
  rcases r with ⟨res, w1⟩
  cases res with
  | ok u => exact kindMono_trans _ _ _ h1 (h2 w1)
  | error e => exact h1
  | diverge => exact h1
  | undefined => exact h1

theorem unpackNode_mono (eif : EifFile) (fuel : Nat) :
    ∀ (sid : Nat) (outDir : Path) (w : World),
      KindMono w.fs (unpackNode eif fuel sid outDir w).2.fs := by
  induction fuel with
  | zero =>
    intro sid outDir w
    exact kindMono_refl _
  | succ n ih =>
    intro sid outDir w
    simp only [unpackNode]
    split
    · exact kindMono_refl _
    · split
      · exact kindMono_refl _
      · rename_i e _
        split
        · exact kindMono_refl _
        · rename_i curPath _
          refine kindMono_andThen w _
            (fun _ w1 => andThen (unpackNode eif n e.leftSiblingId outDir w1) fun _ w2 =>
              unpackNode eif n e.rightSiblingId outDir w2) ?_ ?_
          · split
            · cases hloc : locate curPath with
              | none => exact kindMono_refl _
              | some loc =>
                simp only []
                cases hcd : w.fs.createDirectory loc with
                | none => exact kindMono_refl _
                | some fs1 =>
                  exact kindMono_trans _ _ _ (createDirectory_spec _ _ _ hcd).2.2
                    (ih e.childId curPath ⟨fs1, _⟩)
            · split
              · cases hloc : locate curPath with
                | none => exact kindMono_refl _
                | some loc => exact unpackFile_mono eif e loc w.fs
              · split
                · exact kindMono_refl _
                · exact kindMono_refl _
          · intro w1
            exact kindMono_andThen w1 _
              (fun _ w2 => unpackNode eif n e.rightSiblingId outDir w2) (ih _ _ w1)
              (fun w2 => ih _ _ w2)

theorem replays_after_create (S S1 T F : FS) (p : Path) (hrep : Replays S T F)
    (h1 : S1 p = some .dir) (h2 : ∀ q, q ≠ p → S1 q = S q) (hT : T p = some .dir) :
    Replays S1 T F := by
  refine ⟨fun q => ?_, hrep.2⟩
  by_cases hq : q = p
  · subst hq
    exact Or.inl (by rw [hT, h1])
  · rw [h2 q hq]
    exact hrep.1 q

theorem replays_after_write (S T F : FS) (p : Path) (c : List Nat) (hrep : Replays S T F)
    (hF : kindOf (F p) = 2) :
    Replays ((S.set p (.file [])).set p (.file c)) ((T.set p (.file [])).set p (.file c)) F := by
  refine ⟨fun q => ?_, fun q => ?_⟩
  · by_cases hq : q = p
    · simp [FS.set, hq]
    · simpa [FS.set, hq] using hrep.1 q
  · by_cases hq : q = p
    · subst hq
      rw [hF]
      simp [FS.set, kindOf]
    · simpa [FS.set, hq] using hrep.2 q

theorem unpackNode_replay (eif : EifFile) (fuel : Nat) :
    ∀ (sid : Nat) (outDir : Path) (w w1 : World) (T F : FS) (lg : List Event),
      unpackNode eif fuel sid outDir w = (.ok (), w1) → KindMono w1.fs F →
      Replays w.fs T F →
      ∃ v, unpackNode eif fuel sid outDir ⟨T, lg⟩ = (.ok (), v) ∧ Replays w1.fs v.fs F := by
  induction fuel with
  | zero =>
    intro sid outDir w w1 T F lg h
    simp [unpackNode] at h
  | succ n ih =>
    intro sid outDir w w1 T F lg h hmono hrep
    simp only [unpackNode] at h ⊢
    by_cases hsid : sid = StreamID.NoStream
    · simp only [hsid, if_true, Prod.mk.injEq, true_and] at h ⊢
      subst h
      exact ⟨_, rfl, hrep⟩
    · simp only [hsid, if_false] at h ⊢
      cases hd : eif.dirs[sid]? with
      | none => simp [hd] at h
      | some e =>
        simp only [hd] at h ⊢
        cases hp : (if e.objType = ObjType.RootStorage then some outDir
            else (cstr e.name).map fun seg => outDir ++ [seg]) with
        | none => simp [hp] at h
        | some curPath =>
          simp only [hp] at h ⊢
          have hsib : ∀ (wa va : World),
              (andThen (unpackNode eif n e.leftSiblingId outDir wa) fun _ w2 =>
                unpackNode eif n e.rightSiblingId outDir w2) = (.ok (), w1) →
              Replays wa.fs va.fs F →
              ∃ v, (andThen (unpackNode eif n e.leftSiblingId outDir va) fun _ w2 =>
                unpackNode eif n e.rightSiblingId outDir w2) = (.ok (), v) ∧
                Replays w1.fs v.fs F := by
            intro wa va hs hra
            obtain ⟨u2, wb, hleft, hright⟩ := andThen_ok _ _ _ _ hs
            have hmb : KindMono wb.fs w1.fs := by
              have := unpackNode_mono eif n e.rightSiblingId outDir wb
              rw [hright] at this
              exact this
            obtain ⟨vb, hvb, hrb⟩ := ih _ outDir wa wb va.fs F va.log hleft
              (kindMono_trans _ _ _ hmb hmono) hra
            obtain ⟨v, hv, hr⟩ := ih _ outDir wb w1 vb.fs F vb.log hright hmono hrb
            exact ⟨v, by simp only [hvb, andThen, hv], hr⟩
          obtain ⟨u, wa, hown, hrest⟩ := andThen_ok _ _ _ _ h
          have hmaF : KindMono wa.fs F := by
            have h1 := kindMono_andThen wa (unpackNode eif n e.leftSiblingId outDir wa)
              (fun _ w2 => unpackNode eif n e.rightSiblingId outDir w2)
              (unpackNode_mono eif n _ _ wa) (fun w2 => unpackNode_mono eif n _ _ w2)
            rw [hrest] at h1
            exact kindMono_trans _ _ _ h1 hmono
          by_cases hk : e.objType = ObjType.RootStorage ∨ e.objType = ObjType.Storage
          · simp only [hk, if_true] at hown ⊢
            cases hloc : locate curPath with
            | none => simp [hloc] at hown
            | some loc =>
            simp only [hloc] at hown ⊢
            cases hcd : w.fs.createDirectory loc with
            | none => simp [hcd] at hown
            | some fs1 =>
              simp only [hcd] at hown
              obtain ⟨hdir, hsame, hm1⟩ := createDirectory_spec _ _ _ hcd
              have hchild : KindMono fs1 wa.fs := by
                have := unpackNode_mono eif n e.childId curPath
                  ⟨fs1, w.log ++ [Event.createDirectory sid curPath]⟩
                rw [hown] at this
                exact this
              have hFdir : kindOf (F loc) = 1 := by
                have h1 := hchild loc (by simp [hdir, kindOf])
                have h2 := hmaF loc (by rw [h1]; simp [hdir, kindOf])
                rw [h2, h1, hdir]
                rfl
              have hTdir : T loc = some .dir := by
                rw [← kindOf_eq_one, hrep.2, hFdir]
              rw [createDirectory_of_dir T loc hTdir]
              obtain ⟨va, hva, hra⟩ := ih e.childId curPath _ wa T F
                (lg ++ [Event.createDirectory sid curPath]) hown hmaF
                (replays_after_create w.fs fs1 T F loc hrep hdir hsame hTdir)
              obtain ⟨v, hv, hr⟩ := hsib wa va hrest hra
              refine ⟨v, ?_, hr⟩
              simp only [hva, andThen]
              exact hv
          · simp only [hk, if_false] at hown ⊢
            by_cases hs : e.objType = ObjType.Stream
            · simp only [hs, if_true] at hown ⊢
              cases hloc : locate curPath with
              | none => simp [hloc] at hown
              | some loc =>
              simp only [hloc, Prod.mk.injEq] at hown ⊢
              obtain ⟨hres, hwa⟩ := hown
              obtain ⟨hcopy, hnd, hpar, hfs1⟩ :=
                unpackFile_ok eif e loc w.fs _ (Prod.ext hres rfl)
              have hwafs : wa.fs = (w.fs.set loc (.file [])).set loc
                  (.file (copyStream eif e).2) := by
                rw [← hwa]
                exact hfs1
              have hF2 : kindOf (F loc) = 2 := by
                have h1 : kindOf (wa.fs loc) = 2 := by
                  rw [hwafs]
                  simp [FS.set, kindOf]
                rw [hmaF loc (by rw [h1]; decide), h1]
              have hne : loc.dropLast ≠ loc := by
                intro heq
                rw [heq] at hpar
                exact hnd hpar
              have hF1 : kindOf (F loc.dropLast) = 1 := by
                have h1 : wa.fs loc.dropLast = some .dir := by
                  rw [hwafs]
                  simp [FS.set, hne, hpar]
                rw [hmaF _ (by rw [h1]; decide), h1]
                rfl
              have hT1 : T loc ≠ some .dir := by
                intro hT
                have := hrep.2 loc
                rw [hT, hF2] at this
                simp [kindOf] at this
              have hT2 : T loc.dropLast = some .dir := by
                rw [← kindOf_eq_one, hrep.2, hF1]
              have hra : Replays wa.fs ((T.set loc (.file [])).set loc
                  (.file (copyStream eif e).2)) F := by
                rw [hwafs]
                exact replays_after_write w.fs T F loc _ hrep hF2
              obtain ⟨v, hv, hr⟩ := hsib wa
                ⟨(T.set loc (.file [])).set loc (.file (copyStream eif e).2),
                  lg ++ [Event.unpackFile sid curPath]⟩ hrest hra
              refine ⟨v, ?_, hr⟩
              simp only [unpackFile_of eif e loc T hcopy hT1 hT2, andThen]
              exact hv
            · simp only [hs, if_false] at hown ⊢
              by_cases hwf : curPath.all wellFormed16 = true
              · simp only [hwf, if_true, Prod.mk.injEq, true_and] at hown ⊢
                subst hown
                obtain ⟨v, hv, hr⟩ := hsib w ⟨T, lg⟩ hrest hrep
                refine ⟨v, ?_, hr⟩
                simp only [andThen]
                exact hv
              · simp [hwf] at hown

/-- C10. When `unpack` returns normally from the filesystem `S` and leaves the
filesystem `S1`, running it again from `S1` also returns normally and leaves `S1`;
and creating a directory at a path that holds a directory succeeds without changing
the filesystem. -/
theorem unpack_again (eif : EifFile) (fuel : Nat) (outDir : Path) (w : World)
    (h : (unpack eif fuel outDir w).1 = .ok ()) :
    (∀ lg : List Event,
      (unpack eif fuel outDir ⟨(unpack eif fuel outDir w).2.fs, lg⟩).1 = .ok () ∧
      (unpack eif fuel outDir ⟨(unpack eif fuel outDir w).2.fs, lg⟩).2.fs =
        (unpack eif fuel outDir w).2.fs) ∧
    (∀ (fs : FS) (p : Path), fs p = some .dir → fs.createDirectory p = some fs) := by
  refine ⟨fun lg => ?_, createDirectory_of_dir⟩
  obtain ⟨v, hv, hrep⟩ := unpackNode_replay eif fuel 0 outDir w (unpack eif fuel outDir w).2
    (unpack eif fuel outDir w).2.fs (unpack eif fuel outDir w).2.fs lg (Prod.ext h rfl)
    (kindMono_refl _) ⟨fun _ => Or.inr rfl, fun _ => rfl⟩
  have hv' : unpack eif fuel outDir ⟨(unpack eif fuel outDir w).2.fs, lg⟩ = (.ok (), v) := hv
  rw [hv']
  refine ⟨rfl, ?_⟩
  funext p
  rcases hrep.1 p with h1 | h1 <;> exact h1

theorem unpack_again_witness :
    (unpack exampleEif 4 outPath
        ⟨(unpack exampleEif 4 outPath ⟨baseFS, []⟩).2.fs, []⟩).1 = .ok () ∧
    (unpack exampleEif 4 outPath
        ⟨(unpack exampleEif 4 outPath ⟨baseFS, []⟩).2.fs, []⟩).2.fs =
      (unpack exampleEif 4 outPath ⟨baseFS, []⟩).2.fs :=
  (unpack_again exampleEif 4 outPath ⟨baseFS, []⟩ (by decide!)).1 []

/-! ## What the walk leaves on the filesystem -/

theorem components_of_no_sep : ∀ (name : List Nat), 47 ∉ name → components name = [name]
  | [], _ => rfl
  | c :: rest, h => by
    have hc : c ≠ 47 := fun hc => h (hc ▸ List.mem_cons_self _ _)
    have hr : 47 ∉ rest := fun hr => h (List.mem_cons_of_mem _ hr)
    simp only [components, hc, if_false, components_of_no_sep rest hr]

theorem joinName_plain (dir : Path) (name : List Nat) (h : plainName name = true) :
    joinName dir name = some (dir ++ [name]) := by
  simp only [plainName, Bool.and_eq_true, decide_eq_true_eq] at h
  obtain ⟨hwf, hne, hsep, hdot, hdots⟩ := h
  have hhead : name.head? ≠ some 47 := by
    intro hh
    cases name with
    | nil => simp at hh
    | cons c rest =>
      simp only [List.head?_cons, Option.some.injEq] at hh
      exact hsep (hh ▸ List.mem_cons_self _ _)
  unfold joinName
  simp only [hhead, if_false, components_of_no_sep name hsep, hwf, List.mem_singleton,
    forall_eq, true_and]
  rw [if_pos ⟨hne, hdot, hdots⟩]

theorem locate_append (p : Path) (name : List Nat) :
    locate (p ++ [name]) = (locate p).bind fun d => joinName d name := by
  simp [locate, List.foldl_append]

theorem locate_plain (names : List (List Nat)) :
    ∀ (p : Path), locate p = some p → (∀ n ∈ names, plainName n = true) →
      locate (p ++ names) = some (p ++ names) := by
  induction names with
  | nil =>
    intro p hp _
    rw [List.append_nil]
    exact hp
  | cons n rest ih =>
    intro p hp hall
    have h1 : locate (p ++ [n]) = some (p ++ [n]) := by
      rw [locate_append, hp]
      exact joinName_plain p n (hall n (List.mem_cons_self _ _))
    have := ih (p ++ [n]) h1 (fun m hm => hall m (List.mem_cons_of_mem _ hm))
    rwa [List.append_assoc, List.singleton_append] at this

theorem acts_andThen (S : FS) (old : List Event) (r : Res Unit × World)
    (k : Unit → World → Res Unit × World) (h1 : Acts S old r.2)
    (h2 : ∀ w1, Acts S old w1 → Acts S old (k () w1).2) : Acts S old (andThen r k).2 := by
  rcases r with ⟨res, w1⟩
  cases res with
  | ok u => exact h2 w1 h1
  | error e => exact h1
  | diverge => exact h1
  | undefined => exact h1

theorem acts_log (S : FS) (old : List Event) (w : World) (ev : Event) (h : Acts S old w) :
    Acts S old ⟨w.fs, w.log ++ [ev]⟩ := by
  obtain ⟨new, hlog, hfs⟩ := h
  refine ⟨new ++ [ev], by simp [hlog], fun q hq => ?_⟩
  exact hfs q (fun e he => hq e (List.mem_append_left _ he))

theorem acts_step (S : FS) (old : List Event) (w : World) (ev : Event) (fs1 : FS)
    (loc : Path) (h : Acts S old w) (hloc : locate ev.path = some loc)
    (hsame : ∀ q, q ≠ loc → fs1 q = w.fs q) : Acts S old ⟨fs1, w.log ++ [ev]⟩ := by
  obtain ⟨new, hlog, hfs⟩ := h
  refine ⟨new ++ [ev], by simp [hlog], fun q hq => ?_⟩
  have hne : q ≠ loc := by
    intro heq
    exact hq ev (by simp) (heq ▸ hloc)
  show fs1 q = S q
  rw [hsame q hne]
  exact hfs q (fun e he => hq e (List.mem_append_left _ he))

theorem unpackFile_frame (eif : EifFile) (e : DirEntry) (p : Path) (fs : FS) :
    ∀ q, q ≠ p → (unpackFile eif e p fs).2 q = fs q := by
  intro q hq
  unfold unpackFile
  cases hopen : fs.openTrunc p with
  | none => rfl
  | some fs0 =>
    obtain ⟨h0, _, _⟩ := openTrunc_spec fs fs0 p hopen
    subst h0
    simp [FS.set, hq]

theorem unpackNode_acts (eif : EifFile) (S : FS) (old : List Event) (fuel : Nat) :
    ∀ (sid : Nat) (outDir : Path) (w : World),
      Acts S old w → Acts S old (unpackNode eif fuel sid outDir w).2 := by
  induction fuel with
  | zero =>
    intro sid outDir w h
    exact h
  | succ n ih =>
    intro sid outDir w h
    simp only [unpackNode]
    split
    · exact h
    · split
      · exact h
      · rename_i e _
        split
        · exact h
        · rename_i curPath _
          refine acts_andThen S old _
            (fun _ w1 => andThen (unpackNode eif n e.leftSiblingId outDir w1) fun _ w2 =>
              unpackNode eif n e.rightSiblingId outDir w2) ?_ ?_
          · split
            · cases hloc : locate curPath with
              | none => exact acts_log S old w _ h
              | some loc =>
                simp only []
                cases hcd : w.fs.createDirectory loc with
                | none => exact acts_log S old w _ h
                | some fs1 =>
                  exact ih e.childId curPath _
                    (acts_step S old w (Event.createDirectory sid curPath) fs1 loc h hloc
                      (createDirectory_spec _ _ _ hcd).2.1)
            · split
              · cases hloc : locate curPath with
                | none => exact acts_log S old w _ h
                | some loc =>
                  exact acts_step S old w (Event.unpackFile sid curPath) _ loc h hloc
                    (unpackFile_frame eif e loc w.fs)
              · split
                · exact h
                · exact h
          · intro w1 h1
            exact acts_andThen S old _
              (fun _ w2 => unpackNode eif n e.rightSiblingId outDir w2) (ih _ _ w1 h1)
              (fun w2 h2 => ih _ _ w2 h2)

theorem settled_step (old : List Event) (w : World) (ev : Event) (fs1 : FS) (loc : Path)
    (h : Settled old w) (hloc : locate ev.path = some loc)
    (hk : kindOf (fs1 loc) = ev.kind) (hm : KindMono w.fs fs1) :
    Settled old ⟨fs1, w.log ++ [ev]⟩ := by
  obtain ⟨new, hlog, hall⟩ := h
  refine ⟨new ++ [ev], by simp [hlog], fun e he => ?_⟩
  rcases List.mem_append.mp he with h1 | h1
  · obtain ⟨l, hl, hkl⟩ := hall e h1
    refine ⟨l, hl, ?_⟩
    show kindOf (fs1 l) = e.kind
    rw [hm l (by rw [hkl]; cases e <;> simp [Event.kind]), hkl]
  · simp only [List.mem_singleton] at h1
    subst h1
    exact ⟨loc, hloc, hk⟩

theorem unpackNode_settled (eif : EifFile) (old : List Event) (fuel : Nat) :
    ∀ (sid : Nat) (outDir : Path) (w w1 : World),
      unpackNode eif fuel sid outDir w = (.ok (), w1) → Settled old w → Settled old w1 := by
  induction fuel with
  | zero =>
    intro sid outDir w w1 h
    simp [unpackNode] at h
  | succ n ih =>
    intro sid outDir w w1 h hs
    simp only [unpackNode] at h
    by_cases hsid : sid = StreamID.NoStream
    · simp only [hsid, if_true, Prod.mk.injEq, true_and] at h
      subst h
      exact hs
    · simp only [hsid, if_false] at h
      cases hd : eif.dirs[sid]? with
      | none => simp [hd] at h
      | some e =>
        simp only [hd] at h
        cases hp : (if e.objType = ObjType.RootStorage then some outDir
            else (cstr e.name).map fun seg => outDir ++ [seg]) with
        | none => simp [hp] at h
        | some curPath =>
          simp only [hp] at h
          obtain ⟨u, wa, hown, hrest⟩ := andThen_ok _ _ _ _ h
          obtain ⟨u2, wb, hleft, hright⟩ := andThen_ok _ _ _ _ hrest
          have hsa : Settled old wa := by
            by_cases hk : e.objType = ObjType.RootStorage ∨ e.objType = ObjType.Storage
            · simp only [hk, if_true] at hown
              cases hloc : locate curPath with
              | none => simp [hloc] at hown
              | some loc =>
                simp only [hloc] at hown
                cases hcd : w.fs.createDirectory loc with
                | none => simp [hcd] at hown
                | some fs1 =>
                  simp only [hcd] at hown
                  obtain ⟨hdir, _, hm1⟩ := createDirectory_spec _ _ _ hcd
                  exact ih e.childId curPath _ wa hown
                    (settled_step old w (Event.createDirectory sid curPath) fs1 loc hs hloc
                      (by rw [hdir]; rfl) hm1)
            · simp only [hk, if_false] at hown
              by_cases hst : e.objType = ObjType.Stream
              · simp only [hst, if_true] at hown
                cases hloc : locate curPath with
                | none => simp [hloc] at hown
                | some loc =>
                  simp only [hloc, Prod.mk.injEq] at hown
                  obtain ⟨hres, hwa⟩ := hown
                  obtain ⟨_, _, _, hfs1⟩ := unpackFile_ok eif e loc w.fs _ (Prod.ext hres rfl)
                  rw [← hwa]
                  refine settled_step old w (Event.unpackFile sid curPath) _ loc hs hloc ?_
                    (unpackFile_mono eif e loc w.fs)
                  exact (congrArg (fun f : FS => kindOf (f loc)) hfs1).trans
                    (by simp [FS.set, kindOf, Event.kind])
              · simp only [hst, if_false] at hown
                by_cases hwf : curPath.all wellFormed16 = true
                · simp only [hwf, if_true, Prod.mk.injEq, true_and] at hown
                  rw [← hown]
                  exact hs
                · simp [hwf] at hown
          exact ih _ outDir wb w1 hright (ih _ outDir wa wb hleft hsa)

theorem group_subset_sids (t : DirTree) : ∀ x ∈ t.group, x ∈ t.sids := by
  induction t with
  | leaf => intro x hx; simp [DirTree.group] at hx
  | node s c l r _ ihl ihr =>
    intro x hx
    simp only [DirTree.group, List.mem_cons, List.mem_append] at hx
    simp only [DirTree.sids, List.mem_cons, List.mem_append]
    rcases hx with h | h | h
    · exact Or.inl h
    · exact Or.inr (Or.inl (Or.inr (ihl x h)))
    · exact Or.inr (Or.inr (ihr x h))

theorem paths_head (seg : Nat → List (List Nat)) (t : DirTree) :
    ∀ (base p : Path), (∀ x ∈ t.sids, ∃ n, seg x = [n]) → p ∈ t.paths seg base →
      ∃ g ∈ t.group, ∃ m rest, seg g = [m] ∧ p = base ++ m :: rest := by
  induction t with
  | leaf => intro base p _ hp; simp [DirTree.paths] at hp
  | node s c l r ihc ihl ihr =>
    intro base p hsing hp
    have hs : ∃ n, seg s = [n] := hsing s (by simp [DirTree.sids])
    obtain ⟨n, hn⟩ := hs
    simp only [DirTree.paths, List.mem_cons, List.mem_append] at hp
    rcases hp with h | (h | h) | h
    · exact ⟨s, by simp [DirTree.group], n, [], hn, by rw [h, hn]⟩
    · obtain ⟨g, _, m, rest, _, hp⟩ := ihc (base ++ seg s) p
        (fun x hx => hsing x (by simp [DirTree.sids, hx])) h
      exact ⟨s, by simp [DirTree.group], n, m :: rest, hn, by rw [hp, hn]; simp⟩
    · obtain ⟨g, hg, m, rest, hm, hp⟩ := ihl base p
        (fun x hx => hsing x (by simp [DirTree.sids, hx])) h
      exact ⟨g, by simp [DirTree.group, hg], m, rest, hm, hp⟩
    · obtain ⟨g, hg, m, rest, hm, hp⟩ := ihr base p
        (fun x hx => hsing x (by simp [DirTree.sids, hx])) h
      exact ⟨g, by simp [DirTree.group, hg], m, rest, hm, hp⟩

theorem append_cons_inj (base : Path) (a b : List Nat) (r1 r2 : Path)
    (h : base ++ a :: r1 = base ++ b :: r2) : a = b := by
  have := List.append_cancel_left h
  exact (List.cons.inj this).1

theorem paths_nodup (seg : Nat → List (List Nat)) (t : DirTree) :
    ∀ (base : Path), (∀ x ∈ t.sids, ∃ n, seg x = [n]) → t.siblingsDistinct seg = true →
      (t.group.map seg).Nodup → (t.paths seg base).Nodup := by
  induction t with
  | leaf => intro base _ _ _; simp [DirTree.paths]
  | node s c l r ihc ihl ihr =>
    intro base hsing hdist hg
    obtain ⟨n, hn⟩ := hsing s (by simp [DirTree.sids])
    have hsc : ∀ x ∈ c.sids, ∃ n, seg x = [n] :=
      fun x hx => hsing x (by simp [DirTree.sids, hx])
    have hsl : ∀ x ∈ l.sids, ∃ n, seg x = [n] :=
      fun x hx => hsing x (by simp [DirTree.sids, hx])
    have hsr : ∀ x ∈ r.sids, ∃ n, seg x = [n] :=
      fun x hx => hsing x (by simp [DirTree.sids, hx])
    simp only [DirTree.siblingsDistinct, Bool.and_eq_true, decide_eq_true_eq] at hdist
    obtain ⟨⟨⟨hcg, hcd⟩, hld⟩, hrd⟩ := hdist
    simp only [DirTree.group, List.map_cons, List.map_append, List.nodup_cons,
      List.mem_append, List.mem_map, not_or, not_exists, not_and] at hg
    obtain ⟨⟨hnl, hnr⟩, hlr⟩ := hg
    obtain ⟨hlg, hrg, hdis⟩ := List.nodup_append.mp hlr
    have hc := ihc (base ++ seg s) hsc hcd hcg
    have hl := ihl base hsl hld hlg
    have hr := ihr base hsr hrd hrg
    -- heads
    have headC : ∀ p ∈ c.paths seg (base ++ seg s), ∃ rest, p = base ++ n :: rest := by
      intro p hp
      obtain ⟨g, _, m, rest, _, hpe⟩ := paths_head seg c _ p hsc hp
      exact ⟨m :: rest, by rw [hpe, hn]; simp⟩
    have headL : ∀ p ∈ l.paths seg base, ∃ g ∈ l.group, ∃ m rest, seg g = [m] ∧
        p = base ++ m :: rest := fun p hp => paths_head seg l base p hsl hp
    have headR : ∀ p ∈ r.paths seg base, ∃ g ∈ r.group, ∃ m rest, seg g = [m] ∧
        p = base ++ m :: rest := fun p hp => paths_head seg r base p hsr hp
    have notL : ∀ p ∈ l.paths seg base, ∀ rest, p ≠ base ++ n :: rest := by
      intro p hp rest hpe
      obtain ⟨g, hgm, m, rest2, hm, hp2⟩ := headL p hp
      have : m = n := append_cons_inj base m n rest2 rest (hp2 ▸ hpe)
      exact hnl g hgm (by rw [hm, hn, this])
    have notR : ∀ p ∈ r.paths seg base, ∀ rest, p ≠ base ++ n :: rest := by
      intro p hp rest hpe
      obtain ⟨g, hgm, m, rest2, hm, hp2⟩ := headR p hp
      have : m = n := append_cons_inj base m n rest2 rest (hp2 ▸ hpe)
      exact hnr g hgm (by rw [hm, hn, this])
    simp only [DirTree.paths]
    rw [List.nodup_cons]
    constructor
    · simp only [List.mem_append, not_or]
      refine ⟨⟨?_, ?_⟩, ?_⟩
      · intro hmem
        obtain ⟨g, _, m, rest, _, hpe⟩ := paths_head seg c _ _ hsc hmem
        have := congrArg List.length hpe
        simp at this
      · intro hmem
        exact notL _ hmem [] (by rw [hn])
      · intro hmem
        exact notR _ hmem [] (by rw [hn])
    · rw [List.nodup_append]
      refine ⟨?_, hr, ?_⟩
      · rw [List.nodup_append]
        refine ⟨hc, hl, ?_⟩
        intro p hpc hpl
        obtain ⟨rest, hpe⟩ := headC p hpc
        exact notL p hpl rest hpe
      · intro p hp hpr
        rcases List.mem_append.mp hp with hpc | hpl
        · obtain ⟨rest, hpe⟩ := headC p hpc
          exact notR p hpr rest hpe
        · obtain ⟨g1, hg1, m1, rest1, hm1, hp1⟩ := headL p hpl
          obtain ⟨g2, hg2, m2, rest2, hm2, hp2⟩ := headR p hpr
          have : m1 = m2 := append_cons_inj base m1 m2 rest1 rest2 (hp1 ▸ hp2)
          exact hdis (List.mem_map.mpr ⟨g1, hg1, rfl⟩)
            (List.mem_map.mpr ⟨g2, hg2, by rw [hm2, hm1, this]⟩)

theorem located_paths (seg : Nat → List (List Nat)) (base0 : Path) (t : DirTree) :
    ∀ (encl : List Nat),
      (t.located encl).map (fun x => base0 ++ (x.2 ++ [x.1]).flatMap seg) =
        t.paths seg (base0 ++ encl.flatMap seg) := by
  induction t with
  | leaf => intro encl; rfl
  | node s c l r ihc ihl ihr =>
    intro encl
    rw [DirTree.located, DirTree.paths, List.map_cons, List.map_append, List.map_append,
      ihc, ihl, ihr]
    simp only [List.flatMap_append, List.flatMap_cons, List.flatMap_nil, List.append_nil,
      List.append_assoc]

theorem log_sids_perm (log : List Event) :
    (log.map Event.sid).Perm (createdSids log ++ extractedSids log) := by
  induction log with
  | nil => exact List.Perm.refl _
  | cons ev rest ih =>
    cases ev with
    | createDirectory sid p =>
      simp only [List.map_cons, Event.sid, createdSids, extractedSids, List.filterMap_cons,
        List.cons_append]
      exact List.Perm.cons _ ih
    | unpackFile sid p =>
      simp only [List.map_cons, Event.sid, createdSids, extractedSids, List.filterMap_cons]
      exact (List.Perm.cons _ ih).trans List.perm_middle.symm

theorem group_eq_nil (t : DirTree) (h : t.group = []) : t = .leaf := by
  cases t with
  | leaf => rfl
  | node s c l r => simp [DirTree.group] at h

theorem plainNames_segment (dirs : List DirEntry) (t : DirTree)
    (h : plainNames dirs t = true) (x : Nat) (hx : x ∈ t.sids) (h0 : x ≠ 0) :
    ∃ name, nameSegment dirs x = [name] ∧ plainName name = true := by
  have hx := List.all_eq_true.mp h x hx
  simp only [h0, decide_False, Bool.false_or] at hx
  split at hx
  · rename_i name heq
    exact ⟨name, heq, hx⟩
  · exact absurd hx (by simp)

theorem plainNames_flat (dirs : List DirEntry) (t : DirTree)
    (h : plainNames dirs t = true) (l : List Nat) (hl : ∀ x ∈ l, x ∈ t.sids) :
    ∀ name ∈ l.flatMap (nameSegment dirs), plainName name = true := by
  intro name hname
  obtain ⟨x, hx, hmem⟩ := List.mem_flatMap.mp hname
  by_cases h0 : x = 0
  · simp [nameSegment, h0] at hmem
  · obtain ⟨nm, hseg, hp⟩ := plainNames_segment dirs t h x (hl x hx) h0
    rw [hseg] at hmem
    rw [List.mem_singleton.mp hmem]
    exact hp

theorem created_length (log : List Event) :
    (log.filter fun ev => decide (ev.kind = 1)).length = (createdSids log).length := by
  induction log with
  | nil => rfl
  | cons ev rest ih =>
    cases ev <;> simp [createdSids, Event.kind, List.filter_cons] at ih ⊢ <;> exact ih

theorem extracted_length (log : List Event) :
    (log.filter fun ev => decide (ev.kind = 2)).length = (extractedSids log).length := by
  induction log with
  | nil => rfl
  | cons ev rest ih =>
    cases ev <;> simp [extractedSids, Event.kind, List.filter_cons] at ih ⊢ <;> exact ih

theorem kind_count (fs : FS) (k : Nat) (new : List Event)
    (h : ∀ ev ∈ new, kindOf (fs ev.path) = ev.kind) :
    ((new.map Event.path).filter fun q => decide (kindOf (fs q) = k)).length =
      (new.filter fun ev => decide (ev.kind = k)).length := by
  rw [List.filter_map, List.length_map]
  congr 1
  apply List.filter_congr
  intro ev hev
  simp only [Function.comp, h ev hev]

/-- The operations of a walk over a tree with plain names: each is started for an
entry of the tree, on the path made of `outDir` and the names along the tree, which
names the location with these components; nothing changes at any other location;
and after a normal return each of these locations holds what its operation leaves. -/
theorem unpack_output (eif : EifFile) (n : Nat) (t : DirTree)
    (hun : unfoldTree eif.dirs n 0 = some t) (hroot : rootOnlyAtZero eif.dirs t = true)
    (hplain : plainNames eif.dirs t = true)
    (outDir : Path) (hout : locate outDir = some outDir)
    (w : World) (fuel : Nat) (hfuel : n ≤ fuel) :
    ∃ new, (unpack eif fuel outDir w).2.log = w.log ++ new ∧
      (∀ ev ∈ new, ∃ encl, (ev.sid, encl) ∈ t.located [] ∧
        ev.path = outDir ++ (encl ++ [ev.sid]).flatMap (nameSegment eif.dirs) ∧
        locate ev.path = some ev.path) ∧
      (∀ q, q ∉ new.map Event.path → (unpack eif fuel outDir w).2.fs q = w.fs q) ∧
      ((unpack eif fuel outDir w).1 = .ok () →
        ∀ ev ∈ new, kindOf ((unpack eif fuel outDir w).2.fs ev.path) = ev.kind) := by
  obtain ⟨new, hlog, hall⟩ := unpackNode_paths eif outDir fuel 0 t outDir w []
    (unfoldTree_mono _ _ _ _ _ hfuel hun) (by simp)
  have hpaths : ∀ ev ∈ new, ∃ encl, (ev.sid, encl) ∈ t.located [] ∧
      ev.path = outDir ++ (encl ++ [ev.sid]).flatMap (nameSegment eif.dirs) ∧
      locate ev.path = some ev.path := by
    intro ev hev
    obtain ⟨encl, hmem, hpath⟩ := hall ev hev
    obtain ⟨hs, he⟩ := located_mem t [] _ _ hmem
    have hsub : ∀ x ∈ encl ++ [ev.sid], x ∈ t.sids := by
      intro x hx
      rcases List.mem_append.mp hx with h | h
      · rcases he x h with h' | h'
        · simp at h'
        · exact h'
      · simp only [List.mem_singleton] at h
        exact h ▸ hs
    have hp : ev.path = outDir ++ (encl ++ [ev.sid]).flatMap (nameSegment eif.dirs) := by
      rw [hpath]
      congr 1
      apply flatMap_congr_mem
      intro x hx
      exact kindSegment_eq_nameSegment _ t hroot x (hsub x hx)
    refine ⟨encl, hmem, hp, ?_⟩
    rw [hp]
    exact locate_plain _ outDir hout (plainNames_flat eif.dirs t hplain _ hsub)
  have hloc : ∀ ev ∈ new, locate ev.path = some ev.path := fun ev hev => by
    obtain ⟨_, _, _, h⟩ := hpaths ev hev
    exact h
  refine ⟨new, hlog, hpaths, ?_, ?_⟩
  · intro q hq
    obtain ⟨new1, hlog1, hframe⟩ := unpackNode_acts eif w.fs w.log fuel 0 outDir w
      ⟨[], by simp, fun q _ => rfl⟩
    have hnew : new1 = new := List.append_cancel_left (hlog1.symm.trans hlog)
    subst hnew
    apply hframe q
    intro ev hev hl
    rw [hloc ev hev] at hl
    exact hq (List.mem_map.mpr ⟨ev, hev, Option.some.inj hl⟩)
  · intro hok ev hev
    have hrun : unpackNode eif fuel 0 outDir w = (.ok (), (unpack eif fuel outDir w).2) := by
      have : (unpackNode eif fuel 0 outDir w).1 = .ok () := hok
      rw [← this]
      rfl
    obtain ⟨new1, hlog1, hset⟩ := unpackNode_settled eif w.log fuel 0 outDir w _ hrun
      ⟨[], by simp, by simp⟩
    have hnew : new1 = new := List.append_cancel_left (hlog1.symm.trans hlog)
    subst hnew
    obtain ⟨loc, hl, hk⟩ := hset ev hev
    rw [hloc ev hev] at hl
    rw [Option.some.inj hl]
    exact hk

theorem located_fst (t : DirTree) : ∀ encl, (t.located encl).map Prod.fst = t.sids := by
  induction t with
  | leaf => intro encl; rfl
  | node s c l r ihc ihl ihr =>
    intro encl
    simp only [DirTree.located, DirTree.sids, List.map_cons, List.map_append, ihc, ihl, ihr]

/-- In a tree whose top is the root alone, with plain and pairwise distinct names
among the children of every storage, the paths of the entries are pairwise
distinct. -/
theorem tree_paths_nodup (dirs : List DirEntry) (t : DirTree) (outDir : Path)
    (hnd : t.sids.Nodup) (halone : t.group = [0]) (hplain : plainNames dirs t = true)
    (hdist : t.siblingsDistinct (nameSegment dirs) = true) :
    ((t.located []).map fun x => outDir ++ (x.2 ++ [x.1]).flatMap (nameSegment dirs)).Nodup := by
  rw [located_paths]
  cases t with
  | leaf => simp [DirTree.paths]
  | node s c l r =>
    simp only [DirTree.group, List.cons.injEq, List.append_eq_nil] at halone
    obtain ⟨hs, hl, hr⟩ := halone
    have hl := group_eq_nil l hl
    have hr := group_eq_nil r hr
    subst hs hl hr
    simp only [DirTree.sids, List.append_nil, List.nodup_cons] at hnd
    have hsing : ∀ x ∈ c.sids, ∃ n, nameSegment dirs x = [n] := by
      intro x hx
      have h0 : x ≠ 0 := fun h => hnd.1 (h ▸ hx)
      obtain ⟨nm, hseg, _⟩ := plainNames_segment dirs _ hplain x
        (by simp [DirTree.sids, hx]) h0
      exact ⟨nm, hseg⟩
    simp only [DirTree.siblingsDistinct, Bool.and_eq_true, decide_eq_true_eq] at hdist
    have h0 : nameSegment dirs 0 = [] := by simp [nameSegment]
    simp only [DirTree.paths, List.flatMap_nil, List.append_nil, h0, List.nodup_cons]
    constructor
    · intro hmem
      obtain ⟨g, _, m, rest, _, hpe⟩ := paths_head _ c _ _ hsing hmem
      have := congrArg List.length hpe
      simp at this
    · exact paths_nodup _ c outDir hsing hdist.1.1.2 hdist.1.1.1

theorem storage_not_stream (dirs : List DirEntry) (x : Nat)
    (h1 : isStorageAt dirs x = true) (h2 : isStreamAt dirs x = true) : False := by
  unfold isStorageAt at h1
  unfold isStreamAt at h2
  cases hd : dirs[x]? with
  | none => simp [hd] at h1
  | some e =>
    simp only [hd, decide_eq_true_eq] at h1 h2
    rcases h1 with h | h <;> rw [h2] at h <;> exact absurd h (by decide)

theorem unpack_acts (eif : EifFile) (fuel : Nat) (outDir : Path) (w : World) :
    Acts w.fs w.log (unpack eif fuel outDir w).2 :=
  unpackNode_acts eif w.fs w.log fuel 0 outDir w ⟨[], by simp, fun _ _ => rfl⟩

theorem acts_frame (S : FS) (w : World) (new : List Event) (h : Acts S [] w)
    (hlog : w.log = new) :
    ∀ q, (∀ ev ∈ new, locate ev.path ≠ some q) → w.fs q = S q := by
  obtain ⟨new1, hnew, hframe⟩ := h
  have : new1 = new := by rw [← hlog, hnew, List.nil_append]
  subst this
  exact hframe

/-! ## Each entry once, at its own location -/

/-- C2, counterexample. In this directory array the root holds two streams, entries 1
and 2, whose names cut to `nameLen` are `a` and `ab`: the tree is well formed and
the sibling names are distinct. Both name buffers hold the string `ab`, which is the
name the walker uses. From a filesystem holding only the base directory every
extraction succeeds and `unpack` returns normally, having started one directory
creation and two file extractions, both extractions on `out/ab`: the filesystem
holds one directory and one file more than before, not two files, and the 10 bytes of
entry 1 are gone. -/
theorem twin_names_one_file :
    unfoldTree twinEif.dirs 4 0 = some twinTree ∧ twinTree.sids.Nodup ∧
    twinTree.siblingsDistinct (specSegment twinEif.dirs) = true ∧
    twinTree.sids.map (specSegment twinEif.dirs) = [[], [[97]], [[97, 98]]] ∧
    twinTree.sids.filter (isStorageAt twinEif.dirs) = [0] ∧
    twinTree.sids.filter (isStreamAt twinEif.dirs) = [1, 2] ∧
    (twinEif.dirs.map fun e => (specName e, (copyStream twinEif e).1)).drop 1 =
      [([97], .ok ()), ([97, 98], .ok ())] ∧
    (unpack twinEif 4 outPath ⟨baseFS, []⟩).1 = .ok () ∧
    (unpack twinEif 4 outPath ⟨baseFS, []⟩).2.log =
      [.createDirectory 0 outPath, .unpackFile 1 (outPath ++ [[97, 98]]),
        .unpackFile 2 (outPath ++ [[97, 98]])] ∧
    (unpack twinEif 4 outPath ⟨baseFS, []⟩).2.fs outPath = some .dir ∧
    (unpack twinEif 4 outPath ⟨baseFS, []⟩).2.fs (outPath ++ [[97, 98]]) = some (.file []) ∧
    ∀ q, q ≠ outPath → q ≠ outPath ++ [[97, 98]] →
      (unpack twinEif 4 outPath ⟨baseFS, []⟩).2.fs q = baseFS q := by
  have hlog : (unpack twinEif 4 outPath ⟨baseFS, []⟩).2.log =
      [.createDirectory 0 outPath, .unpackFile 1 (outPath ++ [[97, 98]]),
        .unpackFile 2 (outPath ++ [[97, 98]])] := by decide!
  refine ⟨by decide!, by decide, by decide!, by decide!, by decide!, by decide!, by decide!,
    by decide!, hlog, by decide!, by decide!, fun q h1 h2 => ?_⟩
  refine acts_frame baseFS _ _ (unpack_acts twinEif 4 outPath ⟨baseFS, []⟩) hlog q ?_
  have l1 : locate outPath = some outPath := by decide
  have l2 : locate (outPath ++ [[97, 98]]) = some (outPath ++ [[97, 98]]) := by decide
  intro ev hev
  simp only [List.mem_cons, List.mem_singleton, List.not_mem_nil, or_false] at hev
  rcases hev with h | h | h <;> subst h <;> simp only [Event.path, l1, l2] <;>
    intro hq <;> first
      | exact h1 (Option.some.inj hq).symm
      | exact h2 (Option.some.inj hq).symm

/-- C2, amended. When the links reachable from entry 0 unfold into a finite tree `t`
with pairwise distinct indices (every link is `NoStream` or a valid index, every
reachable entry is reached by exactly one link path, children are reached through
storages only), the kind root storage marks entry 0 and only it, the root has no
siblings, every other entry has a name (the string held by its name buffer) that
is one plain component, these names are pairwise distinct among the children of
every storage, and `outDir` names a location: `unpack` terminates for every
recursion bound that admits the tree, only appends to the log of started
operations, and leaves every location at which it started no operation as it was.
When it returns normally (every stream extraction and every directory creation
succeeds), the directory creations it started are exactly one per reachable storage
or root storage and the file extractions exactly one per reachable stream, in visit
order; the operations are for pairwise distinct entries, on paths that name pairwise
distinct locations; each of these locations holds a directory after a creation and
a file after an extraction; so of these locations exactly `N` hold a directory and
exactly `M` hold a file, for `N` storages and `M` streams. -/
theorem unpack_visits_each_entry_once (eif : EifFile) (n : Nat) (t : DirTree)
    (hun : unfoldTree eif.dirs n 0 = some t) (hnd : t.sids.Nodup)
    (hroot : rootOnlyAtZero eif.dirs t = true) (halone : t.group = [0])
    (hplain : plainNames eif.dirs t = true)
    (hdist : t.siblingsDistinct (nameSegment eif.dirs) = true)
    (outDir : Path) (hout : locate outDir = some outDir)
    (w : World) (fuel : Nat) (hfuel : n ≤ fuel) :
    (unpack eif fuel outDir w).1 ≠ .diverge ∧
    ∃ new, (unpack eif fuel outDir w).2.log = w.log ++ new ∧
      (∀ q, q ∉ new.map Event.path → (unpack eif fuel outDir w).2.fs q = w.fs q) ∧
      ((unpack eif fuel outDir w).1 = .ok () →
        createdSids new = t.sids.filter (isStorageAt eif.dirs) ∧
        extractedSids new = t.sids.filter (isStreamAt eif.dirs) ∧
        (new.map Event.sid).Nodup ∧ (new.map Event.path).Nodup ∧
        (∀ ev ∈ new, locate ev.path = some ev.path ∧
          kindOf ((unpack eif fuel outDir w).2.fs ev.path) = ev.kind) ∧
        ((new.map Event.path).filter fun q =>
            decide (kindOf ((unpack eif fuel outDir w).2.fs q) = 1)).length =
          (t.sids.filter (isStorageAt eif.dirs)).length ∧
        ((new.map Event.path).filter fun q =>
            decide (kindOf ((unpack eif fuel outDir w).2.fs q) = 2)).length =
          (t.sids.filter (isStreamAt eif.dirs)).length) := by
  obtain ⟨hdiv, new, hlog, hcount⟩ :=
    unpackNode_tracks eif fuel 0 t outDir w (unfoldTree_mono _ _ _ _ _ hfuel hun)
  obtain ⟨new1, hlog1, hpaths, hframe, hkind⟩ :=
    unpack_output eif n t hun hroot hplain outDir hout w fuel hfuel
  have hnew : new1 = new := List.append_cancel_left (hlog1.symm.trans hlog)
  subst hnew
  refine ⟨hdiv, new1, hlog, hframe, fun hok => ?_⟩
  obtain ⟨ha, hb⟩ := hcount hok
  have hk := hkind hok
  have hsids : (new1.map Event.sid).Nodup := by
    refine (log_sids_perm new1).nodup_iff.mpr ?_
    rw [ha, hb]
    refine List.nodup_append.mpr ⟨hnd.filter _, hnd.filter _, ?_⟩
    intro x hx1 hx2
    exact storage_not_stream eif.dirs x (List.mem_filter.mp hx1).2 (List.mem_filter.mp hx2).2
  have hinj := List.inj_on_of_nodup_map
    (tree_paths_nodup eif.dirs t outDir hnd halone hplain hdist)
  refine ⟨ha, hb, hsids, ?_, fun ev hev => ⟨?_, hk ev hev⟩, ?_, ?_⟩
  · refine List.Nodup.map_on ?_ (List.Nodup.of_map _ hsids)
    intro e1 h1 e2 h2 heq
    obtain ⟨c1, hm1, hp1, _⟩ := hpaths e1 h1
    obtain ⟨c2, hm2, hp2, _⟩ := hpaths e2 h2
    have := hinj hm1 hm2 (by simp only []; rw [← hp1, ← hp2, heq])
    exact List.inj_on_of_nodup_map hsids h1 h2 (congrArg Prod.fst this)
  · obtain ⟨_, _, _, h⟩ := hpaths ev hev
    exact h
  · rw [kind_count _ 1 new1 hk, created_length, ha]
  · rw [kind_count _ 2 new1 hk, extracted_length, hb]

theorem unpack_visits_each_entry_once_witness :
    (unpack exampleEif 4 outPath ⟨baseFS, []⟩).1 = .ok () ∧
    (unpack exampleEif 4 outPath ⟨baseFS, []⟩).2.log =
      [.createDirectory 0 outPath, .createDirectory 1 (outPath ++ [nameDocs]),
       .unpackFile 2 (outPath ++ [nameDocs, nameATxt]),
       .unpackFile 3 (outPath ++ [nameBigBin])] ∧
    ((unpack exampleEif 4 outPath ⟨baseFS, []⟩).1 ≠ .diverge ∧
    ∃ new, (unpack exampleEif 4 outPath ⟨baseFS, []⟩).2.log = [] ++ new ∧
      (∀ q, q ∉ new.map Event.path →
        (unpack exampleEif 4 outPath ⟨baseFS, []⟩).2.fs q = baseFS q) ∧
      ((unpack exampleEif 4 outPath ⟨baseFS, []⟩).1 = .ok () →
        createdSids new = exampleTree.sids.filter (isStorageAt exampleEif.dirs) ∧
        extractedSids new = exampleTree.sids.filter (isStreamAt exampleEif.dirs) ∧
        (new.map Event.sid).Nodup ∧ (new.map Event.path).Nodup ∧
        (∀ ev ∈ new, locate ev.path = some ev.path ∧
          kindOf ((unpack exampleEif 4 outPath ⟨baseFS, []⟩).2.fs ev.path) = ev.kind) ∧
        ((new.map Event.path).filter fun q =>
            decide (kindOf ((unpack exampleEif 4 outPath ⟨baseFS, []⟩).2.fs q) = 1)).length =
          (exampleTree.sids.filter (isStorageAt exampleEif.dirs)).length ∧
        ((new.map Event.path).filter fun q =>
            decide (kindOf ((unpack exampleEif 4 outPath ⟨baseFS, []⟩).2.fs q) = 2)).length =
          (exampleTree.sids.filter (isStreamAt exampleEif.dirs)).length)) :=
  ⟨by decide!, by decide!,
   unpack_visits_each_entry_once exampleEif 4 exampleTree (by decide!) (by decide)
     (by decide!) (by decide) (by decide!) (by decide!) outPath (by decide) ⟨baseFS, []⟩ 4
     (le_refl 4)⟩

/-! ## The path of an entry -/

/-- C3, counterexample. Two directory arrays with a root and one empty stream. In the
first the name buffer holds `a.txtXYZ` and `nameLen` is 5: the name is `a.txt`, the
file is written to `out/a.txtXYZ`, and `out/a.txt` holds nothing. In the second the
name is `/x`, with the buffer and `nameLen` in agreement: the file is written to the
location `x` of the root directory, and `out` holds nothing. -/
theorem names_not_as_specified :
    (unpack longNameEif 3 outPath ⟨baseFS, []⟩).1 = .ok () ∧
    (unpack longNameEif 3 outPath ⟨baseFS, []⟩).2.log =
      [.createDirectory 0 outPath, .unpackFile 1 (outPath ++ [nameLong])] ∧
    outPath ++ ([0] ++ [1]).flatMap (specSegment longNameEif.dirs) =
      outPath ++ [[97, 46, 116, 120, 116]] ∧
    (unpack longNameEif 3 outPath ⟨baseFS, []⟩).2.fs (outPath ++ [[97, 46, 116, 120, 116]]) =
      none ∧
    (unpack longNameEif 3 outPath ⟨baseFS, []⟩).2.fs (outPath ++ [nameLong]) =
      some (.file []) ∧
    (unpack absNameEif 3 outPath ⟨baseFS, []⟩).1 = .ok () ∧
    (unpack absNameEif 3 outPath ⟨baseFS, []⟩).2.log =
      [.createDirectory 0 outPath, .unpackFile 1 (outPath ++ [[47, 120]])] ∧
    outPath ++ ([0] ++ [1]).flatMap (specSegment absNameEif.dirs) = outPath ++ [[47, 120]] ∧
    locate (outPath ++ [[47, 120]]) = some [[120]] ∧
    (unpack absNameEif 3 outPath ⟨baseFS, []⟩).2.fs [[120]] = some (.file []) ∧
    ∀ q, (unpack absNameEif 3 outPath ⟨baseFS, []⟩).2.fs (outPath ++ q) =
      if q = [] then some .dir else none := by
  have hlog : (unpack absNameEif 3 outPath ⟨baseFS, []⟩).2.log =
      [.createDirectory 0 outPath, .unpackFile 1 (outPath ++ [[47, 120]])] := by decide!
  refine ⟨by decide!, by decide!, by decide!, by decide!, by decide!, by decide!, hlog,
    by decide!, by decide, by decide!, fun q => ?_⟩
  by_cases hq : q = []
  · subst hq
    simp only [List.append_nil, if_true]
    decide!
  · simp only [hq, if_false]
    have hb : baseFS (outPath ++ q) = none := by
      simp [baseFS, outPath]
    rw [← hb]
    refine acts_frame baseFS _ _ (unpack_acts absNameEif 3 outPath ⟨baseFS, []⟩) hlog _ ?_
    have l1 : locate outPath = some outPath := by decide
    have l2 : locate (outPath ++ [[47, 120]]) = some [[120]] := by decide
    intro ev hev
    simp only [List.mem_cons, List.mem_singleton, List.not_mem_nil, or_false] at hev
    rcases hev with h | h <;> subst h <;> simp only [Event.path, l1, l2] <;> intro he
    · have := Option.some.inj he
      exact hq (by simpa using this)
    · have := Option.some.inj he
      simp [outPath] at this

/-- C3, amended. When the links reachable from entry 0 unfold into the tree `t`, the
kind root storage marks entry 0 and only it, every other entry has a name (the
string held by its name buffer, whatever `nameLen` says) that is one plain
component, and `outDir` names a location: every operation `unpack` starts is for an
entry of the tree, on the path made of `outDir`, the names of the storages that
enclose the entry (outermost first, the root contributing none) and the name of the
entry itself, and this path names the location with exactly these components. So
the root maps to `outDir`, and the left and right siblings of an entry have the
enclosing storages of that entry, not the entry itself, in their path. After a normal
return each of these locations holds a directory (for a storage) or a file (for a
stream). -/
theorem unpack_paths (eif : EifFile) (n : Nat) (t : DirTree)
    (hun : unfoldTree eif.dirs n 0 = some t) (hroot : rootOnlyAtZero eif.dirs t = true)
    (hplain : plainNames eif.dirs t = true)
    (outDir : Path) (hout : locate outDir = some outDir)
    (w : World) (fuel : Nat) (hfuel : n ≤ fuel) :
    ∃ new, (unpack eif fuel outDir w).2.log = w.log ++ new ∧
      (∀ ev ∈ new, ∃ encl, (ev.sid, encl) ∈ t.located [] ∧
        ev.path = outDir ++ (encl ++ [ev.sid]).flatMap (nameSegment eif.dirs) ∧
        locate ev.path = some ev.path) ∧
      ((unpack eif fuel outDir w).1 = .ok () →
        ∀ ev ∈ new, kindOf ((unpack eif fuel outDir w).2.fs ev.path) = ev.kind) := by
  obtain ⟨new, hlog, hpaths, _, hkind⟩ :=
    unpack_output eif n t hun hroot hplain outDir hout w fuel hfuel
  exact ⟨new, hlog, hpaths, hkind⟩

theorem unpack_paths_witness :
    (unpack exampleEif 4 outPath ⟨baseFS, []⟩).2.log =
      [.createDirectory 0 outPath, .createDirectory 1 (outPath ++ [nameDocs]),
       .unpackFile 2 (outPath ++ [nameDocs, nameATxt]),
       .unpackFile 3 (outPath ++ [nameBigBin])] ∧
    (unpack exampleEif 4 outPath ⟨baseFS, []⟩).2.fs (outPath ++ [nameDocs, nameATxt]) =
      some (.file helloWorld) ∧
    ∃ new, (unpack exampleEif 4 outPath ⟨baseFS, []⟩).2.log = [] ++ new ∧
      (∀ ev ∈ new, ∃ encl, (ev.sid, encl) ∈ exampleTree.located [] ∧
        ev.path = outPath ++ (encl ++ [ev.sid]).flatMap (nameSegment exampleEif.dirs) ∧
        locate ev.path = some ev.path) ∧
      ((unpack exampleEif 4 outPath ⟨baseFS, []⟩).1 = .ok () →
        ∀ ev ∈ new,
          kindOf ((unpack exampleEif 4 outPath ⟨baseFS, []⟩).2.fs ev.path) = ev.kind) :=
  ⟨by decide!, by decide!,
   unpack_paths exampleEif 4 exampleTree (by decide!) (by decide!) (by decide!) outPath
     (by decide) ⟨baseFS, []⟩ 4 (le_refl 4)⟩

/-! ## The name segment -/

theorem unpackNode_log_extends (eif : EifFile) (fuel : Nat) :
    ∀ (sid : Nat) (outDir : Path) (w : World),
      LogExt (fun _ => True) w (unpackNode eif fuel sid outDir w) := by
  induction fuel with
  | zero =>
    intro sid outDir w
    exact ⟨[], by simp [unpackNode], by simp⟩
  | succ n ih =>
    intro sid outDir w
    simp only [unpackNode]
    split
    · exact logExt_ok _ w
    · split
      · exact ⟨[], by simp, by simp⟩
      · rename_i e _
        split
        · exact ⟨[], by simp, by simp⟩
        · rename_i curPath _
          refine logExt_andThen _ w _
            (fun _ w1 => andThen (unpackNode eif n e.leftSiblingId outDir w1) fun _ w2 =>
              unpackNode eif n e.rightSiblingId outDir w2) ?_ ?_
          · split
            · cases hloc : locate curPath with
              | none => exact ⟨[_], rfl, by simp⟩
              | some loc =>
                simp only []
                cases hcd : w.fs.createDirectory loc with
                | none => exact ⟨[_], rfl, by simp⟩
                | some fs1 =>
                  exact logExt_prepend _ _ w fs1 _ trivial (ih e.childId curPath ⟨fs1, _⟩)
            · split
              · cases hloc : locate curPath with
                | none => exact ⟨[_], rfl, by simp⟩
                | some loc => exact ⟨[_], rfl, by simp⟩
              · split
                · exact logExt_ok _ w
                · exact ⟨[], by simp, by simp⟩
          · intro w1
            exact logExt_andThen _ w1 _
              (fun _ w2 => unpackNode eif n e.rightSiblingId outDir w2) (ih _ _ w1)
              (fun w2 => ih _ _ w2)

theorem andThen_log_after (w0 : World) (ev : Event) (r : Res Unit × World)
    (k : Unit → World → Res Unit × World)
    (h1 : ∃ rest, r.2.log = w0.log ++ ev :: rest)
    (h2 : ∀ w1, LogExt (fun _ => True) w1 (k () w1)) :
    ∃ rest, (andThen r k).2.log = w0.log ++ ev :: rest := by
  obtain ⟨rest, hr⟩ := h1
  rcases r with ⟨res, w1⟩
  cases res with
  | ok u =>
    obtain ⟨new, hnew, _⟩ := h2 w1
    refine ⟨rest ++ new, ?_⟩
    simp only [andThen]
    rw [hnew, hr]
    simp
  | error e => exact ⟨rest, by simpa [andThen] using hr⟩
  | diverge => exact ⟨rest, by simpa [andThen] using hr⟩
  | undefined => exact ⟨rest, by simpa [andThen] using hr⟩

theorem unpackFile_withNameLens (eif : EifFile) (f : DirEntry → Nat) (e : DirEntry)
    (p : Path) (fs : FS) :
    unpackFile (withNameLens eif f) { e with nameLen := f e } p fs = unpackFile eif e p fs := by
  have h : copyStream (withNameLens eif f) { e with nameLen := f e } = copyStream eif e := by
    have h1 := copyMini_congr eif (withNameLens eif f) rfl rfl
    have h2 := copyMain_congr eif (withNameLens eif f) rfl rfl
    simp only [copyStream, h1, h2]
    rfl
  simp only [unpackFile, h]

theorem unpackNode_withNameLens (eif : EifFile) (f : DirEntry → Nat) (fuel : Nat) :
    ∀ (sid : Nat) (outDir : Path) (w : World),
      unpackNode (withNameLens eif f) fuel sid outDir w = unpackNode eif fuel sid outDir w := by
  induction fuel with
  | zero =>
    intro sid outDir w
    simp [unpackNode]
  | succ n ih =>
    intro sid outDir w
    have hdirs : (withNameLens eif f).dirs[sid]? =
        (eif.dirs[sid]?).map fun d => { d with nameLen := f d } := by
      simp [withNameLens, List.getElem?_map]
    simp only [unpackNode, hdirs]
    cases hd : eif.dirs[sid]? with
    | none => simp
    | some e =>
      simp only [Option.map_some', ih, unpackFile_withNameLens]

/-- C11, counterexample. The stream of this decoder has the name buffer `a.txtXYZ`
and the name length 5: the walker appends `a.txtXYZ`, not the first 5 code units
`a.txt`. In the example of the specification the name length of `Docs` is 10 (the
byte count with the terminator, as CFBF writers store it): the walker appends `Docs`,
not the first 10 code units of the buffer. -/
theorem name_not_cut_to_nameLen :
    (unpack longNameEif 3 outPath ⟨baseFS, []⟩).2.log =
      [.createDirectory 0 outPath, .unpackFile 1 (outPath ++ [nameLong])] ∧
    (longNameEif.dirs.map specName).drop 1 = [[97, 46, 116, 120, 116]] ∧
    (unpack exampleEif 4 outPath ⟨baseFS, []⟩).2.log.take 2 =
      [.createDirectory 0 outPath, .createDirectory 1 (outPath ++ [nameDocs])] ∧
    ((exampleEif.dirs.map specName).drop 1).take 1 = [nameDocs ++ List.replicate 6 0] := by
  refine ⟨by decide!, by decide!, by decide!, by decide!⟩

/-- C11, amended. For a non-root entry the name segment the walker appends is the
string held by the 32-unit name buffer, that is the code units before its first zero
unit: a storage is created and a stream is extracted at `outDir` followed by that
string. The length field `nameLen` plays no part: replacing every name length leaves
the walk unchanged. When the buffer holds no zero unit the read runs past the
buffer. -/
theorem name_segment (eif : EifFile) (fuel sid : Nat) (outDir : Path) (w : World)
    (e : DirEntry) (hsid : sid ≠ StreamID.NoStream) (hd : eif.dirs[sid]? = some e)
    (hroot : e.objType ≠ ObjType.RootStorage) :
    (0 ∉ e.name → unpackNode eif (fuel + 1) sid outDir w = (.undefined, w)) ∧
    (0 ∈ e.name → e.objType = ObjType.Storage →
      ∃ rest, (unpackNode eif (fuel + 1) sid outDir w).2.log =
        w.log ++ Event.createDirectory sid (outDir ++ [e.name.takeWhile (· ≠ 0)]) :: rest) ∧
    (0 ∈ e.name → e.objType = ObjType.Stream →
      ∃ rest, (unpackNode eif (fuel + 1) sid outDir w).2.log =
        w.log ++ Event.unpackFile sid (outDir ++ [e.name.takeWhile (· ≠ 0)]) :: rest) ∧
    (∀ f : DirEntry → Nat, unpackNode (withNameLens eif f) (fuel + 1) sid outDir w =
      unpackNode eif (fuel + 1) sid outDir w) := by
  have hsib : ∀ w1 : World, LogExt (fun _ => True) w1
      (andThen (unpackNode eif fuel e.leftSiblingId outDir w1) fun _ w2 =>
        unpackNode eif fuel e.rightSiblingId outDir w2) := fun w1 =>
    logExt_andThen _ w1 _ (fun _ w2 => unpackNode eif fuel e.rightSiblingId outDir w2)
      (unpackNode_log_extends eif fuel _ _ w1) (fun w2 => unpackNode_log_extends eif fuel _ _ w2)
  refine ⟨?_, ?_, ?_, fun f => unpackNode_withNameLens eif f _ sid outDir w⟩
  · intro h0
    simp [unpackNode, hsid, hd, hroot, cstr, h0]
  · intro h0 hk
    have hns : ¬ e.objType = ObjType.Stream := by rw [hk]; decide
    simp only [unpackNode, hsid, hd, hroot, cstr, h0, if_true, if_false, Option.map_some', hk,
      or_true]
    refine andThen_log_after w _ _ (fun _ w1 => andThen (unpackNode eif fuel e.leftSiblingId
      outDir w1) fun _ w2 => unpackNode eif fuel e.rightSiblingId outDir w2) ?_ hsib
    cases hloc : locate (outDir ++ [e.name.takeWhile (· ≠ 0)]) with
    | none => exact ⟨[], rfl⟩
    | some loc =>
      simp only []
      cases hcd : w.fs.createDirectory loc with
      | none => exact ⟨[], rfl⟩
      | some fs1 =>
        obtain ⟨new, hnew, _⟩ := unpackNode_log_extends eif fuel e.childId
          (outDir ++ [e.name.takeWhile (· ≠ 0)])
          ⟨fs1, w.log ++ [Event.createDirectory sid (outDir ++ [e.name.takeWhile (· ≠ 0)])]⟩
        exact ⟨new, by rw [hnew]; simp⟩
  · intro h0 hk
    have hns : ¬ (e.objType = ObjType.RootStorage ∨ e.objType = ObjType.Storage) := by
      rw [hk]; decide
    simp only [unpackNode, hsid, hd, hroot, cstr, h0, if_true, if_false, Option.map_some', hns,
      hk]
    refine andThen_log_after w _ _ (fun _ w1 => andThen (unpackNode eif fuel e.leftSiblingId
      outDir w1) fun _ w2 => unpackNode eif fuel e.rightSiblingId outDir w2) ?_ hsib
    cases hloc : locate (outDir ++ [e.name.takeWhile (· ≠ 0)]) with
    | none => exact ⟨[], rfl⟩
    | some loc => exact ⟨[], rfl⟩

theorem name_segment_witness :
    ∃ rest, (unpackNode longNameEif (2 + 1) 1 outPath ⟨baseFS.set outPath .dir, []⟩).2.log =
      [] ++ Event.unpackFile 1 (outPath ++ [List.takeWhile (· ≠ 0)
        (nameLong ++ List.replicate 24 0)]) :: rest :=
  (name_segment longNameEif 2 1 outPath ⟨baseFS.set outPath .dir, []⟩
    { mkEntry nameLong 2 0xffffffff 0xffffffff 0xffffffff 0 0 with nameLen := 5 }
    (by decide) rfl (by decide)).2.2.1 (by decide) rfl

/-! ## The driver -/

/-- C12, counterexample. With the arguments `bad.eif good.eif` the driver reports the
format error of the first input and returns the failure status without starting any
operation for the second input, which alone is extracted in four operations; with
`missing.eif good.eif` it writes the warning, reports the stream failure and again
never reaches the second input. -/
theorem driver_stops_counterexample :
    ((u8main badThenGood 4 ⟨baseFS, []⟩).1,
      (u8main badThenGood 4 ⟨baseFS, []⟩).2.1.log,
      (u8main badThenGood 4 ⟨baseFS, []⟩).2.2) = (.ok 1, [], [.what .format]) ∧
    ((u8main missingThenGood 4 ⟨baseFS, []⟩).1,
      (u8main missingThenGood 4 ⟨baseFS, []⟩).2.1.log,
      (u8main missingThenGood 4 ⟨baseFS, []⟩).2.2) =
        (.ok 1, [], [.openFailed, .what (.iosFailure false)]) ∧
    ((u8main (badThenGood.drop 1) 4 ⟨baseFS, []⟩).1,
      (u8main (badThenGood.drop 1) 4 ⟨baseFS, []⟩).2.1.log.length,
      (u8main (badThenGood.drop 1) 4 ⟨baseFS, []⟩).2.2) = (.ok 0, 4, []) := by
  refine ⟨by decide!, by decide!, by decide!⟩

/-- C12, amended. The driver processes its inputs in order. An input that is decoded
and extracted without error is followed by the next one. An input that cannot be
opened gets the warning line. The first input whose decoding or extraction raises an
error ends the loop: no later input is decoded or extracted, the error is reported
and the driver returns the failure status. -/
theorem driver_stops_at_first_error (fuel : Nat) (inp : Input) (rest : List Input)
    (w : World) (out : List Message) :
    ((processInput inp fuel w).1 = .ok () →
      u8mainLoop fuel (inp :: rest) w out =
        u8mainLoop fuel rest (processInput inp fuel w).2 out) ∧
    (∀ e, (processInput inp fuel w).1 = .error e →
      u8mainLoop fuel (inp :: rest) w out =
        (.error e, (processInput inp fuel w).2,
          if inp.opened.isNone then out ++ [.openFailed] else out)) ∧
    (∀ e w1 out1, u8mainLoop fuel (inp :: rest) w [] = (.error e, w1, out1) →
      u8main (inp :: rest) fuel w = (.ok 1, w1, out1 ++ [.what e])) := by
  refine ⟨?_, ?_, ?_⟩
  · intro h
    rcases hp : processInput inp fuel w with ⟨r, w1⟩
    rw [hp] at h
    simp only at h
    subst h
    have hop : inp.opened.isNone = false := by
      cases ho : inp.opened with
      | none => simp [processInput, ho] at hp
      | some src => rfl
    simp [u8mainLoop, hp, hop]
  · intro e h
    rcases hp : processInput inp fuel w with ⟨r, w1⟩
    rw [hp] at h
    simp only at h
    subst h
    simp [u8mainLoop]
    rw [hp]
  · intro e w1 out1 h
    simp [u8main, h]

theorem driver_stops_at_first_error_witness :
    u8mainLoop 4 badThenGood ⟨baseFS, []⟩ [] =
      (.error .format, (processInput ⟨some mutatedSource, [[98, 97, 100]]⟩ 4 ⟨baseFS, []⟩).2,
        if (some mutatedSource).isNone then [] ++ [.openFailed] else []) :=
  (driver_stops_at_first_error 4 ⟨some mutatedSource, [[98, 97, 100]]⟩
    [⟨some exampleSource, outPath⟩] ⟨baseFS, []⟩ []).2.1 .format (by decide!)

/-! ## The table builders on large or unusual values -/

/-- C13. The header of this container declares one DIFAT sector with the head 2, so
that the first DIFAT sector lies at offset `(2 + 1) * 512 = 1536`. The constructor
reads it at offset 512, where the stream stands after the header (there is no seek
before the first DIFAT read and `difBeginSect` is never used): the reads are the
header, 508 and 4 bytes at 512 and 1020, the FAT sector and the directory sector,
and the DIFAT is the inline entries followed by the first 127 words of the FAT sector
instead of the 127 `Free` entries of sector 2. -/
theorem first_dif_sector_read_after_header :
    (parseHeader (difSource.data.take 512)).difBeginSect = 2 ∧
    (parseHeader (difSource.data.take 512)).difSectNum = 1 ∧
    (construct difSource 4).1.outcome = .ok () ∧
    (construct difSource 4).2.reads =
      [(0, 512), (512, 508), (1020, 4), (512, 512), (1024, 512)] ∧
    (decoderOf difSource 4).dif.drop 109 =
      [0xfffffffd, 0xfffffffe, 0xfffffffc] ++ List.replicate 124 0xffffffff ∧
    words ((difSource.data.drop 1536).take 508) = List.replicate 127 0xffffffff := by
  refine ⟨by decide!, by decide!, by decide!, by decide!, by decide!, by decide!⟩

/-- C14. For the sector index `2^23 - 1` the mathematical offset is
`(2^23 - 1 + 1) * 512 = 2^32`, and the offset passed to `seekg`, computed in
`unsigned` 32-bit arithmetic, is 0: a FAT-chain loop of the constructor at this
cursor reads the 512 bytes at offset 0. The same holds for the index `0xffffffff`,
whose successor wraps to 0. -/
theorem seek_offset_wraps :
    sectOffset 8388607 = 0 ∧ (8388607 + 1) * 512 = 2 ^ 32 ∧ sectOffset 0xffffffff = 0 ∧
    (readChain exampleSource [] 1 8388607 [] IStream.fresh).2.reads = [(0, 512)] ∧
    (copyMain exampleEif 8 8388607 8).2 = [0xd0, 0xcf, 0x11, 0xe0, 0xa1, 0xb1, 0x1a, 0xe1] := by
  refine ⟨by decide, by decide, by decide, by decide!, by decide!⟩

/-- C15. For `fatSectNum = 2^23` the product `fatSectNum * SectSize` wraps to 0 in
`unsigned` 32-bit arithmetic: the FAT is allocated with 0 entries instead of
`2^23 * 128`, and the first iteration of the FAT loop stores the 128 words of the
sector named by `DIFAT[0]` at positions `[0, 128)`, outside the array. -/
theorem fat_allocation_wraps :
    (parseHeader (hugeFatSource.data.take 512)).fatSectNum = 8388608 ∧
    u32 (8388608 * SectSize) / 4 = 0 ∧ 8388608 * 128 = 1073741824 ∧
    (construct hugeFatSource 4).1.outcome = .undefined ∧
    (construct hugeFatSource 4).2.reads = [(0, 512), (512, 512)] := by
  refine ⟨by decide!, by decide, by decide, by decide!, by decide!⟩

/-- C16. For the cursor `c = 2^26` and the chunk `n = 10` the mathematical value
`c * 64 + n = 2^32 + 10` exceeds the length 512 of the mini-stream of the example,
but `c * 64` wraps to 0 in `unsigned` 32-bit arithmetic: the bounds check passes and
the loop copies the bytes `[0, 10)` of the mini-stream (the text `HelloWorld`) before
the table access `miniFat.at(c)` raises `std::out_of_range`. -/
theorem mini_offset_wraps :
    miniOffset 67108864 = 0 ∧ 67108864 * 64 + 10 = 2 ^ 32 + 10 ∧
    exampleEif.miniStream.length = 512 ∧
    copyStream exampleEif (streamEntry 67108864 10) = (.error .outOfRange, helloWorld) := by
  refine ⟨by decide, by decide, by decide!, by decide!⟩

/-! ## Termination of the copy loops -/

theorem chunkCount_eq_zero (r c : Nat) (hc : 0 < c) (h : chunkCount r c = 0) : r = 0 := by
  by_contra hr
  have := chunkCount_step r c hc hr
  omega

theorem copyMini_iterations (eif : EifFile) (fuel : Nat) :
    ∀ (i r : Nat), chunkCount r MiniSectSize ≤ fuel → (copyMini eif fuel i r).1 ≠ .diverge := by
  induction fuel with
  | zero =>
    intro i r h
    have : r = 0 := chunkCount_eq_zero r MiniSectSize (by decide) (by omega)
    simp [copyMini, this]
  | succ n ih =>
    intro i r h
    simp only [copyMini]
    split
    · simp
    · rename_i hr
      split
      · simp
      · split
        · simp
        · split
          · simp
          · have := chunkCount_step r MiniSectSize (by decide) hr
            exact ih _ _ (by omega)

theorem copyMain_iterations (eif : EifFile) (fuel : Nat) :
    ∀ (i r : Nat), chunkCount r SectSize ≤ fuel → (copyMain eif fuel i r).1 ≠ .diverge := by
  induction fuel with
  | zero =>
    intro i r h
    have : r = 0 := chunkCount_eq_zero r SectSize (by decide) (by omega)
    simp [copyMain, this]
  | succ n ih =>
    intro i r h
    simp only [copyMain]
    split
    · simp
    · rename_i hr
      split
      · simp
      · split
        · split
          · simp
          · have := chunkCount_step r SectSize (by decide) hr
            exact ih _ _ (by omega)
        · simp
        · simp

theorem copyMini_written_le (eif : EifFile) (fuel : Nat) :
    ∀ (i r : Nat), (copyMini eif fuel i r).2.length ≤ r := by
  induction fuel with
  | zero =>
    intro i r
    simp only [copyMini]
    split <;> simp
  | succ n ih =>
    intro i r
    simp only [copyMini]
    split
    · simp
    · split
      · simp
      · split
        · simp
        · split
          · simp only [List.length_take]
            omega
          · have := ih (by assumption) (r - min r MiniSectSize)
            simp only [List.length_append, List.length_take]
            omega

theorem copyMain_written_le (eif : EifFile) (fuel : Nat) :
    ∀ (i r : Nat), (copyMain eif fuel i r).2.length ≤ r := by
  induction fuel with
  | zero =>
    intro i r
    simp only [copyMain]
    split <;> simp
  | succ n ih =>
    intro i r
    simp only [copyMain]
    split
    · simp
    · split
      · simp
      · split
        · rename_i buf hrd
          have hlen := readAt_ok_length _ _ _ _ hrd
          split
          · simp only [hlen]
            omega
          · have := ih (by assumption) (r - min r SectSize)
            simp only [List.length_append, hlen]
            omega
        · simp
        · simp

theorem miniAfter_iterations (eif : EifFile) (k : Nat) :
    ∀ (i r i1 r1 : Nat), miniAfter eif k i r = some (i1, r1) →
      k ≤ chunkCount r MiniSectSize := by
  induction k with
  | zero => intro i r i1 r1 _; omega
  | succ k ih =>
    intro i r i1 r1 h
    simp only [miniAfter] at h
    split at h
    · exact absurd h (by simp)
    · rename_i hr
      split at h
      · exact absurd h (by simp)
      · split at h
        · exact absurd h (by simp)
        · split at h
          · exact absurd h (by simp)
          · have h1 := ih _ _ _ _ h
            have := chunkCount_step r MiniSectSize (by decide) hr
            omega

theorem mainAfter_iterations (eif : EifFile) (k : Nat) :
    ∀ (i r i1 r1 : Nat), mainAfter eif k i r = some (i1, r1) →
      k ≤ chunkCount r SectSize := by
  induction k with
  | zero => intro i r i1 r1 _; omega
  | succ k ih =>
    intro i r i1 r1 h
    simp only [mainAfter] at h
    split at h
    · exact absurd h (by simp)
    · rename_i hr
      split at h
      · exact absurd h (by simp)
      · split at h
        · split at h
          · exact absurd h (by simp)
          · have h1 := ih _ _ _ _ h
            have := chunkCount_step r SectSize (by decide) hr
            omega
        · exact absurd h (by simp)
        · exact absurd h (by simp)

theorem miniAfter_one (eif : EifFile) (i r i1 r1 : Nat)
    (h : miniAfter eif 1 i r = some (i1, r1)) :
    r1 = r - min r MiniSectSize ∧ 1 ≤ min r MiniSectSize ∧ r1 < r := by
  simp only [miniAfter] at h
  split at h
  · exact absurd h (by simp)
  · rename_i hr
    split at h
    · exact absurd h (by simp)
    · split at h
      · exact absurd h (by simp)
      · split at h
        · exact absurd h (by simp)
        · simp only [Option.some.injEq, Prod.mk.injEq] at h
          simp only [MiniSectSize] at h ⊢
          omega

theorem mainAfter_one (eif : EifFile) (i r i1 r1 : Nat)
    (h : mainAfter eif 1 i r = some (i1, r1)) :
    r1 = r - min r SectSize ∧ 1 ≤ min r SectSize ∧ r1 < r := by
  simp only [mainAfter] at h
  split at h
  · exact absurd h (by simp)
  · rename_i hr
    split at h
    · exact absurd h (by simp)
    · split at h
      · split at h
        · exact absurd h (by simp)
        · simp only [Option.some.injEq, Prod.mk.injEq] at h
          simp only [SectSize] at h ⊢
          omega
      · exact absurd h (by simp)
      · exact absurd h (by simp)

/-- C20. For every entry and whatever the FAT, the MiniFAT and the mini-stream hold,
the copy loop of `unpackFile` terminates and writes at most `streamSize` bytes: a
bound of `ceil(remaining / 64)` iterations on the mini chain and of
`ceil(remaining / 512)` on the main chain is never reached with bytes left, no run
of the loop completes more iterations than that, and every complete iteration copies
`min(remaining, chunk) >= 1` bytes and strictly decreases `remaining`. -/
theorem copy_loop_terminates (eif : EifFile) (node : DirEntry) :
    (copyStream eif node).1 ≠ .diverge ∧
    (copyStream eif node).2.length ≤ node.streamSize ∧
    (∀ fuel i r, chunkCount r MiniSectSize ≤ fuel → (copyMini eif fuel i r).1 ≠ .diverge) ∧
    (∀ fuel i r, chunkCount r SectSize ≤ fuel → (copyMain eif fuel i r).1 ≠ .diverge) ∧
    (∀ k i1 r1, miniAfter eif k node.startSect node.streamSize = some (i1, r1) →
      k ≤ chunkCount node.streamSize MiniSectSize) ∧
    (∀ k i1 r1, mainAfter eif k node.startSect node.streamSize = some (i1, r1) →
      k ≤ chunkCount node.streamSize SectSize) ∧
    (∀ i r i1 r1, miniAfter eif 1 i r = some (i1, r1) →
      r1 = r - min r MiniSectSize ∧ 1 ≤ min r MiniSectSize ∧ r1 < r) ∧
    (∀ i r i1 r1, mainAfter eif 1 i r = some (i1, r1) →
      r1 = r - min r SectSize ∧ 1 ≤ min r SectSize ∧ r1 < r) := by
  refine ⟨copyStream_ne_diverge eif node, ?_, copyMini_iterations eif, copyMain_iterations eif,
    fun k i1 r1 h => miniAfter_iterations eif k _ _ i1 r1 h,
    fun k i1 r1 h => mainAfter_iterations eif k _ _ i1 r1 h,
    miniAfter_one eif, mainAfter_one eif⟩
  unfold copyStream
  split
  · exact copyMini_written_le eif _ _ _
  · exact copyMain_written_le eif _ _ _

theorem copy_loop_terminates_witness :
    (copyMain exampleEif 10 4 5000).1 ≠ .diverge ∧
    (10 ≤ chunkCount 5000 SectSize) ∧
    (copyStream brokenMiniEif (streamEntry 0 100)).2.length ≤ 100 :=
  ⟨(copy_loop_terminates exampleEif (streamEntry 4 5000)).2.2.2.1 10 4 5000 (by decide),
   (copy_loop_terminates exampleEif (streamEntry 4 5000)).2.2.2.2.2.1 10 0xfffffffe 0
      (by decide!),
   (copy_loop_terminates brokenMiniEif (streamEntry 0 100)).2.1⟩

/-! ## Cyclic directory arrays -/

theorem cyclic_node (fuel : Nat) :
    ∀ w : World, w.fs outPath = some .dir → w.fs (outPath ++ [[120]]) ≠ some .dir →
      (unpackNode cyclicEif fuel 1 outPath w).1 = .diverge := by
  induction fuel with
  | zero => intro w _ _; rfl
  | succ n ih =>
    intro w h1 h2
    have hd : cyclicEif.dirs[1]? = some cycEntry := rfl
    have hsid : (1 : Nat) ≠ StreamID.NoStream := by decide
    have hroot : ¬ cycEntry.objType = ObjType.RootStorage := by decide
    have hstor : ¬ (cycEntry.objType = ObjType.RootStorage ∨
        cycEntry.objType = ObjType.Storage) := by decide
    have hstream : cycEntry.objType = ObjType.Stream := by decide
    have hname : cstr cycEntry.name = some [120] := by decide
    have hleft : cycEntry.leftSiblingId = StreamID.NoStream := by decide
    have hright : cycEntry.rightSiblingId = 1 := by decide
    have hcopy : (copyStream cyclicEif cycEntry).1 = .ok () := by
      rw [copyStream_size_zero cyclicEif cycEntry (by decide)]
    have hpar : (outPath ++ [[120]]).dropLast = outPath := by decide
    have hfile := unpackFile_of cyclicEif cycEntry (outPath ++ [[120]]) w.fs hcopy h2
      (by rw [hpar]; exact h1)
    have hroot2 : ¬ ObjType.Stream = ObjType.RootStorage := by decide
    have hstor2 : ¬ (ObjType.Stream = ObjType.RootStorage ∨
        ObjType.Stream = ObjType.Storage) := by decide
    have hloc : locate (outPath ++ [[120]]) = some (outPath ++ [[120]]) := by decide
    simp only [unpackNode, hsid, if_false, hd, hroot, hname, Option.map_some', hstor, hstream,
      hroot2, hstor2, if_true, hloc, hfile, hleft, hright, andThen]
    cases n with
    | zero => rfl
    | succ m =>
      simp only [unpackNode, if_true, andThen]
      apply ih
      · have hne : outPath ≠ outPath ++ [[120]] := by decide
        simp [FS.set, hne, h1]
      · simp [FS.set]

theorem cyclic_unfold (n : Nat) : ∀ sid, sid = 0 ∨ sid = 1 →
    unfoldTree cyclicEif.dirs n sid = none := by
  induction n with
  | zero => intro sid _; rfl
  | succ n ih =>
    intro sid hsid
    rcases hsid with h | h
    · subst h
      have hd : cyclicEif.dirs[0]? =
          some (mkEntry [82, 111, 111, 116] 5 0xffffffff 0xffffffff 1 3 64) := rfl
      have h0 : (0 : Nat) ≠ StreamID.NoStream := by decide
      have hk : (mkEntry [82, 111, 111, 116] 5 0xffffffff 0xffffffff 1 3 64).objType =
          ObjType.RootStorage := by decide
      have hc : (mkEntry [82, 111, 111, 116] 5 0xffffffff 0xffffffff 1 3 64).childId = 1 := by
        decide
      simp only [unfoldTree, h0, if_false, hd, hk, true_or, if_true, hc, ih 1 (Or.inr rfl)]
    · subst h
      have hd : cyclicEif.dirs[1]? = some cycEntry := rfl
      have h1 : (1 : Nat) ≠ StreamID.NoStream := by decide
      have hright : cycEntry.rightSiblingId = 1 := by decide
      simp only [unfoldTree, h1, if_false, hd, hright, ih 1 (Or.inr rfl)]
      split
      · rename_i heq
        exact absurd heq (by simp)
      · rfl

/-- C18, counterexample. In this directory array entry 1, the only child of the
root, is its own right sibling. From a filesystem holding only the base directory,
`unpack` reaches every bound put on the depth of its recursion: it does not
terminate, and it raises no format error for the revisit. -/
theorem cyclic_walk_does_not_terminate :
    (cyclicEif.dirs.map fun e => e.rightSiblingId) = [0xffffffff, 1] ∧
    ∀ fuel : Nat, (unpack cyclicEif fuel outPath ⟨baseFS, []⟩).1 = .diverge := by
  refine ⟨by decide, fun fuel => ?_⟩
  cases fuel with
  | zero => rfl
  | succ n =>
    have hd : cyclicEif.dirs[0]? =
        some (mkEntry [82, 111, 111, 116] 5 0xffffffff 0xffffffff 1 3 64) := rfl
    have h0 : (0 : Nat) ≠ StreamID.NoStream := by decide
    have hk : (mkEntry [82, 111, 111, 116] 5 0xffffffff 0xffffffff 1 3 64).objType =
        ObjType.RootStorage := by decide
    have hc : (mkEntry [82, 111, 111, 116] 5 0xffffffff 0xffffffff 1 3 64).childId = 1 := by
      decide
    have hcd : baseFS.createDirectory outPath = some (baseFS.set outPath .dir) := rfl
    have hne : outPath ++ [[120]] ≠ outPath := by decide
    have hne2 : outPath ++ [[120]] ≠ [] := by decide
    have hchild := cyclic_node n
      ⟨baseFS.set outPath .dir, [] ++ [Event.createDirectory 0 outPath]⟩
      (by simp [FS.set]) (by simp [FS.set, hne, baseFS, hne2])
    have hloc : locate outPath = some outPath := by decide
    simp only [unpack, unpackNode, h0, if_false, hd, hk, if_true, true_or, hloc, hcd, hc]
    rcases hr : unpackNode cyclicEif n 1 outPath
      ⟨baseFS.set outPath .dir, [] ++ [Event.createDirectory 0 outPath]⟩ with ⟨r, w1⟩
    rw [hr] at hchild
    simp only at hchild
    subst hchild
    rfl

theorem andThen_fst_ok {σ : Type} (r : Res Unit × σ) (k : Unit → σ → Res Unit × σ)
    (h : (andThen r k).1 = .ok ()) : r.1 = .ok () ∧ (k () r.2).1 = .ok () := by
  rcases r with ⟨res, s⟩
  cases res with
  | ok u => exact ⟨rfl, by simpa [andThen] using h⟩
  | error e => simp [andThen] at h
  | diverge => simp [andThen] at h
  | undefined => simp [andThen] at h

theorem unpackNode_ok_unfolds (eif : EifFile) (fuel : Nat) :
    ∀ (sid : Nat) (outDir : Path) (w : World),
      (unpackNode eif fuel sid outDir w).1 = .ok () →
      ∃ t, unfoldTree eif.dirs fuel sid = some t := by
  induction fuel with
  | zero =>
    intro sid outDir w h
    simp [unpackNode] at h
  | succ n ih =>
    intro sid outDir w h
    simp only [unpackNode] at h
    simp only [unfoldTree]
    by_cases hsid : sid = StreamID.NoStream
    · exact ⟨.leaf, by simp [hsid]⟩
    · simp only [hsid, if_false] at h ⊢
      cases hd : eif.dirs[sid]? with
      | none => simp [hd] at h
      | some e =>
        simp only [hd] at h ⊢
        cases hp : (if e.objType = ObjType.RootStorage then some outDir
            else (cstr e.name).map fun seg => outDir ++ [seg]) with
        | none => simp [hp] at h
        | some curPath =>
          simp only [hp] at h
          obtain ⟨hown, hrest⟩ := andThen_fst_ok _ _ h
          obtain ⟨hleft, hright⟩ := andThen_fst_ok _ _ hrest
          obtain ⟨l, hl⟩ := ih _ _ _ hleft
          obtain ⟨r, hr⟩ := ih _ _ _ hright
          have hchild : ∃ c, (if e.objType = ObjType.RootStorage ∨
              e.objType = ObjType.Storage then unfoldTree eif.dirs n e.childId
              else some .leaf) = some c := by
            by_cases hk : e.objType = ObjType.RootStorage ∨ e.objType = ObjType.Storage
            · simp only [hk, if_true] at hown ⊢
              cases hloc : locate curPath with
              | none => simp [hloc] at hown
              | some loc =>
                simp only [hloc] at hown
                cases hcd : w.fs.createDirectory loc with
                | none => simp [hcd] at hown
                | some fs1 =>
                  simp only [hcd] at hown
                  exact ih _ _ _ hown
            · exact ⟨.leaf, by simp [hk]⟩
          obtain ⟨c, hc⟩ := hchild
          exact ⟨.node sid c l r, by simp [hc, hl, hr]⟩

/-- C18, amended. `unpack` has no cycle detection and no bound on its recursion: when
the links reachable from entry 0 have no finite unfolding, as when they contain a
cycle, no bound on the depth of the recursion lets `unpack` return normally (it
reaches the bound unless an operation raises first). -/
theorem cyclic_walk_never_returns (eif : EifFile)
    (hcyc : ∀ n, unfoldTree eif.dirs n 0 = none) (fuel : Nat) (outDir : Path) (w : World) :
    (unpack eif fuel outDir w).1 ≠ .ok () := by
  intro h
  obtain ⟨t, ht⟩ := unpackNode_ok_unfolds eif fuel 0 outDir w h
  rw [hcyc fuel] at ht
  exact absurd ht (by simp)

theorem cyclic_walk_never_returns_witness :
    (unpack cyclicEif 7 outPath ⟨baseFS, []⟩).1 ≠ .ok () :=
  cyclic_walk_never_returns cyclicEif (fun n => cyclic_unfold n 0 (Or.inl rfl)) 7 outPath
    ⟨baseFS, []⟩

/-! ## The state after construction -/

theorem words_length : ∀ l : List Nat, (words l).length = l.length / 4
  | [] => rfl
  | [_] => by simp [words]
  | [_, _] => by simp [words]
  | [_, _, _] => by simp [words]
  | _ :: _ :: _ :: _ :: rest => by
    simp only [words, List.length_cons, words_length rest]
    omega

theorem dirEntries_length (b : List Nat) : (dirEntries b).length = b.length / DirEntrySize := by
  simp [dirEntries]

theorem read_ok_spec (src : Source) (n : Nat) (s s1 : IStream) (bytes : List Nat)
    (h : s.read src n = (.ok bytes, s1)) :
    bytes = (src.data.drop s.pos).take n ∧ bytes.length = n ∧
      s1.reads = s.reads ++ [(s.pos, n)] ∧ s1.pos = s.pos + n := by
  have hlen := read_ok_length src n s s1 bytes h
  unfold IStream.read at h
  cases hr : src.readAt s.pos n with
  | ok b =>
    simp only [hr, Prod.mk.injEq, Res.ok.injEq] at h
    obtain ⟨hb, hs⟩ := h
    subst hb hs
    refine ⟨?_, hlen, rfl, rfl⟩
    unfold Source.readAt at hr
    split at hr
    · exact absurd hr (by simp)
    · split at hr
      · simp only [ReadResult.ok.injEq] at hr
        exact hr.symm
      · exact absurd hr (by simp)
  | short => simp [hr] at h
  | bad => simp [hr] at h

theorem readChain_ok_spec (src : Source) (fat : List Nat) (fuel : Nat) :
    ∀ (i : Nat) (acc : List Nat) (s s1 : IStream) (out : List Nat),
      readChain src fat fuel i acc s = (.ok out, s1) →
      out = acc ++ (chainCursors fat fuel i).flatMap (sectorRead src) ∧
      out.length = acc.length + SectSize * (chainCursors fat fuel i).length ∧
      s1.reads = s.reads ++ (chainCursors fat fuel i).map fun c => (sectOffset c, SectSize) := by
  induction fuel with
  | zero =>
    intro i acc s s1 out h
    simp only [readChain] at h
    split at h
    · simp only [Prod.mk.injEq, Res.ok.injEq] at h
      simp [chainCursors, h.1, h.2]
    · exact absurd h (by simp)
  | succ n ih =>
    intro i acc s s1 out h
    simp only [readChain] at h
    split at h
    · rename_i hi
      simp only [Prod.mk.injEq, Res.ok.injEq] at h
      simp [chainCursors, hi, h.1, h.2]
    · rename_i hi
      obtain ⟨bytes, s2, hread, hk⟩ := andThen_ok _ _ _ _ h
      obtain ⟨hb, hlen, hreads, _⟩ := read_ok_spec src SectSize _ _ _ hread
      cases hf : fat[i]? with
      | none => simp [hf] at hk
      | some next =>
        simp only [hf] at hk
        obtain ⟨h1, h2, h3⟩ := ih next (acc ++ bytes) s2 s1 out hk
        have hsr : bytes = sectorRead src i := by
          rw [hb]
          rfl
        refine ⟨?_, ?_, ?_⟩
        · rw [h1, hsr]
          simp [chainCursors, hi, hf]
        · rw [h2, List.length_append, hlen]
          simp only [chainCursors, hi, if_false, hf, List.length_cons]
          rw [Nat.mul_add]
          omega
        · rw [h3, hreads]
          simp [chainCursors, hi, hf, IStream.seekg]

theorem difSectorsRead_append (s : IStream) (reads : List (Nat × Nat)) (s1 : IStream)
    (h : s1.reads = s.reads ++ reads) :
    difSectorsRead s1 =
      difSectorsRead s + (reads.filter fun p => p.2 == SectSize - 4).length := by
  simp [difSectorsRead, h, List.filter_append]

theorem readChain_difSectorsRead (src : Source) (fat : List Nat) (fuel i : Nat)
    (acc : List Nat) (s s1 : IStream) (out : List Nat)
    (h : readChain src fat fuel i acc s = (.ok out, s1)) :
    difSectorsRead s1 = difSectorsRead s := by
  obtain ⟨_, _, hreads⟩ := readChain_ok_spec src fat fuel i acc s s1 out h
  rw [difSectorsRead_append s _ s1 hreads]
  have : ((chainCursors fat fuel i).map fun c => (sectOffset c, SectSize)).filter
      (fun p => p.2 == SectSize - 4) = [] := by
    rw [List.filter_eq_nil_iff]
    intro p hp
    obtain ⟨c, _, hc⟩ := List.mem_map.mp hp
    subst hc
    simp [SectSize]
  rw [this]
  rfl

theorem readDif_ok_spec (src : Source) (fuel : Nat) :
    ∀ (dif : List Nat) (s s1 : IStream) (out : List Nat),
      readDif src fuel dif s = (.ok out, s1) →
      ∃ k, out.length = dif.length + 127 * k ∧ difSectorsRead s1 = difSectorsRead s + k := by
  induction fuel with
  | zero =>
    intro dif s s1 out h
    simp [readDif] at h
  | succ n ih =>
    intro dif s s1 out h
    simp only [readDif] at h
    obtain ⟨entries, sa, hread1, h⟩ := andThen_ok _ _ _ _ h
    obtain ⟨nextBytes, sb, hread2, h⟩ := andThen_ok _ _ _ _ h
    obtain ⟨_, hlen1, hreads1, _⟩ := read_ok_spec src _ _ _ _ hread1
    obtain ⟨_, _, hreads2, _⟩ := read_ok_spec src _ _ _ _ hread2
    have hw : (words entries).length = 127 := by
      rw [words_length, hlen1]
      rfl
    have hsb : difSectorsRead sb = difSectorsRead s + 1 := by
      have h1 := difSectorsRead_append s _ sa hreads1
      have h2 := difSectorsRead_append sa _ sb hreads2
      rw [h2, h1]
      have e1 : ([(s.pos, SectSize - 4)].filter fun p => p.2 == SectSize - 4).length = 1 := by
        simp
      have e2 : ([(sa.pos, 4)].filter fun p => p.2 == SectSize - 4).length = 0 := by
        simp [SectSize]
      rw [e1, e2]
    split at h
    · simp only [Prod.mk.injEq, Res.ok.injEq] at h
      refine ⟨1, ?_, ?_⟩
      · rw [← h.1, List.length_append, hw]
      · rw [← h.2, hsb]
    · obtain ⟨k, hk1, hk2⟩ := ih _ _ _ _ h
      refine ⟨k + 1, ?_, ?_⟩
      · rw [hk1, List.length_append, hw]
        omega
      · rw [hk2]
        have : difSectorsRead (sb.seekg (sectOffset (leNat nextBytes))) = difSectorsRead sb :=
          rfl
        rw [this, hsb]
        omega

theorem readFat_ok_spec (src : Source) (dif : List Nat) (k : Nat) :
    ∀ (i : Nat) (fat : List Nat) (s s1 : IStream) (out : List Nat),
      readFat src dif k i fat s = (.ok out, s1) →
      (k = 0 ∨ i + k ≤ dif.length) ∧ difSectorsRead s1 = difSectorsRead s ∧
        out.length = fat.length := by
  induction k with
  | zero =>
    intro i fat s s1 out h
    simp only [readFat, Prod.mk.injEq, Res.ok.injEq] at h
    exact ⟨Or.inl rfl, by rw [h.2], by rw [h.1]⟩
  | succ k ih =>
    intro i fat s s1 out h
    simp only [readFat] at h
    cases hd : dif[i]? with
    | none => simp [hd] at h
    | some sect =>
      simp only [hd] at h
      obtain ⟨bytes, sa, hread, h⟩ := andThen_ok _ _ _ _ h
      obtain ⟨_, hlen, hreads, _⟩ := read_ok_spec src _ _ _ _ hread
      split at h
      · rename_i hslot
        obtain ⟨h1, h2, h3⟩ := ih _ _ _ _ _ h
        have hi : i < dif.length := by
          by_contra hge
          rw [List.getElem?_eq_none (by omega)] at hd
          exact absurd hd (by simp)
        refine ⟨Or.inr ?_, ?_, ?_⟩
        · rcases h1 with h1 | h1 <;> omega
        · rw [h2, difSectorsRead_append (s.seekg (sectOffset sect)) _ sa hreads]
          have e : ([((s.seekg (sectOffset sect)).pos, SectSize)].filter
              fun p => p.2 == SectSize - 4).length = 0 := by
            simp [SectSize]
          rw [e]
          rfl
        · rw [h3]
          simp only [List.length_append, List.length_take, List.length_drop, words_length, hlen]
          simp only [SectSize] at hslot ⊢
          omega
      · exact absurd h (by simp)

theorem readTables_ok_spec (src : Source) (fuel : Nat) (t : Tables) (s5 : IStream)
    (h : readTables src fuel IStream.fresh = (.ok t, s5)) :
    t.dif.length = 109 + 127 * difSectorsRead s5 ∧
    t.header.fatSectNum ≤ t.dif.length ∧
    t.miniFat = words ((chainCursors t.fat fuel t.header.miniFatBeginSect).flatMap
      (sectorRead src)) ∧
    t.dirs = dirEntries ((chainCursors t.fat fuel t.header.dirBeginSect).flatMap
      (sectorRead src)) ∧
    t.miniFat.length = 128 * (chainCursors t.fat fuel t.header.miniFatBeginSect).length ∧
    t.dirs.length = 4 * (chainCursors t.fat fuel t.header.dirBeginSect).length := by
  obtain ⟨hdr, s1, s2, s3, s4, mf, db, hread, _, hhdr, hdif, hfat, hmf, hdb, hmfe, hde⟩ :=
    readTables_ok_parts src fuel _ t s5 h
  obtain ⟨_, hlen, hreads, _⟩ := read_ok_spec src _ _ _ _ hread
  have hs1 : difSectorsRead s1 = 0 := by
    rw [difSectorsRead_append IStream.fresh _ s1 hreads]
    simp [difSectorsRead, IStream.fresh, SectSize]
  have hfs : t.header.fatSects.length = 109 := by
    rw [hhdr]
    simp only [parseHeader, words_length, List.length_take, List.length_drop, hlen, SectSize]
    rfl
  have hdif2 : t.dif.length = 109 + 127 * difSectorsRead s2 := by
    split at hdif
    · obtain ⟨k, hk1, hk2⟩ := readDif_ok_spec src fuel _ _ _ _ hdif
      rw [hk1, hk2, hs1, hfs]
      omega
    · simp only [Prod.mk.injEq, Res.ok.injEq] at hdif
      rw [← hdif.1, ← hdif.2, hs1, hfs]
  obtain ⟨hfat1, hfat2, _⟩ := readFat_ok_spec src t.dif _ _ _ _ _ _ hfat
  have hmf2 := readChain_difSectorsRead src t.fat fuel _ _ _ _ _ hmf
  have hdb2 := readChain_difSectorsRead src t.fat fuel _ _ _ _ _ hdb
  obtain ⟨hmfo, hmfl, _⟩ := readChain_ok_spec src t.fat fuel _ _ _ _ _ hmf
  obtain ⟨hdbo, hdbl, _⟩ := readChain_ok_spec src t.fat fuel _ _ _ _ _ hdb
  refine ⟨?_, ?_, ?_, ?_, ?_, ?_⟩
  · rw [hdif2, hdb2, hmf2, hfat2]
  · rcases hfat1 with h0 | h0 <;> omega
  · rw [hmfe, hmfo]
    rfl
  · rw [hde, hdbo]
    rfl
  · rw [hmfe, words_length, hmfl]
    simp only [List.length_nil, SectSize]
    omega
  · rw [hde, dirEntries_length, hdbl]
    simp only [List.length_nil, SectSize, DirEntrySize]
    omega

theorem construct_ok_spec (src : Source) (fuel : Nat) (eif : EifFile) (s : IStream)
    (h : construct src fuel = (.ok eif, s)) :
    ∃ (t : Tables) (s5 : IStream) (root : DirEntry) (rest : List DirEntry),
      readTables src fuel IStream.fresh = (.ok t, s5) ∧ t.dirs = root :: rest ∧
      root.objType = ObjType.RootStorage ∧
      readChain src t.fat fuel root.startSect [] s5 = (.ok eif.miniStream, s) ∧
      eif = ⟨src, t.header, t.dif, t.fat, t.miniFat, t.dirs, eif.miniStream⟩ := by
  have hb : constructBody src fuel IStream.fresh = (.ok eif, s) := by
    unfold construct at h
    split at h
    · exact absurd h (by simp)
    · exact h
  unfold constructBody at hb
  obtain ⟨t, s5, ht, hb⟩ := andThen_ok _ _ _ _ hb
  cases hd : t.dirs with
  | nil => simp [hd] at hb
  | cons root rest =>
    simp only [hd] at hb
    split at hb
    · exact absurd hb (by simp)
    · rename_i hk
      obtain ⟨_, s5a, ha, hb2⟩ := andThen_ok _ _ _ _ hb
      clear hb
      obtain ⟨hs5, _⟩ := allocate_ok _ _ _ _ _ _ ha
      clear ha
      subst hs5
      obtain ⟨ms, s6, hms, hb⟩ := andThen_ok _ _ _ _ hb2
      clear hb2
      simp only [Prod.mk.injEq, Res.ok.injEq] at hb
      obtain ⟨he, hs⟩ := hb
      subst he hs
      exact ⟨t, _, root, rest, ht, hd, by simpa using hk, hms, by simp [hd]⟩

/-! ## The invariant after construction -/

theorem construct_of_parts (src : Source) (fuel : Nat) (t : Tables) (s5 s6 : IStream)
    (root : DirEntry) (rest : List DirEntry) (ms : List Nat)
    (ht : readTables src fuel IStream.fresh = (.ok t, s5)) (hd : t.dirs = root :: rest)
    (hr : root.objType = ObjType.RootStorage)
    (hgr : src.request root.streamSize 1 = none)
    (hms : readChain src t.fat fuel root.startSect [] s5 = (.ok ms, s6)) :
    construct src fuel = (.ok ⟨src, t.header, t.dif, t.fat, t.miniFat, t.dirs, ms⟩, s6) := by
  have hb : constructBody src fuel IStream.fresh =
      (.ok ⟨src, t.header, t.dif, t.fat, t.miniFat, t.dirs, ms⟩, s6) := by
    unfold constructBody
    rw [ht]
    simp only [andThen]
    rw [hd]
    simp only [hr, ne_eq, not_true_eq_false, if_false, allocate_of_granted src _ _ s5 hgr,
      andThen_ok_eq, hms]
  unfold construct
  rw [hb]

theorem example_construct : construct exampleSource 4 = (.ok exampleEif, exampleFinal) :=
  construct_of_parts exampleSource 4 exampleTables afterDirs exampleFinal
    (mkEntry [82, 111, 111, 116] 5 0xffffffff 0xffffffff 1 3 64) exampleTables.dirs.tail
    (helloWorld ++ List.replicate 502 0) (by decide!) rfl rfl (by decide) (by decide!)

/-- C19. After every successful construction the decoder satisfies the invariant:
the DIFAT holds `109 + 127 * k` entries, where `k` is the number of DIFAT sectors
read, and at least `header.fatSectNum`; the MiniFAT holds a multiple of 128 words;
the directory array holds a positive multiple of 4 entries and its entry 0 has kind
`RootStorage`; the mini-stream holds a multiple of 512 bytes. The bodies of `unpack`,
`unpackNode` and `unpackFile` assign to no member of the decoder, which is why they
take the decoder as a value here and return only an outcome and the filesystem:
the decoder after `unpack`, normal or exceptional, is the decoder before it, and
the invariant holds in every reachable state. -/
theorem constructed_invariants (src : Source) (fuel : Nat) (eif : EifFile) (s : IStream)
    (h : construct src fuel = (.ok eif, s)) :
    decoderInvariant eif (difSectorsRead s) = true := by
  obtain ⟨t, s5, root, rest, ht, hd, hroot, hms, he⟩ := construct_ok_spec src fuel eif s h
  obtain ⟨hdif, hfat, _, _, hmf, hdl⟩ := readTables_ok_spec src fuel t s5 ht
  obtain ⟨_, hml, _⟩ := readChain_ok_spec src t.fat fuel _ _ _ _ _ hms
  have hk := readChain_difSectorsRead src t.fat fuel _ _ _ _ _ hms
  have h1 : eif.dif = t.dif := by rw [he]
  have h2 : eif.header = t.header := by rw [he]
  have h3 : eif.miniFat = t.miniFat := by rw [he]
  have h4 : eif.dirs = root :: rest := by rw [he]; exact hd
  have h5 : t.dirs.length = rest.length + 1 := by rw [hd]; rfl
  simp only [decoderInvariant, h1, h2, h3, h4, hroot, hk, hdif, hmf, hml, FatEntriesInHeader,
    FatEntriesPerSect, SectSize, DirEntrySize, List.length_nil, List.length_cons,
    Bool.and_eq_true, decide_eq_true_eq]
  refine ⟨⟨⟨⟨⟨⟨trivial, ?_⟩, ?_⟩, ?_⟩, ?_⟩, trivial⟩, ?_⟩ <;> omega

theorem constructed_invariants_witness :
    construct exampleSource 4 = (.ok exampleEif, exampleFinal) ∧
    decoderInvariant exampleEif (difSectorsRead exampleFinal) = true :=
  ⟨example_construct, constructed_invariants exampleSource 4 exampleEif exampleFinal
    example_construct⟩

/-! ## Construction on the file with a FAT of `2^23` entries -/

theorem read_block (src : Source) (hf : ∀ p, src.fault p = false) (pre blk post : List Nat)
    (hd : src.data = pre ++ (blk ++ post)) (s : IStream) (hp : s.pos = pre.length) :
    s.read src blk.length =
      (.ok blk, ⟨s.pos + blk.length, s.reads ++ [(s.pos, blk.length)]⟩) := by
  have hle : s.pos + blk.length ≤ src.data.length := by
    rw [hd, hp, List.length_append, List.length_append]
    omega
  have hb : (src.data.drop s.pos).take blk.length = blk := by
    rw [hd, hp, List.drop_left, List.take_left]
  unfold IStream.read Source.readAt
  rw [hf, if_neg (by simp), if_pos hle, hb]

theorem leNat_encLE (x : Nat) (h : x < 2 ^ 32) : leNat (encLE 4 x) = x := by
  simp only [encLE, leNat]
  omega

theorem chainCursors_endOfChain (table : List Nat) (n : Nat) :
    chainCursors table n SectId.EndOfChain = [] := by
  cases n <;> simp [chainCursors]

theorem chainCursors_step (table : List Nat) (n i next : Nat) (hi : i ≠ SectId.EndOfChain)
    (hf : table[i]? = some next) :
    chainCursors table (n + 1) i = i :: chainCursors table n next := by
  simp [chainCursors, hi, hf]

theorem readChain_endOfChain (src : Source) (fat : List Nat) (fuel : Nat) (acc : List Nat)
    (s : IStream) : readChain src fat fuel SectId.EndOfChain acc s = (.ok acc, s) := by
  cases fuel <;> simp [readChain]

theorem readChain_step (src : Source) (fat : List Nat) (fuel i next : Nat)
    (acc bytes : List Nat) (s s1 : IStream) (hi : i ≠ SectId.EndOfChain)
    (hr : (s.seekg (sectOffset i)).read src SectSize = (.ok bytes, s1))
    (hf : fat[i]? = some next) :
    readChain src fat (fuel + 1) i acc s = readChain src fat fuel next (acc ++ bytes) s1 := by
  simp only [readChain, hi, if_false, hr, andThen, hf]

theorem readChain_ok_reaches (src : Source) (fat : List Nat) (fuel : Nat) :
    ∀ (i : Nat) (acc : List Nat) (s s1 : IStream) (out : List Nat),
      readChain src fat fuel i acc s = (.ok out, s1) → chainReaches fat fuel i = true := by
  induction fuel with
  | zero =>
    intro i acc s s1 out h
    simp only [readChain] at h
    split at h
    · rename_i hi
      simp [chainReaches, hi]
    · exact absurd h (by simp)
  | succ n ih =>
    intro i acc s s1 out h
    simp only [readChain] at h
    split at h
    · rename_i hi
      simp [chainReaches, hi]
    · rename_i hi
      obtain ⟨bytes, s2, _, hk⟩ := andThen_ok _ _ _ _ h
      cases hf : fat[i]? with
      | none => simp [hf] at hk
      | some next =>
        simp only [hf] at hk
        simp only [chainReaches, hi, if_false, hf]
        exact ih next _ s2 s1 out hk

theorem sectorRead_eq_sector (src : Source) (c : Nat) (h : (c + 1) * SectSize < 2 ^ 32) :
    sectorRead src c = sector src c := by
  have h1 : c + 1 < 2 ^ 32 := by simp only [SectSize] at h; omega
  unfold sectorRead sector sectOffset u32
  rw [Nat.mod_eq_of_lt h1, Nat.mod_eq_of_lt h]

theorem chainSectors_of_fit (src : Source) (fat : List Nat) (n head : Nat)
    (h : cursorsFit (chainCursors fat n head) = true) :
    (chainCursors fat n head).flatMap (sectorRead src) = chainSectors src fat n head := by
  unfold chainSectors
  apply flatMap_congr_mem
  intro c hc
  simp only [cursorsFit, List.all_eq_true, decide_eq_true_eq] at h
  exact sectorRead_eq_sector src c (h c hc)

theorem read_block_len (src : Source) (hf : ∀ p, src.fault p = false)
    (pre blk post : List Nat) (n : Nat) (hn : blk.length = n)
    (hd : src.data = pre ++ (blk ++ post)) (s : IStream) (hp : s.pos = pre.length) :
    s.read src n = (.ok blk, ⟨s.pos + n, s.reads ++ [(s.pos, n)]⟩) := by
  subst hn
  exact read_block src hf pre blk post hd s hp

theorem sectOffset_small (c : Nat) (h : (c + 1) * 512 < 2 ^ 32) :
    sectOffset c = (c + 1) * 512 := by
  have h1 : c + 1 < 2 ^ 32 := by omega
  unfold sectOffset u32 SectSize
  rw [Nat.mod_eq_of_lt h1, Nat.mod_eq_of_lt h]

theorem wrapDifSector_eq (k : Nat) :
    wrapDifSector k = wrapDifEntries ++ encLE 4 (wrapDifNext k) := rfl

theorem wrapRoot_prefix_length (k : Nat) :
    (wrapHeaderBytes ++ (List.range k).flatMap wrapDifSector).length = 512 * (k + 1) := by
  rw [List.length_append, wrapHeaderBytes_length,
    length_flatMap_const _ _ 512 wrapDifSector_length, List.length_range]
  omega

theorem wrapRoot_split (k : Nat) (hk : k < 516) :
    wrapRootBytes = (wrapHeaderBytes ++ (List.range k).flatMap wrapDifSector) ++
      (wrapDifSector k ++ ((List.range' (k + 1) (515 - k)).flatMap wrapDifSector ++
        (wrapFatSector ++ wrapRootDirBytes))) := by
  have hr : List.range 516 = List.range k ++ (k :: List.range' (k + 1) (515 - k)) := by
    have h1 := List.range'_append_1 0 k (515 - k + 1)
    rw [Nat.zero_add, List.range'_succ] at h1
    rw [List.range_eq_range', List.range_eq_range', h1]
    congr 1
    omega
  unfold wrapRootBytes
  rw [hr, List.flatMap_append, List.flatMap_cons]
  simp only [List.append_assoc]
  rfl

theorem wrapDif_facts : wrapDifEntries.length = 508 ∧
    words wrapDifEntries = List.replicate 127 516 ∧ wrapFatSector.length = 512 ∧
    words wrapFatSector = List.replicate 128 0xfffffffe ∧ wrapRootDirBytes.length = 512 := by
  decide!

theorem wrapRoot_readDif_step (k : Nat) (hk : k < 516) (fuel : Nat) (dif : List Nat)
    (s : IStream) (hp : s.pos = 512 * (k + 1)) :
    readDif wrapRootSource (fuel + 1) dif s =
      if k = 515 then
        (.ok (dif ++ List.replicate 127 516),
          ⟨s.pos + 508 + 4, s.reads ++ [(s.pos, 508)] ++ [(s.pos + 508, 4)]⟩)
      else
        readDif wrapRootSource fuel (dif ++ List.replicate 127 516)
          (IStream.seekg ⟨s.pos + 508 + 4, s.reads ++ [(s.pos, 508)] ++ [(s.pos + 508, 4)]⟩
            (sectOffset (k + 1))) := by
  obtain ⟨hlen, hw, _⟩ := wrapDif_facts
  have hd1 : wrapRootSource.data = (wrapHeaderBytes ++ (List.range k).flatMap wrapDifSector) ++
      (wrapDifEntries ++ (encLE 4 (wrapDifNext k) ++
        ((List.range' (k + 1) (515 - k)).flatMap wrapDifSector ++
          (wrapFatSector ++ wrapRootDirBytes)))) := by
    show wrapRootBytes = _
    rw [wrapRoot_split k hk, wrapDifSector_eq, List.append_assoc wrapDifEntries]
  have hd2 : wrapRootSource.data =
      (wrapHeaderBytes ++ (List.range k).flatMap wrapDifSector ++ wrapDifEntries) ++
      (encLE 4 (wrapDifNext k) ++
        ((List.range' (k + 1) (515 - k)).flatMap wrapDifSector ++
          (wrapFatSector ++ wrapRootDirBytes))) := by
    rw [hd1, List.append_assoc _ wrapDifEntries]
  have r1 := read_block_len wrapRootSource (fun _ => rfl) _ wrapDifEntries _ 508 hlen hd1 s
    (by rw [hp, wrapRoot_prefix_length])
  have r2 := read_block_len wrapRootSource (fun _ => rfl) _ (encLE 4 (wrapDifNext k)) _ 4
    (encLE_length 4 _) hd2 ⟨s.pos + 508, s.reads ++ [(s.pos, 508)]⟩
    (by rw [List.length_append, wrapRoot_prefix_length, hlen]; show s.pos + 508 = _; rw [hp])
  have hnext : leNat (encLE 4 (wrapDifNext k)) = wrapDifNext k := by
    apply leNat_encLE
    unfold wrapDifNext
    split <;> omega
  have h508 : SectSize - 4 = 508 := rfl
  rw [readDif, h508, r1, andThen_ok_eq, r2, andThen_ok_eq]
  simp only [hnext, hw]
  by_cases h515 : k = 515
  · have : wrapDifNext k = SectId.EndOfChain := by simp [wrapDifNext, h515, SectId.EndOfChain]
    rw [if_pos this, if_pos h515]
  · have : wrapDifNext k = k + 1 := by simp [wrapDifNext, h515]
    have hne : k + 1 ≠ SectId.EndOfChain := by
      simp only [SectId.EndOfChain]
      omega
    rw [this, if_neg hne, if_neg h515]

theorem wrapRoot_readDif : ∀ (m : Nat), m ≤ 515 → ∀ (fuel : Nat), m < fuel →
    ∀ (dif : List Nat) (s : IStream), s.pos = 512 * (516 - m) →
    ∃ s1, readDif wrapRootSource fuel dif s =
      (.ok (dif ++ List.replicate (127 * (m + 1)) 516), s1)
  | 0, _, fuel, hf, dif, s, hp => by
    obtain ⟨f, rfl⟩ : ∃ f, fuel = f + 1 := ⟨fuel - 1, by omega⟩
    rw [wrapRoot_readDif_step 515 (by omega) f dif s hp, if_pos rfl]
    exact ⟨_, rfl⟩
  | m + 1, hm, fuel, hf, dif, s, hp => by
    obtain ⟨f, rfl⟩ : ∃ f, fuel = f + 1 := ⟨fuel - 1, by omega⟩
    have hk : 514 - m < 516 := by omega
    rw [wrapRoot_readDif_step (514 - m) hk f dif s (by rw [hp]; omega), if_neg (by omega)]
    obtain ⟨s1, h1⟩ := wrapRoot_readDif m (by omega) f (by omega)
      (dif ++ List.replicate 127 516)
      (IStream.seekg ⟨s.pos + 508 + 4, s.reads ++ [(s.pos, 508)] ++ [(s.pos + 508, 4)]⟩
        (sectOffset (514 - m + 1)))
      (by
        show sectOffset (514 - m + 1) = _
        rw [sectOffset_small _ (by omega)]
        omega)
    refine ⟨s1, ?_⟩
    have harith : 127 + 127 * (m + 1) = 127 * (m + 1 + 1) := by omega
    rw [h1, List.append_assoc, List.append_replicate_replicate, harith]

theorem wrapFatSector_length : wrapFatSector.length = 512 := wrapDif_facts.2.2.1

theorem wrapRoot_fat_data : wrapRootSource.data =
    (wrapHeaderBytes ++ (List.range 516).flatMap wrapDifSector) ++
      (wrapFatSector ++ wrapRootDirBytes) :=
  (List.append_assoc wrapHeaderBytes _ _).symm

theorem wrapRoot_dir_data : wrapRootSource.data =
    (wrapHeaderBytes ++ (List.range 516).flatMap wrapDifSector ++ wrapFatSector) ++
      (wrapRootDirBytes ++ []) := by
  rw [wrapRoot_fat_data, List.append_nil, List.append_assoc _ wrapFatSector]

theorem wrapRoot_header_data : wrapRootSource.data =
    [] ++ (wrapHeaderBytes ++ ((List.range 516).flatMap wrapDifSector ++
      (wrapFatSector ++ wrapRootDirBytes))) := rfl

theorem fat_slice_update (i k e : Nat) :
    (List.replicate (128 * i) e ++ List.replicate (128 * (k + 1)) 0).take (128 * i) ++
        List.replicate 128 e ++
        (List.replicate (128 * i) e ++ List.replicate (128 * (k + 1)) 0).drop (128 * i + 128) =
      List.replicate (128 * (i + 1)) e ++ List.replicate (128 * k) 0 := by
  have h := @List.drop_append _ (List.replicate (128 * i) e) (List.replicate (128 * (k + 1)) 0) 128
  rw [List.length_replicate] at h
  have a1 : 128 * i + 128 = 128 * (i + 1) := by omega
  have a2 : 128 * (k + 1) - 128 = 128 * k := by omega
  rw [List.take_left' (List.length_replicate _ _), h, List.drop_replicate,
    List.append_replicate_replicate, a1, a2]

theorem wrapRoot_readFat (dif : List Nat) (hdif : ∀ i, i < 65536 → dif[i]? = some 516) :
    ∀ (k i : Nat), i + k = 65536 → ∀ (s : IStream), ∃ s1,
      readFat wrapRootSource dif k i
        (List.replicate (128 * i) 0xfffffffe ++ List.replicate (128 * k) 0) s =
        (.ok (List.replicate 8388608 0xfffffffe), s1)
  | 0, i, hi, s => by
    have h0 : i = 65536 := by omega
    subst h0
    have h1 : 128 * 65536 = 8388608 := by omega
    refine ⟨s, ?_⟩
    rw [readFat, Nat.mul_zero, List.replicate_zero, List.append_nil, h1]
  | k + 1, i, hi, s => by
    have hi2 : i < 65536 := by omega
    obtain ⟨_, _, hfl, hfw, _⟩ := wrapDif_facts
    have hoff : sectOffset 516 = 512 * (516 + 1) := by decide
    have r := read_block_len wrapRootSource (fun _ => rfl) _ wrapFatSector _ SectSize hfl
      wrapRoot_fat_data (s.seekg (sectOffset 516))
      (by rw [wrapRoot_prefix_length]; exact hoff)
    have hslot : u32 (i * SectSize) / 4 = 128 * i := by
      unfold u32 SectSize
      rw [Nat.mod_eq_of_lt (by omega)]
      omega
    have h128 : SectSize / 4 = 128 := rfl
    have hcond : 128 * i + 128 ≤
        (List.replicate (128 * i) 0xfffffffe ++ List.replicate (128 * (k + 1)) 0).length := by
      rw [List.length_append, List.length_replicate, List.length_replicate]
      omega
    obtain ⟨s1, h1⟩ := wrapRoot_readFat dif hdif k (i + 1) (by omega)
      ⟨(s.seekg (sectOffset 516)).pos + SectSize,
        (s.seekg (sectOffset 516)).reads ++ [((s.seekg (sectOffset 516)).pos, SectSize)]⟩
    refine ⟨s1, ?_⟩
    rw [readFat, hdif i hi2]
    show andThen ((s.seekg (sectOffset 516)).read wrapRootSource SectSize) _ = _
    rw [r, andThen_ok_eq]
    show (if u32 (i * SectSize) / 4 + SectSize / 4 ≤ _ then _ else _) = _
    rw [hslot, h128, if_pos hcond, hfw, fat_slice_update, h1]

theorem readTables_of_parts (src : Source) (fuel : Nat) (s0 s1 s2 s3 s4 s5 : IStream)
    (hdr dif fat mf db : List Nat)
    (h1 : s0.read src SectSize = (.ok hdr, s1))
    (hc : checkHeader (parseHeader hdr) = true)
    (hgr : ∀ count size, 0 < size → count * size < 2 ^ 40 → src.request count size = none)
    (h2 : (if (parseHeader hdr).difSectNum > 0 then
            readDif src fuel (parseHeader hdr).fatSects s1
          else (.ok (parseHeader hdr).fatSects, s1)) = (.ok dif, s2))
    (h3 : readFat src dif (parseHeader hdr).fatSectNum 0
      (List.replicate (u32 ((parseHeader hdr).fatSectNum * SectSize) / 4) 0) s2 = (.ok fat, s3))
    (h4 : readChain src fat fuel (parseHeader hdr).miniFatBeginSect [] s3 = (.ok mf, s4))
    (h5 : readChain src fat fuel (parseHeader hdr).dirBeginSect [] s4 = (.ok db, s5)) :
    readTables src fuel s0 = (.ok ⟨parseHeader hdr, dif, fat, words mf, dirEntries db⟩, s5) := by
  unfold readTables
  rw [h1, andThen_ok_eq]
  simp only [hc, Bool.true_eq_false, if_false]
  have hu : ∀ x, u32 x < 2 ^ 32 := fun x => Nat.mod_lt _ (by decide)
  have g1 := hgr (u32 (FatEntriesInHeader + u32 (FatEntriesPerSect *
    (parseHeader hdr).difSectNum))) 4 (by decide) (by have := hu (FatEntriesInHeader +
      u32 (FatEntriesPerSect * (parseHeader hdr).difSectNum)); omega)
  have g2 := hgr (u32 ((parseHeader hdr).fatSectNum * SectSize) / 4) 4 (by decide)
    (by have := hu ((parseHeader hdr).fatSectNum * SectSize); omega)
  have g3 := hgr (u32 ((parseHeader hdr).miniFatSectNum * SectSize) / 4) 4 (by decide)
    (by have := hu ((parseHeader hdr).miniFatSectNum * SectSize); omega)
  have g4 := hgr (u32 ((parseHeader hdr).dirSectNum * SectSize) / DirEntrySize) DirEntrySize
    (by decide)
    (by have := hu ((parseHeader hdr).dirSectNum * SectSize)
        simp only [DirEntrySize]
        omega)
  rw [allocate_of_granted src _ _ _ g1, andThen_ok_eq, h2, andThen_ok_eq,
    allocate_of_granted src _ _ _ g2, andThen_ok_eq, h3, andThen_ok_eq,
    allocate_of_granted src _ _ _ g3, andThen_ok_eq, h4, andThen_ok_eq,
    allocate_of_granted src _ _ _ g4, andThen_ok_eq, h5, andThen_ok_eq]

theorem wrapRoot_granted (count size : Nat) (hsize : 0 < size)
    (h : count * size < 2 ^ 40) : wrapRootSource.request count size = none := by
  unfold Source.request
  by_cases h0 : count = 0
  · rw [if_pos h0]
  · have h1 : ¬ wrapRootSource.maxBytes / size < count := by
      show ¬ (2 ^ 63 - 1) / size < count
      rw [not_lt, Nat.le_div_iff_mul_le hsize]
      omega
    rw [if_neg h0, if_neg h1]
    rfl

theorem wrapRoot_header : checkHeader (parseHeader wrapHeaderBytes) = true ∧
    (parseHeader wrapHeaderBytes).difSectNum = 516 ∧
    (parseHeader wrapHeaderBytes).fatSectNum = 65536 ∧
    (parseHeader wrapHeaderBytes).fatSects = List.replicate 109 516 ∧
    (parseHeader wrapHeaderBytes).miniFatBeginSect = SectId.EndOfChain ∧
    (parseHeader wrapHeaderBytes).dirBeginSect = 517 := by decide!

theorem wrapRoot_readTables (fuel : Nat) (hfuel : 515 < fuel) :
    ∃ s5, readTables wrapRootSource fuel IStream.fresh = (.ok wrapRootTables, s5) := by
  obtain ⟨hc, hdn, hfn, hfs, hmb, hdb⟩ := wrapRoot_header
  obtain ⟨_, _, _, _, hdl⟩ := wrapDif_facts
  obtain ⟨f, rfl⟩ : ∃ f, fuel = f + 1 := ⟨fuel - 1, by omega⟩
  have r1 := read_block_len wrapRootSource (fun _ => rfl) [] wrapHeaderBytes _ SectSize
    wrapHeaderBytes_length wrapRoot_header_data IStream.fresh rfl
  obtain ⟨s2, h2⟩ := wrapRoot_readDif 515 (by omega) (f + 1) hfuel (List.replicate 109 516)
    ⟨IStream.fresh.pos + SectSize, IStream.fresh.reads ++ [(IStream.fresh.pos, SectSize)]⟩ rfl
  have hdif : List.replicate 109 516 ++ List.replicate (127 * (515 + 1)) 516 =
      List.replicate 65641 516 := by
    rw [List.append_replicate_replicate]
  rw [hdif] at h2
  have hfat0 : List.replicate (u32 (65536 * SectSize) / 4) 0 =
      List.replicate (128 * 0) 0xfffffffe ++ List.replicate (128 * 65536) 0 := by
    rw [Nat.mul_zero, List.replicate_zero, List.nil_append]
    rfl
  obtain ⟨s3, h3⟩ := wrapRoot_readFat (List.replicate 65641 516)
    (fun i hi => getElem?_replicate_lt 65641 i 516 (by omega)) 65536 0 rfl s2
  rw [← hfat0] at h3
  have h4 : readChain wrapRootSource (List.replicate 8388608 0xfffffffe) (f + 1)
      SectId.EndOfChain [] s3 = (.ok [], s3) := readChain_endOfChain _ _ _ _ _
  have r5 := read_block_len wrapRootSource (fun _ => rfl) _ wrapRootDirBytes [] SectSize hdl
    wrapRoot_dir_data (s3.seekg (sectOffset 517))
    (by
      rw [List.length_append, wrapRoot_prefix_length, wrapFatSector_length]
      show sectOffset 517 = _
      decide)
  have h5 := readChain_step wrapRootSource (List.replicate 8388608 0xfffffffe) f 517
    SectId.EndOfChain [] wrapRootDirBytes s3 _ (by decide) r5
    (getElem?_replicate_lt 8388608 517 0xfffffffe (by omega))
  rw [readChain_endOfChain, List.nil_append] at h5
  have h := readTables_of_parts wrapRootSource (f + 1) IStream.fresh _ s2 s3 s3 _
    wrapHeaderBytes (List.replicate 65641 516) (List.replicate 8388608 0xfffffffe) []
    wrapRootDirBytes r1 hc wrapRoot_granted
    (by rw [hdn, hfs, if_pos (by omega)]; exact h2)
    (by rw [hfn]; exact h3)
    (by rw [hmb]; exact h4)
    (by rw [hdb]; exact h5)
  exact ⟨_, h⟩

theorem wrapRoot_dirs :
    wrapRootTables.dirs = wrapRootEntry :: wrapRootTables.dirs.tail ∧
    wrapRootEntry.objType = ObjType.RootStorage ∧ wrapRootEntry.startSect = 8388607 ∧
    miniStreamHead wrapRootEif = 8388607 := by
  decide!

theorem wrapRoot_construct (fuel : Nat) (hfuel : 515 < fuel) :
    ∃ s, construct wrapRootSource fuel = (.ok wrapRootEif, s) := by
  obtain ⟨s5, ht⟩ := wrapRoot_readTables fuel hfuel
  obtain ⟨hd, hr, hs, _⟩ := wrapRoot_dirs
  obtain ⟨f, rfl⟩ : ∃ f, fuel = f + 1 := ⟨fuel - 1, by omega⟩
  have hoff : sectOffset 8388607 = 0 := by decide
  have r := read_block_len wrapRootSource (fun _ => rfl) [] wrapHeaderBytes _ SectSize
    wrapHeaderBytes_length wrapRoot_header_data (s5.seekg (sectOffset 8388607)) hoff
  have hms := readChain_step wrapRootSource wrapRootTables.fat f 8388607
    SectId.EndOfChain [] wrapHeaderBytes s5 _ (by decide) r
    (getElem?_replicate_lt 8388608 8388607 0xfffffffe (by omega))
  rw [readChain_endOfChain, List.nil_append] at hms
  have h := construct_of_parts wrapRootSource (f + 1) wrapRootTables s5 _ wrapRootEntry _
    wrapHeaderBytes ht hd hr (wrapRoot_granted _ 1 (by decide) (by decide))
    (by rw [hs]; exact hms)
  exact ⟨_, h⟩

theorem wrapRootBytes_length : wrapRootBytes.length = 265728 := by
  have h : wrapRootBytes = (wrapHeaderBytes ++ (List.range 516).flatMap wrapDifSector) ++
      (wrapFatSector ++ wrapRootDirBytes) := wrapRoot_fat_data
  rw [h, List.length_append, wrapRoot_prefix_length, List.length_append, wrapFatSector_length,
    wrapDif_facts.2.2.2.2]

theorem decoderOf_of_ok (src : Source) (fuel : Nat) (eif : EifFile) (s : IStream)
    (h : construct src fuel = (.ok eif, s)) :
    (construct src fuel).1.outcome = .ok () ∧ decoderOf src fuel = eif := by
  unfold decoderOf
  rw [h]
  exact ⟨rfl, rfl⟩

theorem wrapRoot_decoder : (construct wrapRootSource 516).1.outcome = .ok () ∧
    decoderOf wrapRootSource 516 = wrapRootEif := by
  obtain ⟨s, h⟩ := wrapRoot_construct 516 (by omega)
  exact decoderOf_of_ok _ _ _ s h

theorem wrapRoot_fat : wrapRootEif.fat[8388607]? = some SectId.EndOfChain :=
  getElem?_replicate_lt 8388608 8388607 0xfffffffe (by omega)

theorem wrapRoot_cursors : chainCursors wrapRootEif.fat 516 8388607 = [8388607] := by
  have h1 := chainCursors_step wrapRootEif.fat 515 8388607 SectId.EndOfChain (by decide)
    wrapRoot_fat
  rw [chainCursors_endOfChain] at h1
  exact h1

theorem wrapRoot_sector : sector wrapRootSource 8388607 = [] := by
  apply sector_past_end
  show wrapRootBytes.length ≤ _
  rw [wrapRootBytes_length]
  decide

theorem wrapRoot_miniStream : wrapRootEif.miniStream = wrapHeaderBytes := rfl

/-- C17. The file holds 519 sectors: the header, 516 DIFAT sectors
whose entries all name sector 516, the FAT sector 516 filled with `EndOfChain`, and
the directory sector 517 whose root entry has the start sector `2^23 - 1`.
Construction succeeds with a FAT of `2^23` entries; the mini-stream chain has the
single cursor `2^23 - 1`, whose offset `(2^23 - 1 + 1) * 512 = 2^32` wraps to 0: the
mini-stream is the header sector, 512 bytes, whereas the file holds no byte at offset
`2^32` and the concatenation of the sectors of the chain is empty. -/
theorem chain_table_wraps :
    (construct wrapRootSource 516).1.outcome = .ok () ∧
    miniStreamHead (decoderOf wrapRootSource 516) = 8388607 ∧
    chainCursors (decoderOf wrapRootSource 516).fat 516 8388607 = [8388607] ∧
    chainSectors wrapRootSource (decoderOf wrapRootSource 516).fat 516 8388607 = [] ∧
    (decoderOf wrapRootSource 516).miniStream = wrapHeaderBytes ∧
    wrapHeaderBytes.length = 512 := by
  obtain ⟨hok, hdec⟩ := wrapRoot_decoder
  rw [hdec]
  refine ⟨hok, wrapRoot_dirs.2.2.2, wrapRoot_cursors, ?_, wrapRoot_miniStream,
    wrapHeaderBytes_length⟩
  unfold chainSectors
  rw [wrapRoot_cursors, List.flatMap_cons, wrapRoot_sector]
  rfl



/-- While no cursor `c` of the three chains has `(c + 1) * 512` outside the 32-bit
range, a successful construction has followed each of its chains of the FAT to
`EndOfChain`, and the table built along a chain is the concatenation
of the 512-byte sectors at its cursors `s0, s1 = FAT[s0], ...` before `EndOfChain`:
the MiniFAT from `header.miniFatBeginSect` as 128 words per sector, the directory
array from `header.dirBeginSect` as 4 records per sector, the mini-stream from
`startSect` of entry 0 as raw bytes. The lengths are 128, 4 and 512 times the number
of cursors (no other header field and no stream size occurs), and a head equal to
`EndOfChain` gives an empty MiniFAT or mini-stream (an empty directory array makes
the constructor fail). -/
theorem chain_built_tables (src : Source) (fuel : Nat) (eif : EifFile) (s : IStream)
    (h : construct src fuel = (.ok eif, s))
    (hmf : cursorsFit (chainCursors eif.fat fuel eif.header.miniFatBeginSect) = true)
    (hdir : cursorsFit (chainCursors eif.fat fuel eif.header.dirBeginSect) = true)
    (hms : cursorsFit (chainCursors eif.fat fuel (miniStreamHead eif)) = true) :
    (chainReaches eif.fat fuel eif.header.miniFatBeginSect = true ∧
      eif.miniFat = words (chainSectors src eif.fat fuel eif.header.miniFatBeginSect) ∧
      eif.miniFat.length =
        128 * (chainCursors eif.fat fuel eif.header.miniFatBeginSect).length) ∧
    (chainReaches eif.fat fuel eif.header.dirBeginSect = true ∧
      eif.dirs = dirEntries (chainSectors src eif.fat fuel eif.header.dirBeginSect) ∧
      eif.dirs.length = 4 * (chainCursors eif.fat fuel eif.header.dirBeginSect).length) ∧
    (chainReaches eif.fat fuel (miniStreamHead eif) = true ∧
      eif.miniStream = chainSectors src eif.fat fuel (miniStreamHead eif) ∧
      eif.miniStream.length = 512 * (chainCursors eif.fat fuel (miniStreamHead eif)).length) ∧
    (eif.header.miniFatBeginSect = SectId.EndOfChain → eif.miniFat = []) ∧
    (miniStreamHead eif = SectId.EndOfChain → eif.miniStream = []) := by
  obtain ⟨t, s5, root, rest, ht, hd, hroot, hchain, he⟩ := construct_ok_spec src fuel eif s h
  obtain ⟨_, _, hmfe, hdire, hmfl, hdirl⟩ := readTables_ok_spec src fuel t s5 ht
  have e1 : eif.fat = t.fat := by rw [he]
  have e2 : eif.header = t.header := by rw [he]
  have e3 : eif.miniFat = t.miniFat := by rw [he]
  have e4 : eif.dirs = t.dirs := by rw [he]
  have e5 : miniStreamHead eif = root.startSect := by
    unfold miniStreamHead
    rw [e4, hd]
  rw [e1, e2] at hmf hdir
  rw [e1, e5] at hms
  rw [e1, e2, e3, e4, e5]
  obtain ⟨hmse, hmsl, _⟩ := readChain_ok_spec src t.fat fuel _ _ _ _ _ hchain
  have hr3 := readChain_ok_reaches src t.fat fuel _ _ _ _ _ hchain
  have hparts : ∃ s3 s4 mf db,
      readChain src t.fat fuel t.header.miniFatBeginSect [] s3 = (.ok mf, s4) ∧
      readChain src t.fat fuel t.header.dirBeginSect [] s4 = (.ok db, s5) := by
    obtain ⟨_, _, _, s3, s4, mf, db, _, _, _, _, _, h4, h5, _, _⟩ :=
      readTables_ok_parts src fuel _ t s5 ht
    exact ⟨s3, s4, mf, db, h4, h5⟩
  obtain ⟨s3, s4, mf, db, h4, h5⟩ := hparts
  have hr1 := readChain_ok_reaches src t.fat fuel _ _ _ _ _ h4
  have hr2 := readChain_ok_reaches src t.fat fuel _ _ _ _ _ h5
  rw [chainSectors_of_fit src _ _ _ hmf] at hmfe
  rw [chainSectors_of_fit src _ _ _ hdir] at hdire
  rw [chainSectors_of_fit src _ _ _ hms, List.nil_append] at hmse
  refine ⟨⟨hr1, hmfe, hmfl⟩, ⟨hr2, hdire, hdirl⟩, ⟨hr3, ?_, ?_⟩, ?_, ?_⟩
  · exact hmse
  · rw [hmsl]
    simp [SectSize]
  · intro h0
    rw [hmfe, chainSectors, h0, chainCursors_endOfChain]
    rfl
  · intro h0
    rw [hmse, chainSectors, h0, chainCursors_endOfChain]
    rfl

theorem chain_built_tables_witness :
    construct exampleSource 4 = (.ok exampleEif, exampleFinal) ∧
    chainCursors exampleEif.fat 4 exampleEif.header.miniFatBeginSect = [2] ∧
    chainCursors exampleEif.fat 4 exampleEif.header.dirBeginSect = [1] ∧
    chainCursors exampleEif.fat 4 (miniStreamHead exampleEif) = [3] ∧
    exampleEif.miniFat = words (chainSectors exampleSource exampleEif.fat 4 2) ∧
    exampleEif.dirs = dirEntries (chainSectors exampleSource exampleEif.fat 4 1) ∧
    exampleEif.miniStream = chainSectors exampleSource exampleEif.fat 4 3 :=
  have h := chain_built_tables exampleSource 4 exampleEif exampleFinal example_construct
    (by decide!) (by decide!) (by decide!)
  ⟨example_construct, by decide!, by decide!, by decide!, h.1.2.1, h.2.1.2.1, h.2.2.1.2.1⟩

end Uneif
